import Mathlib

/-! # capnpc-pgo: schema-graph naming, type mapping and declaration emission

A shallow embedding of `capnpc-pgo.go` (the Cap'n Proto to plain Go generator of
`tpukep/caps`).  The decoded schema objects (`Node`, `Field`, `Type`, `Value`, ...) are
plain records; the Go `node` wrapper is split into its immutable part (`Node`, found
through the registry `g_nodes`) and its mutable part (`node`: `pkg`, `imp`, `nodes`,
`name`, `codecs`), stored per node ID.  A pointer `*node` is the ID under which the node
is registered.  `io.Writer` output is the string written; a Go `panic` is
`Except.error (Err.panic msg)`; recursion over the schema graph takes a fuel argument and
`Err.fuel` marks a run longer than the fuel (the Go code would still be running).
-/

namespace Caps

/-! ## Strings: `strings.Title`, `strings.ToUpper`

Both are exact on ASCII; the Unicode case tables beyond ASCII are not modelled (a
non-ASCII rune is mapped to itself). -/

/-- Go `unicode.IsSpace` restricted to the non-ASCII code points. -/
def isUnicodeSpace (c : Char) : Bool :=
  c.toNat == 0x85 || c.toNat == 0xA0 || c.toNat == 0x1680 ||
  (0x2000 ≤ c.toNat && c.toNat ≤ 0x200A) || c.toNat == 0x2028 || c.toNat == 0x2029 ||
  c.toNat == 0x202F || c.toNat == 0x205F || c.toNat == 0x3000

/-- Go `strings.isSeparator`: ASCII alphanumerics and underscore are not separators, other
ASCII runes are; beyond ASCII only spaces are separators. -/
def isSeparator (c : Char) : Bool :=
  if c.toNat ≤ 0x7F then
    !((48 ≤ c.toNat && c.toNat ≤ 57) || (97 ≤ c.toNat && c.toNat ≤ 122) ||
      (65 ≤ c.toNat && c.toNat ≤ 90) || c.toNat == 95)
  else isUnicodeSpace c

/-- Upper/title case of one rune (ASCII letters; other runes unchanged). -/
def upperRune (c : Char) : Char :=
  if 97 ≤ c.toNat ∧ c.toNat ≤ 122 then Char.ofNat (c.toNat - 32) else c

/-- The rune loop of `strings.Title`: `prev` is the previously read rune. -/
def titleRunes : Char → List Char → List Char
  | _, [] => []
  | prev, r :: rs => (if isSeparator prev then upperRune r else r) :: titleRunes r rs

/-- Go `strings.Title`. -/
def title (s : String) : String := String.mk (titleRunes ' ' s.data)

/-- Go `strings.ToUpper`. -/
def ToUpper (s : String) : String := String.mk (s.data.map upperRune)

/-- Decimal digits of a natural number, most significant first, appended to `acc`. -/
def natDigits : Nat → Nat → List Char → List Char
  | 0, _, acc => acc
  | fuel + 1, n, acc =>
    if n < 10 then Char.ofNat (48 + n) :: acc
    else natDigits fuel (n / 10) (Char.ofNat (48 + n % 10) :: acc)

/-- The `%d` rendering of an unsigned value. -/
def fmtNat (n : Nat) : String := String.mk (natDigits (n + 1) n [])

/-- The `%d` rendering of a signed value. -/
def fmtInt : Int → String
  | Int.ofNat n => fmtNat n
  | Int.negSucc n => "-" ++ fmtNat (n + 1)

/-! ## Errors -/

/-- How a modelled call can end without a result. -/
inductive Err where
  /-- A Go `panic` (failed `assert`, index out of range, nil dereference). -/
  | panic (msg : String)
  /-- The recursion fuel ran out. -/
  | fuel
  deriving DecidableEq, Repr

/-! ## Decoded schema objects -/

/-- Annotation identifiers.  They are opaque 64-bit keys of an external catalog; the keys
the generator compares against get one constructor each (`C.*` of the wire library,
`caps.*` of the annotation catalog), any other key is `other k`. -/
inductive AnnotationId where
  | Name | Doc | Tag | Notag | Customtype | Package | Import
  | Required | Optional | Ignored
  | Multof | Min | Max | Format | Pattern | Minlen | Maxlen | Unique
  | Capnp | Json | Msgp
  | other (k : Nat)
  deriving DecidableEq, Repr

/-- The tag of a `Type` union, in schema order (`TYPE_VOID` = 0 ... `TYPE_ANYPOINTER` = 18). -/
inductive Type_Which where
  | TYPE_VOID | TYPE_BOOL | TYPE_INT8 | TYPE_INT16 | TYPE_INT32 | TYPE_INT64
  | TYPE_UINT8 | TYPE_UINT16 | TYPE_UINT32 | TYPE_UINT64 | TYPE_FLOAT32 | TYPE_FLOAT64
  | TYPE_TEXT | TYPE_DATA | TYPE_LIST | TYPE_ENUM | TYPE_STRUCT | TYPE_INTERFACE
  | TYPE_ANYPOINTER
  deriving DecidableEq, Repr

open Type_Which

/-- Numeric value of a type tag. -/
def Type_Which.toNat : Type_Which → Nat
  | TYPE_VOID => 0 | TYPE_BOOL => 1 | TYPE_INT8 => 2 | TYPE_INT16 => 3 | TYPE_INT32 => 4
  | TYPE_INT64 => 5 | TYPE_UINT8 => 6 | TYPE_UINT16 => 7 | TYPE_UINT32 => 8
  | TYPE_UINT64 => 9 | TYPE_FLOAT32 => 10 | TYPE_FLOAT64 => 11 | TYPE_TEXT => 12
  | TYPE_DATA => 13 | TYPE_LIST => 14 | TYPE_ENUM => 15 | TYPE_STRUCT => 16
  | TYPE_INTERFACE => 17 | TYPE_ANYPOINTER => 18

/-- A schema type reference (`Type` of the schema). -/
inductive SchemaType where
  | void | bool | int8 | int16 | int32 | int64 | uint8 | uint16 | uint32 | uint64
  | float32 | float64 | text | data
  | list (elementType : SchemaType)
  | enum (typeId : Nat)
  | struct (typeId : Nat)
  | interface (typeId : Nat)
  | anyPointer
  deriving DecidableEq, Repr

/-- The accessor `Type.Which()`. -/
def SchemaType.Which : SchemaType → Type_Which
  | .void => TYPE_VOID | .bool => TYPE_BOOL | .int8 => TYPE_INT8 | .int16 => TYPE_INT16
  | .int32 => TYPE_INT32 | .int64 => TYPE_INT64 | .uint8 => TYPE_UINT8
  | .uint16 => TYPE_UINT16 | .uint32 => TYPE_UINT32 | .uint64 => TYPE_UINT64
  | .float32 => TYPE_FLOAT32 | .float64 => TYPE_FLOAT64 | .text => TYPE_TEXT
  | .data => TYPE_DATA | .list _ => TYPE_LIST | .enum _ => TYPE_ENUM
  | .struct _ => TYPE_STRUCT | .interface _ => TYPE_INTERFACE | .anyPointer => TYPE_ANYPOINTER

/-- The tag of a `Value` union. -/
inductive Value_Which where
  | VALUE_VOID | VALUE_BOOL | VALUE_INT8 | VALUE_INT16 | VALUE_INT32 | VALUE_INT64
  | VALUE_UINT8 | VALUE_UINT16 | VALUE_UINT32 | VALUE_UINT64 | VALUE_FLOAT32
  | VALUE_FLOAT64 | VALUE_TEXT | VALUE_DATA | VALUE_LIST | VALUE_ENUM | VALUE_STRUCT
  | VALUE_INTERFACE | VALUE_ANYPOINTER
  deriving DecidableEq, Repr

open Value_Which

/-- The target of a pointer-typed value (list, struct, any-pointer), as the accessors of
the wire library show it.  As a struct: the bytes of its data section and the texts its
pointer section refers to.  As a list: its length (`ToVoidList().Len()`) and its elements
under the typed views, `bits` for `ToBitList`, `ints` for the signed and `nats` for the
unsigned integer lists (and `ToEnumArray`), `floats` (IEEE bit patterns) for the float
lists, `textList` for `ToTextList` and `dataList` for `ToDataList`. -/
structure Object where
  data : List Nat := []
  texts : List String := []
  len : Nat := 0
  bits : List Bool := []
  ints : List Int := []
  nats : List Nat := []
  floats : List Nat := []
  textList : List String := []
  dataList : List (List Nat) := []
  deriving DecidableEq, Repr

/-- A tagged constant or default value.  Floats carry their IEEE bit pattern. -/
inductive Value where
  | void
  | bool (b : Bool)
  | int8 (v : Int) | int16 (v : Int) | int32 (v : Int) | int64 (v : Int)
  | uint8 (v : Nat) | uint16 (v : Nat) | uint32 (v : Nat) | uint64 (v : Nat)
  | float32 (bits : Nat) | float64 (bits : Nat)
  | text (s : String)
  | data (bytes : List Nat)
  | list (p : Object)
  | enum (v : Nat)
  | struct (p : Object)
  | interface
  | anyPointer (p : Object)
  deriving DecidableEq, Repr

/-- The accessor `Value.Which()`. -/
def Value.Which : Value → Value_Which
  | .void => VALUE_VOID | .bool _ => VALUE_BOOL | .int8 _ => VALUE_INT8
  | .int16 _ => VALUE_INT16 | .int32 _ => VALUE_INT32 | .int64 _ => VALUE_INT64
  | .uint8 _ => VALUE_UINT8 | .uint16 _ => VALUE_UINT16 | .uint32 _ => VALUE_UINT32
  | .uint64 _ => VALUE_UINT64 | .float32 _ => VALUE_FLOAT32 | .float64 _ => VALUE_FLOAT64
  | .text _ => VALUE_TEXT | .data _ => VALUE_DATA | .list _ => VALUE_LIST
  | .enum _ => VALUE_ENUM | .struct _ => VALUE_STRUCT | .interface => VALUE_INTERFACE
  | .anyPointer _ => VALUE_ANYPOINTER

/-- The accessor `Value.Text()`; a value of another tag reads as the empty text. -/
def Value.Text : Value → String
  | .text s => s
  | _ => ""

/-- The accessor `Value.Data()`; a value of another tag reads as no bytes. -/
def Value.Data : Value → List Nat
  | .data b => b
  | _ => []

/-- The accessor `Value.Int32()`; a value of another tag reads as zero. -/
def Value.Int32 : Value → Int
  | .int32 v => v
  | _ => 0

/-- The accessor `Value.Int64()`; a value of another tag reads as zero. -/
def Value.Int64 : Value → Int
  | .int64 v => v
  | _ => 0

/-- An applied annotation: the annotation's ID and its value. -/
structure Annotation where
  id : AnnotationId
  value : Value := Value.void
  deriving DecidableEq, Repr

/-- An entry of a nested-node list. -/
structure NestedNode where
  id : Nat
  name : String
  deriving DecidableEq, Repr

/-- The tag of a `Field` union. -/
inductive Field_Which where
  | FIELD_SLOT | FIELD_GROUP
  deriving DecidableEq, Repr

open Field_Which

/-- The slot part of a field. -/
structure FieldSlot where
  offset : Nat := 0
  type : SchemaType := SchemaType.void
  defaultValue : Value := Value.void
  deriving DecidableEq, Repr

/-- The group part of a field. -/
structure FieldGroup where
  typeId : Nat := 0
  deriving DecidableEq, Repr

/-- A struct field.  As in the Go accessors, `slot` and `group` can both be read whatever
`which` says. -/
structure Field where
  name : String := ""
  codeOrder : Nat := 0
  annotations : List Annotation := []
  discriminantValue : Nat := 0xFFFF
  which : Field_Which := FIELD_SLOT
  slot : FieldSlot := {}
  group : FieldGroup := {}
  deriving DecidableEq, Repr

/-- The Go zero value of `Field` (an element of `make([]Field, n)` never assigned): every
accessor reads its schema default. -/
def Field.zero : Field := {}

/-- An enumerant of an enum node. -/
structure Enumerant where
  name : String := ""
  codeOrder : Nat := 0
  annotations : List Annotation := []
  deriving DecidableEq, Repr

/-- The tag of a `Node` union. -/
inductive Node_Which where
  | NODE_FILE | NODE_STRUCT | NODE_ENUM | NODE_INTERFACE | NODE_CONST | NODE_ANNOTATION
  deriving DecidableEq, Repr

open Node_Which

/-- The struct part of a node. -/
structure Node_Struct where
  isGroup : Bool := false
  discriminantCount : Nat := 0
  fields : List Field := []
  deriving DecidableEq, Repr

/-- The enum part of a node. -/
structure Node_Enum where
  enumerants : List Enumerant := []
  deriving DecidableEq, Repr

/-- The const part of a node. -/
structure Node_Const where
  type : SchemaType := SchemaType.void
  value : Value := Value.void
  deriving DecidableEq, Repr

/-- A decoded schema node.  As in the Go accessors, `struct`, `enum` and `const` can be
read whatever `which` says. -/
structure Node where
  id : Nat
  displayName : String := ""
  nestedNodes : List NestedNode := []
  annotations : List Annotation := []
  which : Node_Which := NODE_FILE
  struct : Node_Struct := {}
  enum : Node_Enum := {}
  const : Node_Const := {}
  deriving DecidableEq, Repr

/-- The fields the Go `node` wrapper adds to a decoded `Node`; `nodes` holds node IDs. -/
structure node where
  pkg : String := ""
  imp : String := ""
  nodes : List Nat := []
  name : String := ""
  codecs : List AnnotationId := []
  deriving DecidableEq, Repr

/-- The registry `g_nodes`: the registered nodes, the entry found first for an ID being
the one the map holds. -/
abbrev Registry := List Node

/-- The map read `g_nodes[id]` (`none` is the nil pointer). -/
def Registry.get (g : Registry) (id : Nat) : Option Node :=
  g.find? (fun n => n.id == id)

/-- The mutable part of every node, by node ID. -/
abbrev Vars := Nat → node

/-- Go `findNode`: the registered node, or a panic. -/
def findNode (g : Registry) (id : Nat) : Except Err Node :=
  match g.get id with
  | some n => .ok n
  | none => .error (Err.panic "could not find node")

/-! ## Name resolution -/

/-- Go `nameAnnotation`: the text of the first `Name` annotation whose text is not empty. -/
def nameAnnotation : List Annotation → String
  | [] => ""
  | a :: rest =>
    if a.id = AnnotationId.Name then
      if a.value.Text ≠ "" then a.value.Text else nameAnnotation rest
    else nameAnnotation rest

/-- The loop over `n.NestedNodes()` in `resolveName`: unregistered IDs are skipped, a
registered one is resolved with the current `n.name` as prefix. -/
def resolveNested (g : Registry) (rec : Nat → String → String → Vars → Except Err Vars)
    (nid : Nat) : List NestedNode → Vars → Except Err Vars
  | [], st => .ok st
  | nn :: rest, st =>
    match g.get nn.id with
    | none => resolveNested g rec nid rest st
    | some _ =>
      match rec nn.id (st nid).name nn.name st with
      | .ok st1 => resolveNested g rec nid rest st1
      | .error e => .error e

/-- The loop over `n.Struct().Fields()` in `resolveName`: every Group field's target is
looked up with `findNode` and resolved under the field's effective name. -/
def resolveGroups (g : Registry) (rec : Nat → String → String → Vars → Except Err Vars)
    (nid : Nat) : List Field → Vars → Except Err Vars
  | [], st => .ok st
  | f :: rest, st =>
    if f.which = FIELD_GROUP then
      let gname := if nameAnnotation f.annotations ≠ "" then nameAnnotation f.annotations
        else f.name
      match findNode g f.group.typeId with
      | .error e => .error e
      | .ok _ =>
        match rec f.group.typeId (st nid).name gname st with
        | .ok st1 => resolveGroups g rec nid rest st1
        | .error e => .error e
    else resolveGroups g rec nid rest st

/-- The assignments `resolveName` makes to `n` and to `file` before it recurses. -/
def resolveOwn (n : Node) (file nid : Nat) (base name : String) (st : Vars) : Vars :=
  let name := if nameAnnotation n.annotations ≠ "" then nameAnnotation n.annotations else name
  let st1 := Function.update st nid
    { st nid with name := if base ≠ "" then base ++ title name else title name }
  let st2 := Function.update st1 nid { st1 nid with pkg := (st1 file).pkg }
  let st3 := Function.update st2 nid { st2 nid with imp := (st2 file).imp }
  if n.which ≠ NODE_STRUCT ∨ ¬ n.struct.isGroup = true then
    Function.update st3 file { st3 file with nodes := (st3 file).nodes ++ [nid] }
  else st3

/-- Go `(n *node) resolveName(base, name, file)`; `nid` is `n`, `file` the file node's ID. -/
def resolveName (g : Registry) (file : Nat) :
    Nat → Nat → String → String → Vars → Except Err Vars
  | 0, _, _, _, _ => .error Err.fuel
  | fuel + 1, nid, base, name, st =>
    match g.get nid with
    | none => .error (Err.panic "nil pointer dereference")
    | some n =>
      match resolveNested g (resolveName g file fuel) nid n.nestedNodes
          (resolveOwn n file nid base name st) with
      | .error e => .error e
      | .ok st1 =>
        if n.which = NODE_STRUCT then
          resolveGroups g (resolveName g file fuel) nid n.struct.fields st1
        else .ok st1

/-! ## Reading the walk: effective names, entries, edges -/

/-- The effective raw name: the text of the first name-override annotation with a
non-empty text, else the declared name. -/
def effectiveName (anns : List Annotation) (declared : String) : String :=
  match anns.find? (fun a => decide (a.id = AnnotationId.Name ∧ a.value.Text ≠ "")) with
  | some a => a.value.Text
  | none => declared

/-- The target name built from a prefix and an effective raw name. -/
def targetName (base eff : String) : String :=
  if base ≠ "" then base ++ title eff else title eff

/-- The entries `resolveName` follows from a node, in the order it follows them: the
registered nested nodes under their nested-node names, then (for a struct) the Group
fields' targets under the fields' effective names. -/
def entries (g : Registry) (n : Node) : List (Nat × String) :=
  (n.nestedNodes.filter (fun nn => (g.get nn.id).isSome)).map (fun nn => (nn.id, nn.name)) ++
  (if n.which = NODE_STRUCT then
    (n.struct.fields.filter (fun f => decide (f.which = FIELD_GROUP))).map
      (fun f => (f.group.typeId, effectiveName f.annotations f.name))
   else [])

/-- The IDs `resolveName` recurses into from the node registered as `p`. -/
def childIds (g : Registry) (p : Nat) : List Nat :=
  match g.get p with
  | none => []
  | some n => (entries g n).map Prod.fst

/-- An edge of the resolution walk: `c` is a registered nested node of `p`, or the target
of a Group field of the struct `p`. -/
def Edge (g : Registry) (p c : Nat) : Prop :=
  ∃ n, g.get p = some n ∧
    ((∃ nn ∈ n.nestedNodes, nn.id = c ∧ (g.get c).isSome = true) ∨
     (n.which = NODE_STRUCT ∧ ∃ f ∈ n.struct.fields, f.which = FIELD_GROUP ∧ f.group.typeId = c))

/-- With fuel `k` the walk from `x` returns, whatever the prefix, the name and the state. -/
def Terminates (g : Registry) (file k x : Nat) : Prop :=
  ∀ b nm st, ∃ st', resolveName g file k x b nm st = .ok st'

/-- The two loops of `resolveName` read as one loop over the node's entries. -/
def walkEntries (rec : Nat → String → String → Vars → Except Err Vars) (x : Nat) :
    List (Nat × String) → Vars → Except Err Vars
  | [], st => .ok st
  | e :: rest, st =>
    match rec e.1 (st x).name e.2 st with
    | .ok st1 => walkEntries rec x rest st1
    | .error err => .error err

/-- Every entry of every registered node, registry order first. -/
def allEntryTargets (g : Registry) : List Nat :=
  g.flatMap (fun n => childIds g n.id)

/-! ## Example schema -/

/-- The Group field `u` of the example struct. -/
def exampleFieldU : Field :=
  { name := "u", codeOrder := 1, which := FIELD_GROUP, group := ⟨4⟩ }

/-- The Group field `v` of the example struct, renamed `w`. -/
def exampleFieldV : Field :=
  { name := "v", codeOrder := 2, which := FIELD_GROUP, group := ⟨5⟩,
    annotations := [⟨AnnotationId.Name, Value.text "w"⟩] }

/-- The struct `point` of the example: renamed `pt`, with a nested enum, a slot and two
Group fields. -/
def examplePoint : Node :=
  { id := 2, which := NODE_STRUCT, nestedNodes := [⟨3, "kind"⟩],
    annotations := [⟨AnnotationId.Name, Value.text "pt"⟩],
    struct := { fields := [
      { name := "x", codeOrder := 0, slot := { type := SchemaType.int32 } },
      exampleFieldU, exampleFieldV] } }

/-- The enum `kind` nested in the example struct. -/
def exampleKind : Node := { id := 3, which := NODE_ENUM }

/-- The group node behind the field `u`. -/
def exampleGroupU : Node := { id := 4, which := NODE_STRUCT, struct := { isGroup := true } }

/-- The group node behind the field `v`; it carries a name override of its own. -/
def exampleGroupV : Node :=
  { id := 5, which := NODE_STRUCT, struct := { isGroup := true },
    annotations := [⟨AnnotationId.Name, Value.text "zz"⟩] }

/-- The example registry: a file (1) nesting `point` (2) and an unregistered ID (9); the
enum `kind` (3) nested in `point`; the group nodes 4 and 5. -/
def exampleRegistry : Registry := [
  { id := 1, which := NODE_FILE, nestedNodes := [⟨2, "point"⟩, ⟨9, "gone"⟩] },
  examplePoint, exampleKind, exampleGroupU, exampleGroupV]

/-- The state before resolution: only the file's package and import are set. -/
def exampleVars : Vars := fun i => if i = 1 then { pkg := "p", imp := "pkg/a" } else {}

/-! ## Cross-file names -/

/-- Equality of results is decidable when equality of errors and of values is. -/
instance instDecidableEqExcept {ε α : Type} [DecidableEq ε] [DecidableEq α] :
    DecidableEq (Except ε α)
  | .ok x, .ok y => if h : x = y then isTrue (by rw [h]) else isFalse (fun h' => h (by cases h'; rfl))
  | .error x, .error y =>
    if h : x = y then isTrue (by rw [h]) else isFalse (fun h' => h (by cases h'; rfl))
  | .ok _, .error _ => isFalse (fun h => by cases h)
  | .error _, .ok _ => isFalse (fun h => by cases h)

/-- The map write `g_imported[k] = true` on the accumulated import set. -/
def markImported (k : String) (g_imported : List String) : List String :=
  if k ∈ g_imported then g_imported else g_imported ++ [k]

/-- Go `(n *node) remoteScope(from)`: the package qualifier of `n` seen from `from`, and
the import set afterwards. -/
def remoteScope (n from_ : node) (g_imported : List String) :
    Except Err (String × List String) :=
  if n.pkg = "" then .error (Err.panic "missing package declaration")
  else if n.imp = from_.imp then .ok ("", g_imported)
  else if n.imp = "" then .error (Err.panic "missing import declaration")
  else .ok (n.pkg ++ ".", markImported n.imp g_imported)

/-- Go `(n *node) remoteName(from)`. -/
def remoteName (n from_ : node) (g_imported : List String) :
    Except Err (String × List String) :=
  match remoteScope n from_ g_imported with
  | .ok (scope, imported) => .ok (scope ++ n.name, imported)
  | .error e => .error e

/-! ## Type mapping -/

/-- The loop that renders bytes as `b0, b1, ...` (`%d` each, `", "` before all but the
first). -/
def joinBytes : List Nat → String
  | [] => ""
  | b :: rest => rest.foldl (fun acc x => acc ++ ", " ++ fmtNat x) (fmtNat b)

/-- The check `assert(def.Which() == VALUE_VOID || def.Which() == tag, msg)`. -/
def assertDefault (d : Value) (tag : Value_Which) (msg : String) : Except Err Unit :=
  if d.Which = VALUE_VOID ∨ d.Which = tag then .ok () else .error (Err.panic msg)

/-- The final `panic("Unsupported type. Type_Which=" + ...)` of `TypeName`. -/
def unsupportedType (t : SchemaType) : Err :=
  Err.panic ("Unsupported type. Type_Which=" ++ fmtNat t.Which.toNat)

/-- Go `(s FieldSlot) TypeName(n, customtype)`: the Go type of a slot, and the import set
afterwards.  `n` is the referencing node. -/
def TypeName (g : Registry) (st : Vars) (s : FieldSlot) (n : node) (customtype : String)
    (g_imported : List String) : Except Err (String × List String) :=
  let d := s.defaultValue
  match s.type with
  | .bool => do assertDefault d VALUE_BOOL "expected bool default"; pure ("bool", g_imported)
  | .int8 => do assertDefault d VALUE_INT8 "expected int8 default"; pure ("int8", g_imported)
  | .uint8 => do assertDefault d VALUE_UINT8 "expected uint8 default"; pure ("uint8", g_imported)
  | .int16 => do assertDefault d VALUE_INT16 "expected int16 default"; pure ("int16", g_imported)
  | .uint16 => do
    assertDefault d VALUE_UINT16 "expected uint16 default"; pure ("uint16", g_imported)
  | .int32 => do assertDefault d VALUE_INT32 "expected int32 default"; pure ("int32", g_imported)
  | .uint32 => do
    assertDefault d VALUE_UINT32 "expected uint32 default"; pure ("uint32", g_imported)
  | .int64 => do assertDefault d VALUE_INT64 "expected int64 default"; pure ("int64", g_imported)
  | .uint64 => do
    assertDefault d VALUE_UINT64 "expected uint64 default"; pure ("uint64", g_imported)
  | .float32 => do
    assertDefault d VALUE_FLOAT32 "expected float32 default"; pure ("float32", g_imported)
  | .float64 => do
    assertDefault d VALUE_FLOAT64 "expected float64 default"; pure ("float64", g_imported)
  | .text => do assertDefault d VALUE_TEXT "expected text default"; pure ("string", g_imported)
  | .data => do
    assertDefault d VALUE_DATA "expected data default"
    if d.Which = VALUE_DATA ∧ d.Data.length > 0 then
      let dstr := "[]byte\x7b" ++ joinBytes d.Data ++ "\x7d"
      if customtype.length ≠ 0 then pure (dstr ++ "\n", g_imported)
      else .error (unsupportedType s.type)
    else pure ("[]byte", g_imported)
  | .enum typeId => do
    let _ ← findNode g typeId
    assertDefault d VALUE_ENUM "expected enum default"
    remoteName (st typeId) n g_imported
  | .struct typeId => do
    let _ ← findNode g typeId
    assertDefault d VALUE_STRUCT "expected struct default"
    remoteName (st typeId) n g_imported
  | .anyPointer => do
    assertDefault d VALUE_ANYPOINTER "expected object default"
    pure ("interface\x7b\x7d", g_imported)
  | .list lt => do
    assertDefault d VALUE_LIST "expected list default"
    match lt with
    | .void => pure ("[]struct\x7b\x7d", g_imported)
    | .interface _ => pure ("[]struct\x7b\x7d", g_imported)
    | .bool => pure ("[]bool", g_imported)
    | .int8 => pure ("[]int8", g_imported)
    | .uint8 => pure ("[]uint8", g_imported)
    | .int16 => pure ("[]int16", g_imported)
    | .uint16 => pure ("[]uint16", g_imported)
    | .int32 => pure ("[]uint32", g_imported)
    | .uint32 => pure ("[]uint32", g_imported)
    | .int64 => pure ("[]int64", g_imported)
    | .uint64 => pure ("[]uint64", g_imported)
    | .float32 => pure ("[]float32", g_imported)
    | .float64 => pure ("[]float64", g_imported)
    | .text => pure ("[]string", g_imported)
    | .data => pure ("[]byte", g_imported)
    | .enum typeId => do
      let _ ← findNode g typeId
      remoteName (st typeId) n g_imported
    | .struct typeId => do
      let _ ← findNode g typeId
      pure ("[]" ++ (st typeId).name, g_imported)
    | .anyPointer => pure ("[]interface\x7b\x7d", g_imported)
    | .list _ => pure ("[]interface\x7b\x7d", g_imported)
  | .void => .error (unsupportedType s.type)
  | .interface _ => .error (unsupportedType s.type)

/-- The example state after resolving the example file's nested nodes. -/
def exampleResolved : Vars :=
  match resolveName exampleRegistry 1 9 2 "" "point" exampleVars with
  | .ok s => s
  | .error _ => exampleVars

/-- A node of another file (package `geo`, import `pkg/b`) named `Shape`. -/
def exampleRemote : node := { pkg := "geo", imp := "pkg/b", name := "Shape" }

/-! ## Field tags -/

/-- Go `strings.Join`. -/
def joinStrings (sep : String) : List String → String
  | [] => ""
  | s :: rest => rest.foldl (fun acc x => acc ++ sep ++ x) s

/-- The codec tags `processAnnotations` appends for one annotation. -/
def codecTags (codecs : List AnnotationId) (a : Annotation) : List String :=
  match a.id with
  | AnnotationId.Ignored =>
    (if AnnotationId.Json ∈ codecs then ["json:\"-\""] else []) ++
    (if AnnotationId.Msgp ∈ codecs then ["msg:\"-\""] else [])
  | AnnotationId.Optional =>
    (if AnnotationId.Json ∈ codecs then ["json:\"" ++ a.value.Text ++ ",omitempty\""] else []) ++
    (if AnnotationId.Msgp ∈ codecs then ["msg:\"" ++ a.value.Text ++ "\""] else [])
  | AnnotationId.Required =>
    (if AnnotationId.Json ∈ codecs then ["json:\"" ++ a.value.Text ++ "\""] else []) ++
    (if AnnotationId.Msgp ∈ codecs then ["msg:\"" ++ a.value.Text ++ "\""] else [])
  | _ => []

/-- The validation tags `processAnnotations` appends for one annotation on a field of
type kind `t`.  `%s` applied to an integer prints Go's bad-verb form. -/
def checkTags (t : Type_Which) (a : Annotation) : List String :=
  match t with
  | TYPE_INT8 | TYPE_UINT8 | TYPE_INT16 | TYPE_UINT16 | TYPE_INT32 | TYPE_UINT32
  | TYPE_INT64 | TYPE_UINT64 | TYPE_FLOAT32 | TYPE_FLOAT64 =>
    match a.id with
    | AnnotationId.Multof => ["multof:\"%!s(int32=" ++ fmtInt a.value.Int32 ++ ")\""]
    | AnnotationId.Min => ["min:\"%!s(int64=" ++ fmtInt a.value.Int64 ++ ")\""]
    | AnnotationId.Max => ["max:\"" ++ fmtInt a.value.Int64 ++ "\""]
    | _ => []
  | TYPE_TEXT =>
    match a.id with
    | AnnotationId.Format => ["format:\"" ++ a.value.Text ++ "\""]
    | AnnotationId.Pattern => ["pattern:\"" ++ a.value.Text ++ "\""]
    | AnnotationId.Minlen => ["minlen:\"" ++ fmtInt a.value.Int32 ++ "\""]
    | AnnotationId.Maxlen => ["maxlen:\"" ++ fmtInt a.value.Int32 ++ "\""]
    | _ => []
  | TYPE_LIST =>
    match a.id with
    | AnnotationId.Unique => ["unique:\"true\""]
    | AnnotationId.Minlen => ["minlen:\"" ++ fmtInt a.value.Int32 ++ "\""]
    | AnnotationId.Maxlen => ["maxlen:\"" ++ fmtInt a.value.Int32 ++ "\""]
    | _ => []
  | _ => []

/-- The membership test `set[id]` on the ID set `processAnnotations` builds. -/
def hasAnnotation (ans : List Annotation) (id : AnnotationId) : Bool :=
  ans.any (fun a => decide (a.id = id))

/-- Go `(n *node) processAnnotations(w, t, ans)`: what it writes, for the codec set of
`n`. -/
def processAnnotations (codecs : List AnnotationId) (t : Type_Which) (ans : List Annotation) :
    Except Err String :=
  if hasAnnotation ans AnnotationId.Required && hasAnnotation ans AnnotationId.Ignored then
    .error (Err.panic "Field annnotations 'required' and 'ignored' are incompatible.")
  else if hasAnnotation ans AnnotationId.Required && hasAnnotation ans AnnotationId.Optional then
    .error (Err.panic "Annnotations 'required' and 'optional' are incompatible")
  else if hasAnnotation ans AnnotationId.Optional && hasAnnotation ans AnnotationId.Ignored then
    .error (Err.panic "Annnotations 'optional' and 'ignored' are incompatible")
  else
    let tags := ans.flatMap (fun a => codecTags codecs a ++ checkTags t a)
    if tags.length ≠ 0 then .ok ("`" ++ joinStrings " " tags ++ "`") else .ok ""

/-! ## Struct fields -/

/-- The part of a string before its last `.` (`customtype[:strings.LastIndex(..)]`), if
it has one. -/
def beforeLastDot (s : String) : Option String :=
  match s.data.reverse.dropWhile (fun c => c != '.') with
  | [] => none
  | _ :: pre => some (String.mk pre.reverse)

/-- The annotation loop of `defineField`: the doc comment buffer `g`, the custom type and
the import set, updated by one annotation after the other. -/
def fieldAnnotations : List Annotation → String × String × List String →
    String × String × List String
  | [], acc => acc
  | a :: rest, (gbuf, customtype, imported) =>
    let gbuf1 := if a.id = AnnotationId.Doc then gbuf ++ "// " ++ a.value.Text ++ "\n" else gbuf
    if a.id = AnnotationId.Customtype then
      match beforeLastDot a.value.Text with
      | some pre => fieldAnnotations rest (gbuf1, a.value.Text, markImported pre imported)
      | none => fieldAnnotations rest (gbuf1, a.value.Text, imported)
    else fieldAnnotations rest (gbuf1, customtype, imported)

/-- Go `(n *node) defineField(w, f, x)`: what it writes to `w`, and the import set
afterwards.  The calls on the translator `x` write nothing to `w` and are left out. -/
def defineField (g : Registry) (st : Vars) (nid : Nat) (f : Field) (g_imported : List String) :
    Except Err (String × List String) :=
  let t := f.slot.type
  if t.Which = TYPE_INTERFACE then .ok ("", g_imported)
  else
    let fname := title (if nameAnnotation f.annotations ≠ "" then nameAnnotation f.annotations
      else f.name)
    if f.discriminantValue ≠ 0xFFFF ∧ t.Which = TYPE_VOID then
      .ok ("/* Not implemented */", g_imported)
    else if ¬ f.discriminantValue ≠ 0xFFFF ∧ t.Which = TYPE_VOID then .ok ("", g_imported)
    else
      match fieldAnnotations f.annotations ("", "", g_imported) with
      | (gbuf, customtype, imported1) =>
        match TypeName g st f.slot (st nid) customtype imported1 with
        | .error e => .error e
        | .ok (typeName, imported2) =>
          match (if f.annotations.length ≠ 0 then
              processAnnotations (st nid).codecs t.Which f.annotations else .ok "") with
          | .error e => .error e
          | .ok tags => .ok (gbuf ++ (fname ++ " " ++ typeName ++ tags ++ "\n"), imported2)

/-- The loop `for x in xs { arr[idx(x)] = val(x) }` over a made array: an index beyond the
array is Go's index-out-of-range panic. -/
def fillByIndex {α : Type} (arr : List α) : List (Nat × α) → Except Err (List α)
  | [] => .ok arr
  | e :: rest =>
    if e.1 < arr.length then fillByIndex (arr.set e.1 e.2) rest
    else .error (Err.panic "index out of range")

/-- Go `(n *node) codeOrderFields()` on the node's field list. -/
def codeOrderFields (fields : List Field) : Except Err (List Field) :=
  fillByIndex (List.replicate fields.length Field.zero) (fields.map (fun f => (f.codeOrder, f)))

/-- The loop of `defineStructFields` over the code-ordered fields; `w` is what has been
written so far, `rec` the recursive call on a group node. -/
def defineStructFieldsLoop (g : Registry) (st : Vars)
    (rec : Nat → List String → Except Err (String × List String)) (nid : Nat) :
    List Field → String → List String → Except Err (String × List String)
  | [], w, imported => .ok (w, imported)
  | f :: rest, w, imported =>
    match f.which with
    | FIELD_SLOT =>
      match defineField g st nid f imported with
      | .error e => .error e
      | .ok (out, imported1) => defineStructFieldsLoop g st rec nid rest (w ++ out) imported1
    | FIELD_GROUP =>
      match findNode g f.group.typeId with
      | .error e => .error e
      | .ok _ =>
        let fname := title (if nameAnnotation f.annotations ≠ "" then nameAnnotation f.annotations
          else f.name)
        match rec f.group.typeId imported with
        | .error e => .error e
        | .ok (out, imported1) =>
          defineStructFieldsLoop g st rec nid rest
            (w ++ (fname ++ " struct \x7b\n") ++ out ++ "\x7d\n") imported1

/-- Go `(n *node) defineStructFields(w, x)`: what it writes, and the import set
afterwards. -/
def defineStructFields (g : Registry) (st : Vars) :
    Nat → Nat → List String → Except Err (String × List String)
  | 0, _, _ => .error Err.fuel
  | fuel + 1, nid, imported =>
    match g.get nid with
    | none => .error (Err.panic "nil pointer dereference")
    | some n =>
      if n.which ≠ NODE_STRUCT then .error (Err.panic "invalid struct node")
      else
        match codeOrderFields n.struct.fields with
        | .error e => .error e
        | .ok mbrs =>
          defineStructFieldsLoop g st (defineStructFields g st fuel) nid mbrs "" imported

/-- The struct `Point` of the spec's scenario: `x` and `y`, int32, no annotations. -/
def pointStruct : Node :=
  { id := 7, which := NODE_STRUCT,
    struct := { fields := [
      { name := "y", codeOrder := 1, slot := { offset := 1, type := SchemaType.int32 } },
      { name := "x", codeOrder := 0, slot := { offset := 0, type := SchemaType.int32 } }] } }

/-- A struct with one interface-typed slot `cap` and one int32 slot `n`. -/
def capStruct : Node :=
  { id := 8, which := NODE_STRUCT,
    struct := { fields := [
      { name := "cap", codeOrder := 0, slot := { type := SchemaType.interface 0 } },
      { name := "n", codeOrder := 1, slot := { type := SchemaType.int32 } }] } }

/-- A registry holding the two structs above. -/
def pointRegistry : Registry := [pointStruct, capStruct]

/-- Their state after resolution in a file of package `p`. -/
def pointVars : Vars := fun i =>
  if i = 7 then { pkg := "p", name := "Point" } else { pkg := "p", name := "Cap" }

/-! ## Reading the emitted struct body -/

/-- Concatenation of the pieces of an output, in order. -/
def concatStrings : List String → String
  | [] => ""
  | s :: rest => s ++ concatStrings rest

/-- The doc comment lines of a field: one line `// text` for each of its doc annotations,
in the order of the annotation list. -/
def docText : List Annotation → String
  | [] => ""
  | a :: rest =>
    (if a.id = AnnotationId.Doc then "// " ++ a.value.Text ++ "\n" else "") ++ docText rest

/-- The custom type of a field: the text of the last of its custom-type annotations, `ct`
when it has none. -/
def customTypeOf : List Annotation → String → String
  | [], ct => ct
  | a :: rest, ct =>
    if a.id = AnnotationId.Customtype then customTypeOf rest a.value.Text
    else customTypeOf rest ct

/-- The member a slot field `f` of the struct `nid` gets, in the words of the spec: nothing
for a slot of interface type; nothing for a void slot that is not a union member
(discriminant 0xFFFF) and the placeholder comment for a void slot that is one; else the
doc comment lines, the member line `Title(effective name) <TypeName of the slot>` (for
the field's custom type, if it has one), the tags of `processAnnotations` when the field is
annotated, and a newline.  It fails when `TypeName` or `processAnnotations` does. -/
def slotMember (g : Registry) (st : Vars) (nid : Nat) (f : Field) : Except Err String :=
  if f.slot.type.Which = TYPE_INTERFACE then .ok ""
  else if f.slot.type.Which = TYPE_VOID then
    .ok (if f.discriminantValue = 0xFFFF then "" else "/* Not implemented */")
  else
    match TypeName g st f.slot (st nid) (customTypeOf f.annotations "") [] with
    | .error e => .error e
    | .ok (ty, _) =>
      match (if f.annotations.length ≠ 0 then
          processAnnotations (st nid).codecs f.slot.type.Which f.annotations else .ok "") with
      | .error e => .error e
      | .ok tags =>
        .ok (docText f.annotations ++
          (title (effectiveName f.annotations f.name) ++ " " ++ ty ++ tags ++ "\n"))

/-- What `defineStructFields` of the node `nid` writes for one member `f` of the
code-ordered field list: for a slot the member `slotMember` describes; for a group the
line `Title(effective name) struct {`, what `rec`, the call of `defineStructFields` on
the group node, writes, and the closing brace. -/
def memberOutput (g : Registry) (st : Vars)
    (rec : Nat → List String → Except Err (String × List String)) (nid : Nat) (f : Field)
    (o : String) : Prop :=
  if f.which = FIELD_GROUP then
    ∃ inner imp0 imp1, rec f.group.typeId imp0 = .ok (inner, imp1) ∧
      o = title (effectiveName f.annotations f.name) ++ " struct \x7b\n" ++ inner ++ "\x7d\n"
  else slotMember g st nid f = .ok o

/-! ## Union discriminant types -/

/-- The loop of `defineStructEnums` over the code-ordered fields that writes one constant
per field whose discriminant is not 0xFFFF. -/
def whichConstLines (name : String) : List Field → String → String
  | [], w => w
  | f :: rest, w =>
    if f.discriminantValue = 0xFFFF then whichConstLines name rest w
    else whichConstLines name rest
      (w ++ (ToUpper name ++ "_" ++ ToUpper f.name ++ " " ++ name ++ "_Which = " ++
        fmtNat f.discriminantValue ++ "\n"))

/-- The second loop of `defineStructEnums`: the recursive call on every Group field's
node; `w` is what has been written so far. -/
def defineStructEnumsGroups (g : Registry) (rec : Nat → Except Err String) :
    List Field → String → Except Err String
  | [], w => .ok w
  | f :: rest, w =>
    if f.which = FIELD_GROUP then
      match findNode g f.group.typeId with
      | .error e => .error e
      | .ok _ =>
        match rec f.group.typeId with
        | .error e => .error e
        | .ok out => defineStructEnumsGroups g rec rest (w ++ out)
    else defineStructEnumsGroups g rec rest w

/-- The first part of `defineStructEnums`: the `_Which` type of a struct with a non-zero
discriminant count, nothing otherwise. -/
def defineStructEnumsWhich (name : String) (n : Node) : Except Err String :=
  if n.struct.discriminantCount > 0 then
    match codeOrderFields n.struct.fields with
    | .error e => .error e
    | .ok mbrs =>
      .ok (whichConstLines name mbrs ("type " ++ name ++ "_Which uint16\n" ++ "const (\n") ++ ")\n")
  else .ok ""

/-- Go `(n *node) defineStructEnums(w)`: what it writes. -/
def defineStructEnums (g : Registry) (st : Vars) : Nat → Nat → Except Err String
  | 0, _ => .error Err.fuel
  | fuel + 1, nid =>
    match g.get nid with
    | none => .error (Err.panic "nil pointer dereference")
    | some n =>
      if n.which ≠ NODE_STRUCT then .error (Err.panic "invalid struct node")
      else
        match defineStructEnumsWhich (st nid).name n with
        | .error e => .error e
        | .ok w =>
          match codeOrderFields n.struct.fields with
          | .error e => .error e
          | .ok mbrs => defineStructEnumsGroups g (defineStructEnums g st fuel) mbrs w

/-- A field is a union member when its discriminant is not the sentinel 0xFFFF. -/
def isUnionMember (f : Field) : Bool := decide (f.discriminantValue ≠ 0xFFFF)

/-- The constant of a `_Which` type for the union member `f` of the struct named `name`:
`UPPER(name)_UPPER(field name) name_Which = discriminant`. -/
def whichConstant (name : String) (f : Field) : String :=
  ToUpper name ++ "_" ++ ToUpper f.name ++ " " ++ name ++ "_Which = " ++
    fmtNat f.discriminantValue ++ "\n"

/-- The struct of the spec's union scenario, a 2-member union `{a: void, b: uint8}`,
followed by a plain group field `g`. -/
def unionStruct : Node :=
  { id := 10, which := NODE_STRUCT,
    struct := { discriminantCount := 2, fields := [
      { name := "b", codeOrder := 1, discriminantValue := 1,
        slot := { type := SchemaType.uint8 } },
      { name := "a", codeOrder := 0, discriminantValue := 0, slot := { type := SchemaType.void } },
      { name := "g", codeOrder := 2, which := FIELD_GROUP, group := ⟨11⟩ }] } }

/-- The group node behind the field `g`: one float64 slot, no union. -/
def unionGroup : Node :=
  { id := 11, which := NODE_STRUCT,
    struct := { isGroup := true, fields := [
      { name := "r", codeOrder := 0, slot := { type := SchemaType.float64 } }] } }

/-- The registry of the union scenario. -/
def unionRegistry : Registry := [unionStruct, unionGroup]

/-- Its state after resolution: the struct is `Shape`, its group `ShapeG`. -/
def unionVars : Vars := fun i =>
  if i = 10 then { pkg := "p", name := "Shape" } else { pkg := "p", name := "ShapeG" }

/-! ## Enums -/

/-- Go `enumval`: an enumerant with its ordinal, effective name, String tag and parent
node (`none` is the nil `parent` of a zero value). -/
structure enumval where
  enumerant : Enumerant := {}
  val : Nat := 0
  name : String := ""
  tag : String := ""
  parent : Option Nat := none
  deriving DecidableEq, Repr

/-- Go `(e *enumval) fullName()`; a nil `parent` is a nil dereference. -/
def enumval.fullName (st : Vars) (e : enumval) : Except Err String :=
  match e.parent with
  | none => .error (Err.panic "nil pointer dereference")
  | some p => .ok (ToUpper (st p).name ++ "_" ++ ToUpper e.name)

/-- The tag loop of `defineEnum` over an enumerant's annotations: a `Tag` annotation sets
the tag to its text, a `Notag` annotation to the empty string. -/
def enumTag : List Annotation → String → String
  | [], t => t
  | an :: rest, t =>
    if an.id = AnnotationId.Tag then enumTag rest an.value.Text
    else if an.id = AnnotationId.Notag then enumTag rest ""
    else enumTag rest t

/-- The assignments `ev[e.CodeOrder()] = enumval{e, i, ename, t, n}` of `defineEnum`, as
(index, value) pairs, `i` counting from `start`. -/
def enumEntries (nid : Nat) : Nat → List Enumerant → List (Nat × enumval)
  | _, [] => []
  | i, e :: rest =>
    let ename := if nameAnnotation e.annotations ≠ "" then nameAnnotation e.annotations
      else e.name
    (e.codeOrder, { enumerant := e, val := i, name := ename,
                    tag := enumTag e.annotations ename, parent := some nid }) ::
      enumEntries nid (i + 1) rest

/-- The array `ev` that `defineEnum` fills. -/
def enumVals (nid : Nat) (es : List Enumerant) : Except Err (List enumval) :=
  fillByIndex (List.replicate es.length {}) (enumEntries nid 0 es)

/-- The doc comment loop of `defineEnum`. -/
def docLines : List Annotation → String → String
  | [], w => w
  | a :: rest, w =>
    if a.id = AnnotationId.Doc then docLines rest (w ++ ("// " ++ a.value.Text ++ "\n"))
    else docLines rest w

/-- The loop of `defineEnum` that writes one constant per entry of `ev`. -/
def enumConstLines (st : Vars) (name : String) : List enumval → String → Except Err String
  | [], w => .ok w
  | e :: rest, w =>
    match e.fullName st with
    | .error err => .error err
    | .ok fn => enumConstLines st name rest (w ++ (fn ++ " " ++ name ++ " = " ++ fmtNat e.val ++ "\n"))

/-- The loop of `defineEnum` that writes the cases of the `String` switch. -/
def enumStringLines (st : Vars) : List enumval → String → Except Err String
  | [], w => .ok w
  | e :: rest, w =>
    if e.tag ≠ "" then
      match e.fullName st with
      | .error err => .error err
      | .ok fn => enumStringLines st rest (w ++ ("case " ++ fn ++ ": return \"" ++ e.tag ++ "\"\n"))
    else enumStringLines st rest w

/-- The loop of `defineEnum` that writes the cases of the `FromString` switch. -/
def enumFromStringLines (st : Vars) : List enumval → String → Except Err String
  | [], w => .ok w
  | e :: rest, w =>
    if e.tag ≠ "" then
      match e.fullName st with
      | .error err => .error err
      | .ok fn =>
        enumFromStringLines st rest (w ++ ("case \"" ++ e.tag ++ "\": return " ++ fn ++ "\n"))
    else enumFromStringLines st rest w

/-- Go `(n *node) defineEnum(w)`: what it writes. -/
def defineEnum (g : Registry) (st : Vars) (nid : Nat) : Except Err String :=
  match g.get nid with
  | none => .error (Err.panic "nil pointer dereference")
  | some n =>
    let name := (st nid).name
    let w0 := docLines n.annotations "" ++ ("type " ++ name ++ " uint16\n")
    if n.enum.enumerants.length > 0 then
      match enumVals nid n.enum.enumerants with
      | .error e => .error e
      | .ok ev =>
        match enumConstLines st name ev (w0 ++ "const (\n") with
        | .error e => .error e
        | .ok w1 =>
          match enumStringLines st ev
              (w1 ++ ")\n" ++ ("func (c " ++ name ++ ") String() string \x7b\n") ++
                "switch c \x7b\n") with
          | .error e => .error e
          | .ok w2 =>
            match enumFromStringLines st ev
                (w2 ++ "default: return \"\"\n" ++ "\x7d\n\x7d\n\n" ++
                  ("func " ++ name ++ "FromString(c string) " ++ name ++ " \x7b\n") ++
                  "switch c \x7b\n") with
            | .error e => .error e
            | .ok w3 => .ok (w3 ++ "default: return 0\n" ++ "\x7d\n\x7d\n")
    else .ok w0

/-! ## Reading the emitted enum -/

/-- The name of the constant `defineEnum` declares for an entry of `ev` of the enum named
`name`. -/
def constName (name : String) (e : enumval) : String :=
  ToUpper name ++ "_" ++ ToUpper e.name

/-- The constant line of an entry: `UPPER(enum)_UPPER(enumerant) <enum> = <ordinal>`. -/
def constLine (name : String) (e : enumval) : String :=
  constName name e ++ " " ++ name ++ " = " ++ fmtNat e.val ++ "\n"

/-- The cases of the emitted switches, read as a table of (constant, tag) pairs in
emission order: one pair per entry with a non-empty tag. -/
def enumTable (name : String) (ev : List enumval) : List (String × String) :=
  (ev.filter (fun e => decide (e.tag ≠ ""))).map (fun e => (constName name e, e.tag))

/-- The emitted `String` switch as a first-matching-case lookup; `default` returns `""`. -/
def lookupString (table : List (String × String)) (c : String) : String :=
  match table.find? (fun p => p.1 == c) with
  | some p => p.2
  | none => ""

/-- The emitted `FromString` switch as a first-matching-case lookup; `default` returns
the constant 0. -/
def lookupFromString (table : List (String × String)) (s : String) : String :=
  match table.find? (fun p => p.2 == s) with
  | some p => p.1
  | none => "0"

/-- The text of the `String` and `FromString` functions for a table of cases. -/
def stringFuncsText (name : String) (table : List (String × String)) : String :=
  ("func (c " ++ name ++ ") String() string \x7b\n") ++ "switch c \x7b\n" ++
  concatStrings (table.map (fun p => "case " ++ p.1 ++ ": return \"" ++ p.2 ++ "\"\n")) ++
  "default: return \"\"\n" ++ "\x7d\n\x7d\n\n" ++
  ("func " ++ name ++ "FromString(c string) " ++ name ++ " \x7b\n") ++ "switch c \x7b\n" ++
  concatStrings (table.map (fun p => "case \"" ++ p.2 ++ "\": return " ++ p.1 ++ "\n")) ++
  "default: return 0\n" ++ "\x7d\n\x7d\n"

/-- The enumerant `red`, tagged `r`. -/
def colorRed : Enumerant :=
  { name := "red", codeOrder := 0, annotations := [⟨AnnotationId.Tag, Value.text "r"⟩] }

/-- The enumerant `green`, with no tag annotation. -/
def colorGreen : Enumerant := { name := "green", codeOrder := 1 }

/-- The enumerant `blue`, annotated no-tag. -/
def colorBlue : Enumerant :=
  { name := "blue", codeOrder := 2, annotations := [⟨AnnotationId.Notag, Value.void⟩] }

/-- An enum `color` with the enumerants `green`, `red` and `blue`, declared out of code
order. -/
def colorEnum : Node :=
  { id := 20, which := NODE_ENUM, enum := { enumerants := [colorGreen, colorRed, colorBlue] } }

/-- An enum `dup` whose two enumerants carry the same tag `x`. -/
def dupEnum : Node :=
  { id := 21, which := NODE_ENUM,
    enum := { enumerants := [
      { name := "a", codeOrder := 0, annotations := [⟨AnnotationId.Tag, Value.text "x"⟩] },
      { name := "b", codeOrder := 1, annotations := [⟨AnnotationId.Tag, Value.text "x"⟩] }] } }

/-- The registry of the two enums. -/
def enumRegistry : Registry := [colorEnum, dupEnum]

/-- Their state after resolution: `Color` and `Dup`. -/
def enumVars : Vars := fun i =>
  if i = 20 then { pkg := "p", name := "Color" } else { pkg := "p", name := "Dup" }

/-- The entry `defineEnum` builds for the enumerant `e` declared at index `i`: ordinal
`i`, the effective name, the String tag, the enum as parent. -/
def enumvalOf (nid i : Nat) (e : Enumerant) : enumval :=
  { enumerant := e, val := i, name := effectiveName e.annotations e.name,
    tag := enumTag e.annotations (effectiveName e.annotations e.name), parent := some nid }

/-! ## Example fields for the tag processor -/

/-- A text field annotated both Required and Ignored. -/
def conflictField : Field :=
  { name := "title", slot := { type := SchemaType.text },
    annotations := [⟨AnnotationId.Required, Value.text "title"⟩, ⟨AnnotationId.Ignored, Value.void⟩] }

/-- The annotations of an int32 field: a maximum first, then Required. -/
def maxThenRequired : List Annotation :=
  [⟨AnnotationId.Max, Value.int64 5⟩, ⟨AnnotationId.Required, Value.text "x"⟩]

/-- The same annotations with Required first. -/
def requiredThenMax : List Annotation :=
  [⟨AnnotationId.Required, Value.text "x"⟩, ⟨AnnotationId.Max, Value.int64 5⟩]

/-- The tags `processAnnotations` collects for an annotation list: for each annotation in
list order, its codec tags followed by its validation tags. -/
def collectTags (codecs : List AnnotationId) (t : Type_Which) (ans : List Annotation) :
    List String :=
  ans.flatMap (fun a => codecTags codecs a ++ checkTags t a)

/-! ## Per-file resolution and the emission list -/

/-- The loop of `main` over a file's nested nodes: every registered one is resolved with
the empty prefix, an unregistered ID is skipped. -/
def resolveFileNested (g : Registry) (file fuel : Nat) :
    List NestedNode → Vars → Except Err Vars
  | [], st => .ok st
  | nn :: rest, st =>
    match g.get nn.id with
    | none => resolveFileNested g file fuel rest st
    | some _ =>
      match resolveName g file fuel nn.id "" nn.name st with
      | .ok st1 => resolveFileNested g file fuel rest st1
      | .error e => .error e

/-- The nodes `resolveName` visits from `x`, one entry per visit, in visiting order: the
node, then for each of its entries in order everything visited from the entry's target. -/
def visits (g : Registry) : Nat → Nat → List Nat
  | 0, _ => []
  | fuel + 1, x =>
    match g.get x with
    | none => []
    | some n => x :: (entries g n).flatMap (fun e => visits g fuel e.1)

/-- The nodes visited by the per-file loop over the nested-node list `l`. -/
def visitsFile (g : Registry) (fuel : Nat) (l : List NestedNode) : List Nat :=
  (l.filter (fun nn => (g.get nn.id).isSome)).flatMap (fun nn => visits g fuel nn.id)

/-- A group struct: a registered struct node whose is-group flag is set. -/
def isGroupStruct (g : Registry) (x : Nat) : Bool :=
  match g.get x with
  | some n => decide (n.which = NODE_STRUCT) && n.struct.isGroup
  | none => false

/-- A registry in which a group node is discovered twice: the struct 41 lists its group
42 as a nested node and also reaches it through a Group field; the group nests the enum
43. -/
def twiceRegistry : Registry := [
  { id := 40, which := NODE_FILE, nestedNodes := [⟨41, "outer"⟩] },
  { id := 41, which := NODE_STRUCT, nestedNodes := [⟨42, "inner"⟩],
    struct := { fields := [{ name := "inner", which := FIELD_GROUP, group := ⟨42⟩ }] } },
  { id := 42, which := NODE_STRUCT, nestedNodes := [⟨43, "kind"⟩], struct := { isGroup := true } },
  { id := 43, which := NODE_ENUM }]

/-- The state before resolution of that file. -/
def twiceVars : Vars := fun i => if i = 40 then { pkg := "q", imp := "pkg/q" } else {}

/-- The spec's "order of first visit": a sequence of visits with every repeated visit of
a node dropped. -/
def firstVisitOrder : List Nat → List Nat
  | [] => []
  | x :: rest => x :: (firstVisitOrder rest).filter (fun y => y != x)

/-! ## Codec propagation -/

/-- The loop of `enableCodec` over the nested-node list; `rec` is the recursive call. -/
def enableCodecNested (g : Registry) (rec : Nat → Vars → Except Err Vars) :
    List NestedNode → Vars → Except Err Vars
  | [], st => .ok st
  | nst :: rest, st =>
    match findNode g nst.id with
    | .error e => .error e
    | .ok nn =>
      match rec nn.id st with
      | .error e => .error e
      | .ok st1 => enableCodecNested g rec rest st1

/-- Go `enableCodec(n, codec)`: the codec sets afterwards. -/
def enableCodec (g : Registry) (codec : AnnotationId) : Nat → Nat → Vars → Except Err Vars
  | 0, _, _ => .error Err.fuel
  | fuel + 1, nid, st =>
    match g.get nid with
    | none => .error (Err.panic "nil pointer dereference")
    | some n =>
      enableCodecNested g (enableCodec g codec fuel) n.nestedNodes
        (Function.update st nid { st nid with codecs := codec :: (st nid).codecs })

/-- A file 30 nesting the struct 31, which has a required int32 field `id` and a Group
field `pos`; the group struct 32 has a required int32 field `x`.  As in a compiled schema,
no nested-node list names the group. -/
def holderFile : Node :=
  { id := 30, which := NODE_FILE, nestedNodes := [⟨31, "holder"⟩],
    annotations := [⟨AnnotationId.Json, Value.void⟩] }

def holderStruct : Node :=
  { id := 31, which := NODE_STRUCT,
    struct := { fields := [
      { name := "id", codeOrder := 0, slot := { type := SchemaType.int32 },
        annotations := [⟨AnnotationId.Required, Value.text "id"⟩] },
      { name := "pos", codeOrder := 1, which := FIELD_GROUP, group := ⟨32⟩ }] } }

def holderGroup : Node :=
  { id := 32, which := NODE_STRUCT,
    struct := { isGroup := true, fields := [
      { name := "x", codeOrder := 0, slot := { type := SchemaType.int32 },
        annotations := [⟨AnnotationId.Required, Value.text "x"⟩] }] } }

def holderRegistry : Registry := [holderFile, holderStruct, holderGroup]

def holderVars : Vars := fun i => if i = 30 then { pkg := "h", imp := "pkg/h" } else {}

/-! ## Constant values -/

/-- Numeric value of a value tag (`VALUE_VOID` = 0 ... `VALUE_ANYPOINTER` = 18). -/
def Value_Which.toNat : Value_Which → Nat
  | VALUE_VOID => 0 | VALUE_BOOL => 1 | VALUE_INT8 => 2 | VALUE_INT16 => 3 | VALUE_INT32 => 4
  | VALUE_INT64 => 5 | VALUE_UINT8 => 6 | VALUE_UINT16 => 7 | VALUE_UINT32 => 8
  | VALUE_UINT64 => 9 | VALUE_FLOAT32 => 10 | VALUE_FLOAT64 => 11 | VALUE_TEXT => 12
  | VALUE_DATA => 13 | VALUE_LIST => 14 | VALUE_ENUM => 15 | VALUE_STRUCT => 16
  | VALUE_INTERFACE => 17 | VALUE_ANYPOINTER => 18

/-- The accessor `Value.Int8()`; a value of another tag reads as zero. -/
def Value.Int8 : Value → Int
  | .int8 v => v
  | _ => 0

/-- The accessor `Value.Int16()`. -/
def Value.Int16 : Value → Int
  | .int16 v => v
  | _ => 0

/-- The accessor `Value.Uint8()`. -/
def Value.Uint8 : Value → Nat
  | .uint8 v => v
  | _ => 0

/-- The accessor `Value.Uint16()`. -/
def Value.Uint16 : Value → Nat
  | .uint16 v => v
  | _ => 0

/-- The accessor `Value.Uint32()`. -/
def Value.Uint32 : Value → Nat
  | .uint32 v => v
  | _ => 0

/-- The accessor `Value.Uint64()`. -/
def Value.Uint64 : Value → Nat
  | .uint64 v => v
  | _ => 0

/-- The accessor `Value.Float32()`, as an IEEE bit pattern. -/
def Value.Float32 : Value → Nat
  | .float32 b => b
  | _ => 0

/-- The accessor `Value.Float64()`, as an IEEE bit pattern. -/
def Value.Float64 : Value → Nat
  | .float64 b => b
  | _ => 0

/-- The accessor `Value.Enum()`. -/
def Value.Enum : Value → Nat
  | .enum v => v
  | _ => 0

/-- The accessor `Value.Struct()`; a value of another tag reads as the null object. -/
def Value.Struct : Value → Object
  | .struct p => p
  | _ => {}

/-- The accessor `Value.List()`; a value of another tag reads as the null object. -/
def Value.List : Value → Object
  | .list p => p
  | _ => {}

/-- The accessor `Value.Bool()`; a value of another tag reads as false. -/
def Value.Bool : Value → Bool
  | .bool b => b
  | _ => false

/-- The two renderers of the Go standard library that `writeValue` calls and that are
taken as given: `%g` of a float of the given bit size and bit pattern, and
`strconv.Quote`. -/
structure Stdlib where
  fmtG : Nat → Nat → String
  Quote : String → String

/-- Six decimal digits, zero-padded on the left. -/
def pad6 (n : Nat) : String :=
  String.mk (List.replicate (6 - (fmtNat n).length) '0') ++ fmtNat n

/-- The `%f` rendering of the non-negative rational `num / den`: six digits after the
point, rounded to nearest, a tie to the even digit. -/
def fmtFixed (num den : Nat) : String :=
  let scaled := num * 1000000
  let q := scaled / den
  let r := scaled % den
  let q1 := if den < 2 * r ∨ (2 * r = den ∧ q % 2 = 1) then q + 1 else q
  fmtNat (q1 / 1000000) ++ "." ++ pad6 (q1 % 1000000)

/-- The `%f` rendering of the IEEE value with bit pattern `bits`, for an exponent field of
`ebits` bits and a fraction field of `mbits` bits. -/
def fmtF (ebits mbits bits : Nat) : String :=
  let sign := bits / 2 ^ (ebits + mbits) % 2
  let e := bits / 2 ^ mbits % 2 ^ ebits
  let m := bits % 2 ^ mbits
  let bias := 2 ^ (ebits - 1) - 1
  if e = 2 ^ ebits - 1 then
    if m = 0 then (if sign = 1 then "-Inf" else "+Inf") else "NaN"
  else
    let mant := if e = 0 then m else 2 ^ mbits + m
    let ex := if e = 0 then 1 else e
    (if sign = 1 then "-" else "") ++
      (if bias + mbits ≤ ex then fmtFixed (mant * 2 ^ (ex - (bias + mbits))) 1
       else fmtFixed mant (2 ^ (bias + mbits - ex)))

/-- The `%f` rendering of a float32 given by its bit pattern. -/
def fmtF32 (bits : Nat) : String := fmtF 8 23 bits

/-- The `%f` rendering of a float64 given by its bit pattern. -/
def fmtF64 (bits : Nat) : String := fmtF 11 52 bits

/-- The conversion of an unsigned integer to a float with `p` significant bits
(`float32(val)`, `float64(val)`): the nearest representable integer, a tie to the even
one. -/
def roundToBits (p n : Nat) : Nat :=
  if n < 2 ^ p then n
  else
    let k := Nat.log2 n + 1 - p
    let q := n / 2 ^ k
    let r := n % 2 ^ k
    (if 2 ^ k < 2 * r ∨ (2 * r = 2 ^ k ∧ q % 2 = 1) then q + 1 else q) * 2 ^ k

/-- Little-endian value of a list of bytes. -/
def littleEndian : List Nat → Nat
  | [] => 0
  | b :: rest => b + 256 * littleEndian rest

/-- The reads `Get8`, `Get16`, `Get32`, `Get64` of the wire library on a struct (`width`
bytes at byte offset `off`): zero when the offset is not inside the data section.  A byte
the read takes past the end of the data section is read as zero. -/
def getBytes (p : Object) (width off : Nat) : Nat :=
  if off < p.data.length then
    littleEndian ((List.range width).map (fun i => p.data.getD (off + i) 0))
  else 0

/-- The conversions `int8(val)` ... `int64(val)` of an unsigned value of `w` bits. -/
def toSigned (w x : Nat) : Int :=
  if x < 2 ^ (w - 1) then (x : Int) else (x : Int) - 2 ^ w

/-- The check `assert(v.Which() == tag, msg)`. -/
def assertValue (v : Value) (tag : Value_Which) (msg : String) : Except Err Unit :=
  if v.Which = tag then .ok () else .error (Err.panic msg)

/-- The literal the struct case of `writeValue` writes after `Title(name): ` for a field
with the slot `slot`, read from the struct `p`. -/
def structFieldLiteral (p : Object) (slot : FieldSlot) : Except Err String :=
  match slot.type.Which with
  | TYPE_UINT8 => .ok ("uint8(" ++ fmtNat (getBytes p 1 slot.offset) ++ "),")
  | TYPE_UINT16 => .ok ("uint16(" ++ fmtNat (getBytes p 2 slot.offset) ++ "),")
  | TYPE_UINT32 => .ok ("uint32(" ++ fmtNat (getBytes p 4 slot.offset) ++ "),")
  | TYPE_UINT64 => .ok ("uint64(" ++ fmtNat (getBytes p 8 slot.offset) ++ "),")
  | TYPE_INT8 => .ok ("int8(" ++ fmtInt (toSigned 8 (getBytes p 1 slot.offset)) ++ "),")
  | TYPE_INT16 => .ok ("int16(" ++ fmtInt (toSigned 16 (getBytes p 2 slot.offset)) ++ "),")
  | TYPE_INT32 => .ok ("int32(" ++ fmtInt (toSigned 32 (getBytes p 4 slot.offset)) ++ "),")
  | TYPE_INT64 => .ok ("int64(" ++ fmtInt (toSigned 64 (getBytes p 8 slot.offset)) ++ "),")
  | TYPE_FLOAT32 =>
    .ok ("float32(" ++ fmtFixed (roundToBits 24 (getBytes p 4 slot.offset)) 1 ++ "),")
  | TYPE_FLOAT64 =>
    .ok ("float64(" ++ fmtFixed (roundToBits 53 (getBytes p 8 slot.offset)) 1 ++ "),")
  | TYPE_TEXT => .ok ("\"" ++ p.texts.getD slot.offset "" ++ "\",")
  | _ => .error (Err.panic "Unsupported value type")

/-- The field loop of the struct case of `writeValue`; `w` is what has been written so
far. -/
def writeStructFields (p : Object) : List Field → String → Except Err String
  | [], w => .ok w
  | f :: rest, w =>
    match structFieldLiteral p f.slot with
    | .error e => .error e
    | .ok lit => writeStructFields p rest (w ++ (title f.name ++ ": ") ++ lit)

/-- The list case of `writeValue`, after the assert on the value tag: the element type
`lt` and the list object `l`. -/
def writeListValue (g : Registry) (st : Vars) (lib : Stdlib) (n : node) (lt : SchemaType)
    (l : Object) (g_imported : List String) : Except Err (String × List String) :=
  match lt with
  | .void => .ok ("make([]C.Void, " ++ fmtNat l.len ++ ")", g_imported)
  | .interface _ => .ok ("make([]C.Interface, " ++ fmtNat l.len ++ ")", g_imported)
  | .bool =>
    .ok ("[]bool\x7b" ++ joinStrings ", " (l.bits.map (fun b => if b then "true" else "false"))
      ++ "\x7d", g_imported)
  | .int8 => .ok ("[]int8\x7b" ++ joinStrings ", " (l.ints.map fmtInt) ++ "\x7d", g_imported)
  | .uint8 => .ok ("[]uint8\x7b" ++ joinStrings ", " (l.nats.map fmtNat) ++ "\x7d", g_imported)
  | .int16 => .ok ("[]int16\x7b" ++ joinStrings ", " (l.ints.map fmtInt) ++ "\x7d", g_imported)
  | .uint16 => .ok ("[]uint16\x7b" ++ joinStrings ", " (l.nats.map fmtNat) ++ "\x7d", g_imported)
  | .int32 => .ok ("[]int32\x7b" ++ joinStrings ", " (l.ints.map fmtInt) ++ "\x7d", g_imported)
  | .uint32 => .ok ("[]uint32\x7b" ++ joinStrings ", " (l.nats.map fmtNat) ++ "\x7d", g_imported)
  | .float32 =>
    .ok ("[]float32\x7b" ++ joinStrings ", " (l.floats.map (lib.fmtG 32)) ++ "\x7d", g_imported)
  | .int64 => .ok ("[]int64\x7b" ++ joinStrings ", " (l.ints.map fmtInt) ++ "\x7d", g_imported)
  | .uint64 => .ok ("[]uint64\x7b" ++ joinStrings ", " (l.nats.map fmtNat) ++ "\x7d", g_imported)
  | .float64 =>
    .ok ("[]float64\x7b" ++ joinStrings ", " (l.floats.map (lib.fmtG 64)) ++ "\x7d", g_imported)
  | .text =>
    .ok ("[]string\x7b" ++ joinStrings ", " (l.textList.map (fun b => "\"" ++ b ++ "\""))
      ++ "\x7d", g_imported)
  | .data =>
    .ok ("[]byte\x7b" ++
      joinStrings ", " (l.dataList.map (fun b => "[]byte\x7b" ++ joinBytes b ++ "\x7d"))
      ++ "\x7d", g_imported)
  | .enum typeId =>
    match findNode g typeId with
    | .error e => .error e
    | .ok en =>
      match remoteName (st typeId) n g_imported with
      | .error e => .error e
      | .ok (name, imported) =>
        .ok ("[]" ++ name ++ "\x7b" ++
          joinStrings ", " (l.nats.map (fun b => (en.enum.enumerants.getD b {}).name))
          ++ "\x7d", imported)
  | .struct typeId =>
    match findNode g typeId with
    | .error e => .error e
    | .ok _ =>
      match remoteName (st typeId) n g_imported with
      | .error e => .error e
      | .ok (name, imported) =>
        .ok ("[]" ++ name ++ "\x7b" ++ "/* Not implemented */" ++ "\x7d", imported)
  | .list _ => .ok ("[]interface\x7b" ++ "/* Not implemented */" ++ "\x7d", g_imported)
  | .anyPointer => .ok ("[]interface\x7b" ++ "/* Not implemented */" ++ "\x7d", g_imported)

/-- Go `(n *node) writeValue(w, t, v)`: what it writes, and the import set afterwards.
`n` is the referencing node. -/
def writeValue (g : Registry) (st : Vars) (lib : Stdlib) (n : node) (t : SchemaType) (v : Value)
    (g_imported : List String) : Except Err (String × List String) :=
  match t with
  | .void => .ok ("struct\x7b\x7d", g_imported)
  | .interface _ => .ok ("struct\x7b\x7d", g_imported)
  | .bool => do
    assertValue v VALUE_BOOL "expected bool value"
    pure (if v.Bool then "true" else "false", g_imported)
  | .int8 => do
    assertValue v VALUE_INT8 "expected int8 value"
    pure ("int8(" ++ fmtInt v.Int8 ++ ")", g_imported)
  | .uint8 => do
    assertValue v VALUE_UINT8 "expected uint8 value"
    pure ("uint8(" ++ fmtNat v.Uint8 ++ ")", g_imported)
  | .int16 => do
    assertValue v VALUE_INT16 "expected int16 value"
    pure ("int16(" ++ fmtInt v.Int16 ++ ")", g_imported)
  | .uint16 => do
    assertValue v VALUE_UINT16 "expected uint16 value"
    pure ("uint16(" ++ fmtNat v.Uint16 ++ ")", g_imported)
  | .int32 => do
    assertValue v VALUE_INT32 "expected int32 value"
    pure ("int32(" ++ fmtInt v.Int32 ++ ")", g_imported)
  | .uint32 => do
    assertValue v VALUE_UINT32 "expected uint32 value"
    pure ("uint32(" ++ fmtNat v.Uint32 ++ ")", g_imported)
  | .int64 => do
    assertValue v VALUE_INT64 "expected int64 value"
    pure ("int64(" ++ fmtInt v.Int64 ++ ")", g_imported)
  | .uint64 => do
    assertValue v VALUE_UINT64 "expected uint64 value"
    pure ("uint64(" ++ fmtNat v.Uint64 ++ ")", g_imported)
  | .float32 => do
    assertValue v VALUE_FLOAT32 "expected float32 value"
    pure ("float32(" ++ fmtF32 v.Float32 ++ ")", g_imported)
  | .float64 => do
    assertValue v VALUE_FLOAT64 "expected float64 value"
    pure ("float64(" ++ fmtF64 v.Float64 ++ ")", g_imported)
  | .text => do
    assertValue v VALUE_TEXT ("expected text value" ++ " got " ++ fmtNat v.Which.toNat)
    pure (lib.Quote v.Text, g_imported)
  | .data => do
    assertValue v VALUE_DATA "expected data value"
    pure ("[]byte\x7b" ++ joinBytes v.Data ++ "\x7d", g_imported)
  | .enum typeId => do
    assertValue v VALUE_ENUM "expected enum value"
    let en ← findNode g typeId
    if en.which ≠ NODE_ENUM then .error (Err.panic "expected enum type ID")
    else if en.enum.enumerants.length ≤ v.Enum then do
      let (name, imported) ← remoteName (st typeId) n g_imported
      pure (name ++ "(" ++ fmtNat v.Enum ++ ")", imported)
    else do
      let (scope, imported) ← remoteScope (st typeId) n g_imported
      pure (scope ++ (en.enum.enumerants.getD v.Enum {}).name, imported)
  | .struct typeId => do
    let sn ← findNode g typeId
    let mbrs ← codeOrderFields sn.struct.fields
    let w ← writeStructFields v.Struct mbrs ((st typeId).name ++ "\x7b ")
    pure (w ++ "\x7d\n", g_imported)
  | .anyPointer => .ok ("interface\x7b\x7d", g_imported)
  | .list lt => do
    assertValue v VALUE_LIST "expected list value"
    writeListValue g st lib n lt v.List g_imported

/-- Go `constIsVar(n)`. -/
def constIsVar (n : Node) : Bool :=
  match n.const.type.Which with
  | TYPE_BOOL | TYPE_INT8 | TYPE_UINT8 | TYPE_INT16 | TYPE_UINT16 | TYPE_INT32 | TYPE_UINT32
  | TYPE_INT64 | TYPE_UINT64 | TYPE_FLOAT32 | TYPE_FLOAT64 | TYPE_TEXT | TYPE_ENUM => false
  | _ => true

/-- One of the two loops of `defineConstNodes`: the one over the const nodes whose
`constIsVar` is `isVar`, which writes `opening` before its first line.  The state is the
flag `any`, what has been written, and the import set. -/
def constLoop (g : Registry) (st : Vars) (lib : Stdlib) (isVar : Bool) (opening : String) :
    List Nat → Bool → String → List String → Except Err (Bool × String × List String)
  | [], any, w, imported => .ok (any, w, imported)
  | nid :: rest, any, w, imported =>
    match g.get nid with
    | none => .error (Err.panic "nil pointer dereference")
    | some n =>
      if n.which = NODE_CONST ∧ constIsVar n = isVar then
        match writeValue g st lib (st nid) n.const.type n.const.value imported with
        | .error e => .error e
        | .ok (out, imported1) =>
          constLoop g st lib isVar opening rest true
            ((if any then w else w ++ opening) ++ ((st nid).name ++ " = ") ++ out ++ "\n")
            imported1
      else constLoop g st lib isVar opening rest any w imported

/-- Go `defineConstNodes(w, nodes)`: what it writes, and the import set afterwards. -/
def defineConstNodes (g : Registry) (st : Vars) (lib : Stdlib) (nodes : List Nat)
    (g_imported : List String) : Except Err (String × List String) :=
  match constLoop g st lib false "const (\n" nodes false "" g_imported with
  | .error e => .error e
  | .ok (any, w, imported) =>
    match constLoop g st lib true "var (\n" nodes false (if any then w ++ ")\n" else w)
        imported with
    | .error e => .error e
    | .ok (any1, w1, imported1) => .ok (if any1 then w1 ++ ")\n" else w1, imported1)

/-- A stand-in for the library renderers in the examples below, none of which renders a
float list or a text that needs escaping. -/
def exampleStdlib : Stdlib :=
  { fmtG := fun _ bits => fmtNat bits, Quote := fun s => "\"" ++ s ++ "\"" }

/-- The exact rational the IEEE bit pattern `bits` stands for (exponent field of `ebits`
bits, fraction field of `mbits` bits); none for an infinity or a NaN. -/
def floatVal (ebits mbits bits : Nat) : Option ℚ :=
  let sign := bits / 2 ^ (ebits + mbits) % 2
  let e := bits / 2 ^ mbits % 2 ^ ebits
  let m := bits % 2 ^ mbits
  let bias := 2 ^ (ebits - 1) - 1
  if e = 2 ^ ebits - 1 then none
  else
    let mant := if e = 0 then m else 2 ^ mbits + m
    let ex := if e = 0 then 1 else e
    let mag : ℚ :=
      if bias + mbits ≤ ex then ((mant * 2 ^ (ex - (bias + mbits)) : Nat) : ℚ)
      else (mant : ℚ) / ((2 ^ (bias + mbits - ex) : Nat) : ℚ)
    some (if sign = 1 then -mag else mag)

/-- The rational a decimal literal `[-]digits[.digits]` denotes. -/
def decimalVal (s : String) : Option ℚ :=
  let neg := s.data.head? = some '-'
  let body := if neg then s.data.tail else s.data
  let ip := body.takeWhile (fun c => c != '.')
  let fp := (body.dropWhile (fun c => c != '.')).drop 1
  if (ip ++ fp).all Char.isDigit ∧ ip ≠ [] then
    let mag : ℚ := ((ip ++ fp).foldl (fun acc c => 10 * acc + (c.toNat - 48)) 0 : Nat) /
      ((10 ^ fp.length : Nat) : ℚ)
    some (if neg then -mag else mag)
  else none

/-- What the struct case of `writeValue` writes for one field `f`, read from the struct
`p`: `Title(name): `, the literal of the field and a comma. -/
def structEntry (p : Object) (f : Field) (o : String) : Prop :=
  ∃ body, structFieldLiteral p f.slot = .ok (body ++ ",") ∧
    o = title f.name ++ ": " ++ (body ++ ",")

/-- A struct type with the single bool field `ok`, and a registry holding it. -/
def flagStruct : Node :=
  { id := 60, which := NODE_STRUCT,
    struct := { fields := [{ name := "ok", slot := { type := SchemaType.bool } }] } }

def flagRegistry : Registry := [flagStruct, pointStruct]

def flagVars : Vars := fun i => if i = 60 then { name := "Flag" } else { name := "Point" }

/-- Whether `nid` is a registered const node whose `constIsVar` is `isVar`. -/
def isConstOf (g : Registry) (isVar : Bool) (nid : Nat) : Bool :=
  match g.get nid with
  | some n => decide (n.which = NODE_CONST) && (constIsVar n == isVar)
  | none => false

/-- The line `defineConstNodes` writes for the const node `nid`: its name, ` = `, what
`writeValue` writes for its type and value, and a newline. -/
def constNodeLine (g : Registry) (st : Vars) (lib : Stdlib) (nid : Nat) (o : String) : Prop :=
  ∃ n v imp0 imp1, g.get nid = some n ∧
    writeValue g st lib (st nid) n.const.type n.const.value imp0 = .ok (v, imp1) ∧
    o = (st nid).name ++ " = " ++ v ++ "\n"

/-- A block of `defineConstNodes`: nothing without lines, else the opening, the lines and
the closing parenthesis. -/
def constBlock (opening : String) (outs : List String) : String :=
  if outs = [] then "" else opening ++ concatStrings outs ++ ")\n"

/-- Three constants of a file: `answer` (int32), `blob` (data) and `flag` (bool), with
the struct `Point` between them. -/
def constRegistry : Registry := [
  { id := 70, which := NODE_CONST, const := { type := SchemaType.int32, value := Value.int32 42 } },
  { id := 71, which := NODE_CONST,
    const := { type := SchemaType.data, value := Value.data [1, 2] } },
  pointStruct,
  { id := 72, which := NODE_CONST, const := { type := SchemaType.bool, value := Value.bool true } }]

def constVars : Vars := fun i =>
  if i = 70 then { name := "Answer" } else if i = 71 then { name := "Blob" }
  else if i = 72 then { name := "Flag" } else { name := "Point" }

/-! ## JSON serializer generation -/

/-- What Go `writeErrCheck(w)` writes. -/
def errCheck : String := "if err != nil \x7b return err; \x7d;"

/-- The comma write of `jsonStruct`: the raw string literal of the source, with its line
break and tabs. -/
def commaWrite : String := "\n\t\t\t\terr = b.WriteByte(',');\n\t\t\t"

/-- Go `(t Type) json(w)`: what it writes, and the import set afterwards. -/
def SchemaType.json : SchemaType → List String → String × List String
  | .void, imp => ("_ = s;" ++ "_, err = b.WriteString(\"null\");" ++ errCheck, imp)
  | .enum _, imp => ("err = s.WriteJSON(b);" ++ errCheck, imp)
  | .struct _, imp => ("err = s.WriteJSON(b);" ++ errCheck, imp)
  | .interface _, imp => ("", imp)
  | .anyPointer, imp => ("", imp)
  | .list typ, imp =>
    if typ.Which = TYPE_LIST ∨ typ.Which = TYPE_ANYPOINTER then
      ("_ = s;" ++ "_, err = b.WriteString(\"\\\"untyped list\\\"\");" ++ errCheck, imp)
    else
      match typ.json imp with
      | (inner, imp1) =>
        ("\x7b err = b.WriteByte('[');" ++ errCheck ++ "for i, s := range s.ToArray() \x7b" ++
          "if i != 0 \x7b _, err = b.WriteString(\", \"); \x7d;" ++ errCheck ++ inner ++
          "\x7d; err = b.WriteByte(']'); \x7d;" ++ errCheck, imp1)
  | _, imp =>
    ("buf, err = json.Marshal(s);" ++ errCheck ++ "_, err = b.Write(buf);" ++ errCheck,
      markImported "encoding/json" imp)

/-- Go `(f *Field) json(w)`; `rec` is the call of `jsonStruct` on a group node. -/
def Field.json (g : Registry) (rec : Nat → List String → Except Err (String × List String))
    (f : Field) (imp : List String) : Except Err (String × List String) :=
  match f.which with
  | FIELD_SLOT =>
    if f.slot.type.Which = TYPE_VOID then .ok (f.slot.type.json imp)
    else
      match f.slot.type.json imp with
      | (inner, imp1) => .ok ("\x7b s := s." ++ title f.name ++ "(); " ++ inner ++ "\x7d; ", imp1)
  | FIELD_GROUP =>
    match findNode g f.group.typeId with
    | .error e => .error e
    | .ok _ =>
      match rec f.group.typeId imp with
      | .error e => .error e
      | .ok (inner, imp1) => .ok ("\x7b s := s." ++ title f.name ++ "();" ++ inner ++ "\x7d;", imp1)

/-- The loop of `jsonStruct` over the code-ordered fields, `i` being the index of the
first of them; `w` is what has been written so far. -/
def jsonStructLoop (g : Registry) (st : Vars)
    (rec : Nat → List String → Except Err (String × List String)) (nid : Nat) :
    Nat → List Field → String → List String → Except Err (String × List String)
  | _, [], w, imp => .ok (w, imp)
  | i, f :: rest, w, imp =>
    let w1 :=
      if f.discriminantValue ≠ 0xFFFF then
        w ++ ("if s.Which() == " ++ (ToUpper (st nid).name ++ "_" ++ ToUpper f.name) ++ " \x7b")
      else if i ≠ 0 then w ++ commaWrite ++ errCheck
      else w
    let w2 := w1 ++ ("_, err = b.WriteString(\"\\\"" ++ f.name ++ "\\\":\");") ++ errCheck
    match Field.json g rec f imp with
    | .error e => .error e
    | .ok (out, imp1) =>
      jsonStructLoop g st rec nid (i + 1) rest
        (if f.discriminantValue ≠ 0xFFFF then w2 ++ out ++ "\x7d;" else w2 ++ out) imp1

/-- Go `(n *node) jsonStruct(w)`: what it writes, and the import set afterwards. -/
def jsonStruct (g : Registry) (st : Vars) :
    Nat → Nat → List String → Except Err (String × List String)
  | 0, _, _ => .error Err.fuel
  | fuel + 1, nid, imp =>
    match g.get nid with
    | none => .error (Err.panic "nil pointer dereference")
    | some n =>
      match codeOrderFields n.struct.fields with
      | .error e => .error e
      | .ok mbrs =>
        match jsonStructLoop g st (jsonStruct g st fuel) nid 0 mbrs
            ("err = b.WriteByte('\x7b');" ++ errCheck) imp with
        | .error e => .error e
        | .ok (w, imp1) => .ok (w ++ "err = b.WriteByte('\x7d');" ++ errCheck, imp1)

/-- A struct with the plain field `id` (uint8) ahead of the 2-member union
`{a: void, b: uint8}`. -/
def mixedStruct : Node :=
  { id := 12, which := NODE_STRUCT,
    struct := { discriminantCount := 2, fields := [
      { name := "id", codeOrder := 0, slot := { type := SchemaType.uint8 } },
      { name := "a", codeOrder := 1, discriminantValue := 0, slot := { type := SchemaType.void } },
      { name := "b", codeOrder := 2, discriminantValue := 1,
        slot := { type := SchemaType.uint8 } }] } }

/-- The registry of the union scenario with the struct above. -/
def mixedRegistry : Registry := [unionStruct, unionGroup, mixedStruct]

/-- Its state after resolution. -/
def mixedVars : Vars := fun i =>
  if i = 10 then { pkg := "p", name := "Shape" }
  else if i = 11 then { pkg := "p", name := "ShapeG" } else { pkg := "p", name := "Mixed" }

/-! ## Reading the generated serializer -/

/-- The key write of a member: the statement that writes `"name":` and its error check. -/
def keyWrite (f : Field) : String :=
  ("_, err = b.WriteString(\"\\\"" ++ f.name ++ "\\\":\");") ++ errCheck

/-- The opening of the discriminant block of the union member `f` of the struct named
`name`: `if s.Which() == UPPER(name)_UPPER(field name) {`. -/
def whichGuard (name : String) (f : Field) : String :=
  "if s.Which() == " ++ (ToUpper name ++ "_" ++ ToUpper f.name) ++ " \x7b"

/-- What `jsonStruct` writes ahead of the key write of the member `f` at position `i` of
the code order: the opening of its discriminant block for a union member, the comma write
with its error check for another member that is not at position 0, else nothing. -/
def memberOpening (name : String) (i : Nat) (f : Field) : String :=
  if f.discriminantValue ≠ 0xFFFF then whichGuard name f
  else if i ≠ 0 then commaWrite ++ errCheck
  else ""

/-- What `jsonStruct` writes after the value write of the member `f`: the end of its
discriminant block for a union member, else nothing. -/
def memberClosing (f : Field) : String :=
  if f.discriminantValue ≠ 0xFFFF then "\x7d;" else ""

/-- What `jsonStruct` of the struct named `name` writes for the member `e.2` at position
`e.1` of the code order: the opening, the key write, the value write of `Field.json`, the
closing. -/
def jsonMember (g : Registry) (rec : Nat → List String → Except Err (String × List String))
    (name : String) (e : Nat × Field) (o : String) : Prop :=
  ∃ value imp0 imp1, Field.json g rec e.2 imp0 = .ok (value, imp1) ∧
    o = memberOpening name e.1 e.2 ++ keyWrite e.2 ++ value ++ memberClosing e.2

/-- The struct of the spec's scenario with nothing but the 2-member union
`{a: void, b: uint8}`. -/
def pairStruct : Node :=
  { id := 13, which := NODE_STRUCT,
    struct := { discriminantCount := 2, fields := [
      { name := "b", codeOrder := 1, discriminantValue := 1,
        slot := { type := SchemaType.uint8 } },
      { name := "a", codeOrder := 0, discriminantValue := 0,
        slot := { type := SchemaType.void } }] } }

/-- The field `a` of the scenario. -/
def pairA : Field :=
  { name := "a", codeOrder := 0, discriminantValue := 0, slot := { type := SchemaType.void } }

/-- The field `b` of the scenario. -/
def pairB : Field :=
  { name := "b", codeOrder := 1, discriminantValue := 1, slot := { type := SchemaType.uint8 } }

/-- A registry holding it, and its state after resolution. -/
def pairRegistry : Registry := [pairStruct]

def pairVars : Vars := fun _ => { pkg := "p", name := "Pair" }

/-- The annotation that decides the String tag of an enumerant: the last one of its
annotations that is a tag or a no-tag annotation. -/
def lastTagMark (anns : List Annotation) : Option Annotation :=
  anns.reverse.find? (fun a => decide (a.id = AnnotationId.Tag ∨ a.id = AnnotationId.Notag))

/-- An enum whose enumerant `a` carries a no-tag annotation followed by the tag `x`, and
whose enumerant `b` carries the tag `y` followed by a no-tag annotation. -/
def tagEnum : Node :=
  { id := 22, which := NODE_ENUM,
    enum := { enumerants := [
      { name := "a", codeOrder := 0,
        annotations := [⟨AnnotationId.Notag, Value.void⟩, ⟨AnnotationId.Tag, Value.text "x"⟩] },
      { name := "b", codeOrder := 1,
        annotations := [⟨AnnotationId.Tag, Value.text "y"⟩, ⟨AnnotationId.Notag, Value.void⟩] }] } }

/-- A registry holding it, and its state after resolution. -/
def tagRegistry : Registry := [tagEnum]

def tagVars : Vars := fun _ => { pkg := "p", name := "T" }

/-! ## The walk through group fields -/

/-- The targets of the Group fields of a node. -/
def groupIds (n : Node) : List Nat :=
  (n.struct.fields.filter (fun f => decide (f.which = FIELD_GROUP))).map (fun f => f.group.typeId)

/-- A registry in which the walks through Group fields come to an end: in every node
the code orders of the fields are a permutation of `0..n-1`, and the target of every
Group field is a registered struct node of lower rank. -/
def GroupWalk (g : Registry) (rank : Nat → Nat) : Prop :=
  ∀ m ∈ g, (m.struct.fields.map (fun f => f.codeOrder)).Perm (List.range m.struct.fields.length) ∧
    ∀ c ∈ groupIds m, rank c < rank m.id ∧
      (g.get c).map (fun x => x.which) = some NODE_STRUCT

/-- The value write of the member `f`, as `Field.json` writes it with `fuel` left for the
groups: for a group the block `{ s := s.Name();` ... `};` around what `jsonStruct` writes
for the group node; for a void slot the write of the literal `null`; for another slot the
block `{ s := s.Name(); ` ... `}; ` around what `Type.json` writes for its type. -/
def jsonValue (g : Registry) (st : Vars) (fuel : Nat) (f : Field) (value : String) : Prop :=
  if f.which = FIELD_GROUP then
    ∃ inner imp0 imp1, jsonStruct g st fuel f.group.typeId imp0 = .ok (inner, imp1) ∧
      value = "\x7b s := s." ++ title f.name ++ "();" ++ inner ++ "\x7d;"
  else if f.slot.type.Which = TYPE_VOID then
    value = "_ = s;" ++ "_, err = b.WriteString(\"null\");" ++ errCheck
  else value = "\x7b s := s." ++ title f.name ++ "(); " ++ (f.slot.type.json []).1 ++ "\x7d; "

/-- A rank for the union scenario: the struct `Shape` above its group. -/
def shapeRank : Nat → Nat := fun i => if i = 10 then 1 else 0

/-- A struct `Outer` with the plain field `id` and the group `inner`, which holds the
2-member union `{p: void, q: uint8}`: the struct itself has no union. -/
def outerStruct : Node :=
  { id := 14, which := NODE_STRUCT,
    struct := { fields := [
      { name := "id", codeOrder := 0, slot := { type := SchemaType.uint8 } },
      { name := "inner", codeOrder := 1, which := FIELD_GROUP, group := ⟨15⟩ }] } }

/-- The group node behind the field `inner`. -/
def outerInner : Node :=
  { id := 15, which := NODE_STRUCT,
    struct := { isGroup := true, discriminantCount := 2, fields := [
      { name := "q", codeOrder := 1, discriminantValue := 1,
        slot := { type := SchemaType.uint8 } },
      { name := "p", codeOrder := 0, discriminantValue := 0,
        slot := { type := SchemaType.void } }] } }

/-- The registry of the two, their state after resolution, and a rank that puts the
struct above its group. -/
def outerRegistry : Registry := [outerStruct, outerInner]

def outerVars : Vars := fun i =>
  if i = 14 then { pkg := "p", name := "Outer" } else { pkg := "p", name := "OuterInner" }

def outerRank : Nat → Nat := fun i => if i = 14 then 1 else 0

/-! ## Writes and panics

The functions below follow the writer through a call: their first component is what the
writer holds when the call ends, by a return or by a panic, so that what was written
before a panic stays visible. -/

/-- Go `(n *node) processAnnotations(w, t, ans)` on the writer `w`: what `w` holds when
the call ends, and how it ends. -/
def processAnnotationsOn (codecs : List AnnotationId) (t : Type_Which) (ans : List Annotation)
    (w : String) : String × Except Err Unit :=
  if hasAnnotation ans AnnotationId.Required && hasAnnotation ans AnnotationId.Ignored then
    (w, .error (Err.panic "Field annnotations 'required' and 'ignored' are incompatible."))
  else if hasAnnotation ans AnnotationId.Required && hasAnnotation ans AnnotationId.Optional then
    (w, .error (Err.panic "Annnotations 'required' and 'optional' are incompatible"))
  else if hasAnnotation ans AnnotationId.Optional && hasAnnotation ans AnnotationId.Ignored then
    (w, .error (Err.panic "Annnotations 'optional' and 'ignored' are incompatible"))
  else
    let tags := ans.flatMap (fun a => codecTags codecs a ++ checkTags t a)
    if tags.length ≠ 0 then (w ++ ("`" ++ joinStrings " " tags ++ "`"), .ok ()) else (w, .ok ())

/-- Go `(n *node) defineField(w, f, x)` on the writer `w`: what `w` holds when the call
ends, and the import set it returns or the panic.  The doc lines go to the private buffer
`g` and the member line to the private buffer `s`, which is the writer the call hands to
`processAnnotations`; both are written to `w` by the last two statements. -/
def defineFieldOn (g : Registry) (st : Vars) (nid : Nat) (f : Field) (g_imported : List String)
    (w : String) : String × Except Err (List String) :=
  let t := f.slot.type
  if t.Which = TYPE_INTERFACE then (w, .ok g_imported)
  else
    let fname := title (if nameAnnotation f.annotations ≠ "" then nameAnnotation f.annotations
      else f.name)
    if f.discriminantValue ≠ 0xFFFF ∧ t.Which = TYPE_VOID then
      (w ++ "/* Not implemented */", .ok g_imported)
    else if ¬ f.discriminantValue ≠ 0xFFFF ∧ t.Which = TYPE_VOID then (w, .ok g_imported)
    else
      match fieldAnnotations f.annotations ("", "", g_imported) with
      | (gbuf, customtype, imported1) =>
        match TypeName g st f.slot (st nid) customtype imported1 with
        | .error e => (w, .error e)
        | .ok (typeName, imported2) =>
          match (if f.annotations.length ≠ 0 then
              processAnnotationsOn (st nid).codecs t.Which f.annotations
                (fname ++ " " ++ typeName)
            else (fname ++ " " ++ typeName, .ok ())) with
          | (_, .error e) => (w, .error e)
          | (s, .ok _) => (w ++ gbuf ++ (s ++ "\n"), .ok imported2)

/-- The loop of `defineStructFields` on the writer `w`; `rec` is the recursive call on a
group node. -/
def defineStructFieldsLoopOn (g : Registry) (st : Vars)
    (rec : Nat → List String → String → String × Except Err (List String)) (nid : Nat) :
    List Field → List String → String → String × Except Err (List String)
  | [], imported, w => (w, .ok imported)
  | f :: rest, imported, w =>
    match f.which with
    | FIELD_SLOT =>
      match defineFieldOn g st nid f imported w with
      | (w1, .error e) => (w1, .error e)
      | (w1, .ok imported1) => defineStructFieldsLoopOn g st rec nid rest imported1 w1
    | FIELD_GROUP =>
      match findNode g f.group.typeId with
      | .error e => (w, .error e)
      | .ok _ =>
        let fname := title (if nameAnnotation f.annotations ≠ "" then nameAnnotation f.annotations
          else f.name)
        match rec f.group.typeId imported (w ++ (fname ++ " struct \x7b\n")) with
        | (w1, .error e) => (w1, .error e)
        | (w1, .ok imported1) =>
          defineStructFieldsLoopOn g st rec nid rest imported1 (w1 ++ "\x7d\n")

/-- Go `(n *node) defineStructFields(w, x)` on the writer `w`. -/
def defineStructFieldsOn (g : Registry) (st : Vars) :
    Nat → Nat → List String → String → String × Except Err (List String)
  | 0, _, _, w => (w, .error Err.fuel)
  | fuel + 1, nid, imported, w =>
    match g.get nid with
    | none => (w, .error (Err.panic "nil pointer dereference"))
    | some n =>
      if n.which ≠ NODE_STRUCT then (w, .error (Err.panic "invalid struct node"))
      else
        match codeOrderFields n.struct.fields with
        | .error e => (w, .error e)
        | .ok mbrs =>
          defineStructFieldsLoopOn g st (defineStructFieldsOn g st fuel) nid mbrs imported w

/-- A struct with the int32 field `x` ahead of the text field annotated both Required and
Ignored. -/
def conflictStruct : Node :=
  { id := 16, which := NODE_STRUCT,
    struct := { fields := [
      { name := "x", codeOrder := 0, slot := { type := SchemaType.int32 } },
      { name := "title", codeOrder := 1, slot := { type := SchemaType.text },
        annotations := [⟨AnnotationId.Required, Value.text "title"⟩,
          ⟨AnnotationId.Ignored, Value.void⟩] }] } }

/-- A struct `Event` with the int32 field `when`, which carries a doc comment and the
Required annotation, and the group `pos`. -/
def eventStruct : Node :=
  { id := 17, which := NODE_STRUCT,
    struct := { fields := [
      { name := "pos", codeOrder := 1, which := FIELD_GROUP, group := ⟨18⟩ },
      { name := "when", codeOrder := 0, slot := { type := SchemaType.int32 },
        annotations := [⟨AnnotationId.Doc, Value.text "first"⟩,
          ⟨AnnotationId.Required, Value.text "when"⟩] }] } }

/-- The group node behind the field `pos`: one int32 slot. -/
def eventPos : Node :=
  { id := 18, which := NODE_STRUCT,
    struct := { isGroup := true, fields := [
      { name := "x", codeOrder := 0, slot := { type := SchemaType.int32 } }] } }

/-- The registry of the two, their state after resolution with the Json codec enabled on
the struct, and a rank that puts the struct above its group. -/
def eventRegistry : Registry := [eventStruct, eventPos]

def eventVars : Vars := fun i =>
  if i = 17 then { pkg := "p", name := "Event", codecs := [AnnotationId.Json] }
  else { pkg := "p", name := "EventPos" }

def eventRank : Nat → Nat := fun i => if i = 17 then 1 else 0

/-! # Theorems -/

/-! ## Name resolution -/

theorem resolveNested_preserves (g : Registry) (Q : Vars → Prop)
    (rec : Nat → String → String → Vars → Except Err Vars) (x : Nat) :
    ∀ (l : List NestedNode) (st st' : Vars),
      (∀ nn ∈ l, (g.get nn.id).isSome = true →
        ∀ b nm s s', Q s → rec nn.id b nm s = .ok s' → Q s') →
      Q st → resolveNested g rec x l st = .ok st' → Q st' := by
  intro l
  induction l with
  | nil =>
    intro st st' _ hq h
    simp only [resolveNested, Except.ok.injEq] at h
    exact h ▸ hq
  | cons nn rest ih =>
    intro st st' hrec hq h
    simp only [resolveNested] at h
    have hrest : ∀ nn' ∈ rest, (g.get nn'.id).isSome = true →
        ∀ b nm s s', Q s → rec nn'.id b nm s = .ok s' → Q s' :=
      fun nn' hm => hrec nn' (List.mem_cons_of_mem _ hm)
    cases hg : g.get nn.id with
    | none =>
      rw [hg] at h
      exact ih st st' hrest hq h
    | some n =>
      rw [hg] at h
      cases hr : rec nn.id (st x).name nn.name st with
      | error e => rw [hr] at h; cases h
      | ok st1 =>
        rw [hr] at h
        have h1 : Q st1 :=
          hrec nn (List.mem_cons_self _ _) (by simp [hg]) _ _ _ _ hq hr
        exact ih st1 st' hrest h1 h

theorem resolveGroups_preserves (g : Registry) (Q : Vars → Prop)
    (rec : Nat → String → String → Vars → Except Err Vars) (x : Nat) :
    ∀ (l : List Field) (st st' : Vars),
      (∀ f ∈ l, f.which = FIELD_GROUP →
        ∀ b nm s s', Q s → rec f.group.typeId b nm s = .ok s' → Q s') →
      Q st → resolveGroups g rec x l st = .ok st' → Q st' := by
  intro l
  induction l with
  | nil =>
    intro st st' _ hq h
    simp only [resolveGroups, Except.ok.injEq] at h
    exact h ▸ hq
  | cons f rest ih =>
    intro st st' hrec hq h
    simp only [resolveGroups] at h
    have hrest : ∀ f' ∈ rest, f'.which = FIELD_GROUP →
        ∀ b nm s s', Q s → rec f'.group.typeId b nm s = .ok s' → Q s' :=
      fun f' hm => hrec f' (List.mem_cons_of_mem _ hm)
    by_cases hw : f.which = FIELD_GROUP
    · rw [if_pos hw] at h
      cases hf : findNode g f.group.typeId with
      | error e => rw [hf] at h; cases h
      | ok n =>
        rw [hf] at h
        simp only at h
        split at h
        · next st1 hr =>
          have h1 : Q st1 := hrec f (List.mem_cons_self _ _) hw _ _ _ _ hq hr
          exact ih st1 st' hrest h1 h
        · cases h
    · rw [if_neg hw] at h
      exact ih st st' hrest hq h

/-- A property of the state that every own assignment at a node reachable from `x` keeps
is kept by the whole walk from `x`. -/
theorem resolveName_preserves (g : Registry) (file : Nat) (Q : Vars → Prop) :
    ∀ (fuel x : Nat) (b nm : String) (st st' : Vars),
      (∀ z n b nm s, Relation.ReflTransGen (Edge g) x z → g.get z = some n →
        Q s → Q (resolveOwn n file z b nm s)) →
      Q st → resolveName g file fuel x b nm st = .ok st' → Q st' := by
  intro fuel
  induction fuel with
  | zero => intro x b nm st st' _ _ h; simp [resolveName] at h
  | succ k ih =>
    intro x b nm st st' hown hq h
    simp only [resolveName] at h
    cases hg : g.get x with
    | none => rw [hg] at h; cases h
    | some n =>
      rw [hg] at h
      simp only at h
      have hq0 : Q (resolveOwn n file x b nm st) :=
        hown x n b nm st Relation.ReflTransGen.refl hg hq
      have hchild : ∀ c, Edge g x c → ∀ b nm s s', Q s →
          resolveName g file k c b nm s = .ok s' → Q s' := by
        intro c hc b' nm' s s' hs hr
        exact ih c b' nm' s s'
          (fun z n' b2 nm2 s2 hz => hown z n' b2 nm2 s2 (Relation.ReflTransGen.head hc hz)) hs hr
      split at h
      · cases h
      · next st1 h1 =>
        have hq1 : Q st1 := by
          refine resolveNested_preserves g Q _ x n.nestedNodes _ st1 ?_ hq0 h1
          intro nn hnn hsome
          exact hchild nn.id ⟨n, hg, Or.inl ⟨nn, hnn, rfl, hsome⟩⟩
        by_cases hs : n.which = NODE_STRUCT
        · rw [if_pos hs] at h
          refine resolveGroups_preserves g Q _ x n.struct.fields st1 st' ?_ hq1 h
          intro f hf hw
          exact hchild f.group.typeId ⟨n, hg, Or.inr ⟨hs, f, hf, hw, rfl⟩⟩
        · rw [if_neg hs] at h
          simp only [Except.ok.injEq] at h
          exact h ▸ hq1

theorem resolveNested_ok_child (g : Registry)
    (rec : Nat → String → String → Vars → Except Err Vars) (x : Nat) :
    ∀ (l : List NestedNode) (st st' : Vars), resolveNested g rec x l st = .ok st' →
      ∀ nn ∈ l, (g.get nn.id).isSome = true → ∃ b nm s s', rec nn.id b nm s = .ok s' := by
  intro l
  induction l with
  | nil => intro st st' _ nn hnn; cases hnn
  | cons a rest ih =>
    intro st st' h nn hnn hsome
    simp only [resolveNested] at h
    cases hg : g.get a.id with
    | none =>
      rw [hg] at h
      rcases List.mem_cons.1 hnn with rfl | hm
      · simp [hg] at hsome
      · exact ih st st' h nn hm hsome
    | some n =>
      rw [hg] at h
      cases hr : rec a.id (st x).name a.name st with
      | error e => rw [hr] at h; cases h
      | ok st1 =>
        rw [hr] at h
        rcases List.mem_cons.1 hnn with rfl | hm
        · exact ⟨_, _, _, _, hr⟩
        · exact ih st1 st' h nn hm hsome

theorem resolveNested_ok_of (g : Registry)
    (rec : Nat → String → String → Vars → Except Err Vars) (x : Nat) :
    ∀ (l : List NestedNode) (st : Vars),
      (∀ nn ∈ l, (g.get nn.id).isSome = true → ∀ b nm s, ∃ s', rec nn.id b nm s = .ok s') →
      ∃ st', resolveNested g rec x l st = .ok st' := by
  intro l
  induction l with
  | nil => intro st _; exact ⟨st, rfl⟩
  | cons a rest ih =>
    intro st hrec
    simp only [resolveNested]
    have hrest : ∀ nn ∈ rest, (g.get nn.id).isSome = true →
        ∀ b nm s, ∃ s', rec nn.id b nm s = .ok s' :=
      fun nn hm => hrec nn (List.mem_cons_of_mem _ hm)
    cases hg : g.get a.id with
    | none => exact ih st hrest
    | some n =>
      obtain ⟨s1, hs1⟩ := hrec a (List.mem_cons_self _ _) (by simp [hg]) (st x).name a.name st
      simp only [hs1]
      exact ih s1 hrest

theorem resolveGroups_ok_child (g : Registry)
    (rec : Nat → String → String → Vars → Except Err Vars) (x : Nat) :
    ∀ (l : List Field) (st st' : Vars), resolveGroups g rec x l st = .ok st' →
      ∀ f ∈ l, f.which = FIELD_GROUP →
        (g.get f.group.typeId).isSome = true ∧ ∃ b nm s s', rec f.group.typeId b nm s = .ok s' := by
  intro l
  induction l with
  | nil => intro st st' _ f hf; cases hf
  | cons a rest ih =>
    intro st st' h f hf hw
    simp only [resolveGroups] at h
    by_cases ha : a.which = FIELD_GROUP
    · rw [if_pos ha] at h
      cases hfn : findNode g a.group.typeId with
      | error e => rw [hfn] at h; cases h
      | ok n =>
        rw [hfn] at h
        simp only at h
        split at h
        · next st1 hr =>
          rcases List.mem_cons.1 hf with rfl | hm
          · refine ⟨?_, _, _, _, _, hr⟩
            unfold findNode at hfn
            cases hg : g.get f.group.typeId with
            | none => rw [hg] at hfn; cases hfn
            | some _ => rfl
          · exact ih st1 st' h f hm hw
        · cases h
    · rw [if_neg ha] at h
      rcases List.mem_cons.1 hf with rfl | hm
      · exact absurd hw ha
      · exact ih st st' h f hm hw

theorem resolveGroups_ok_of (g : Registry)
    (rec : Nat → String → String → Vars → Except Err Vars) (x : Nat) :
    ∀ (l : List Field) (st : Vars),
      (∀ f ∈ l, f.which = FIELD_GROUP →
        (g.get f.group.typeId).isSome = true ∧ ∀ b nm s, ∃ s', rec f.group.typeId b nm s = .ok s') →
      ∃ st', resolveGroups g rec x l st = .ok st' := by
  intro l
  induction l with
  | nil => intro st _; exact ⟨st, rfl⟩
  | cons a rest ih =>
    intro st hrec
    simp only [resolveGroups]
    have hrest : ∀ f ∈ rest, f.which = FIELD_GROUP →
        (g.get f.group.typeId).isSome = true ∧ ∀ b nm s, ∃ s', rec f.group.typeId b nm s = .ok s' :=
      fun f hm => hrec f (List.mem_cons_of_mem _ hm)
    by_cases ha : a.which = FIELD_GROUP
    · rw [if_pos ha]
      obtain ⟨hsome, hall⟩ := hrec a (List.mem_cons_self _ _) ha
      obtain ⟨n, hn⟩ := Option.isSome_iff_exists.1 hsome
      have hfn : findNode g a.group.typeId = .ok n := by simp [findNode, hn]
      rw [hfn]
      simp only
      obtain ⟨s1, hs1⟩ := hall (st x).name
        (if nameAnnotation a.annotations ≠ "" then nameAnnotation a.annotations else a.name) st
      rw [hs1]
      exact ih s1 hrest
    · rw [if_neg ha]
      exact ih st hrest

/-- Whether the walk from `x` returns with fuel `k` does not depend on the prefix, the
name or the state. -/
theorem resolveName_terminates (g : Registry) (file : Nat) :
    ∀ (k x : Nat) (b nm : String) (st st' : Vars),
      resolveName g file k x b nm st = .ok st' → Terminates g file k x := by
  intro k
  induction k with
  | zero => intro x b nm st st' h; simp [resolveName] at h
  | succ k ih =>
    intro x b nm st st' h b2 nm2 st2
    simp only [resolveName] at h ⊢
    cases hg : g.get x with
    | none => rw [hg] at h; cases h
    | some n =>
      rw [hg] at h
      simp only at h ⊢
      split at h
      · cases h
      · next st1 h1 =>
        have hn := resolveNested_ok_child g _ x _ _ _ h1
        obtain ⟨r1, hr1⟩ := resolveNested_ok_of g (resolveName g file k) x n.nestedNodes
          (resolveOwn n file x b2 nm2 st2)
          (fun nn hnn hsome => by
            obtain ⟨b', nm', s, s', hs⟩ := hn nn hnn hsome
            exact ih nn.id b' nm' s s' hs)
        rw [hr1]
        simp only
        by_cases hs : n.which = NODE_STRUCT
        · rw [if_pos hs] at h ⊢
          have hgr := resolveGroups_ok_child g _ x _ _ _ h
          exact resolveGroups_ok_of g (resolveName g file k) x n.struct.fields r1
            (fun f hf hw => by
              obtain ⟨hsome, b', nm', s, s', hs'⟩ := hgr f hf hw
              exact ⟨hsome, ih f.group.typeId b' nm' s s' hs'⟩)
        · rw [if_neg hs]
          exact ⟨r1, rfl⟩

theorem Terminates.zero_false (g : Registry) (file x : Nat) : ¬ Terminates g file 0 x := by
  intro h
  obtain ⟨s, hs⟩ := h "" "" (fun _ => {})
  simp [resolveName] at hs

/-- A walk that returns with fuel `k + 1` returns from every child with fuel `k`. -/
theorem Terminates.child (g : Registry) (file k x c : Nat)
    (h : Terminates g file (k + 1) x) (hc : Edge g x c) : Terminates g file k c := by
  obtain ⟨st', hst⟩ := h "" "" (fun _ => {})
  obtain ⟨n, hg, hcase⟩ := hc
  simp only [resolveName, hg] at hst
  split at hst
  · cases hst
  · next st1 h1 =>
    rcases hcase with ⟨nn, hnn, rfl, hsome⟩ | ⟨hs, f, hf, hw, rfl⟩
    · obtain ⟨b', nm', s, s', hs⟩ := resolveNested_ok_child g _ x _ _ _ h1 nn hnn hsome
      exact resolveName_terminates g file k nn.id b' nm' s s' hs
    · rw [if_pos hs] at hst
      obtain ⟨_, b', nm', s, s', hs'⟩ := resolveGroups_ok_child g _ x _ _ _ hst f hf hw
      exact resolveName_terminates g file k f.group.typeId b' nm' s s' hs'

theorem Terminates.reach (g : Registry) (file : Nat) :
    ∀ (k x y : Nat), Terminates g file k x → Relation.ReflTransGen (Edge g) x y →
      ∃ j, j ≤ k ∧ Terminates g file j y := by
  intro k
  induction k with
  | zero => intro x y h _; exact absurd h (Terminates.zero_false g file x)
  | succ k ih =>
    intro x y h hr
    rcases Relation.ReflTransGen.cases_head hr with rfl | ⟨c, hc, hcy⟩
    · exact ⟨k + 1, le_refl _, h⟩
    · obtain ⟨j, hj, hjt⟩ := ih c y (Terminates.child g file k x c h hc) hcy
      exact ⟨j, Nat.le_succ_of_le hj, hjt⟩

/-- A walk that returns never comes back to its root: no node is reachable from itself
through one or more edges. -/
theorem Terminates.acyclic (g : Registry) (file : Nat) :
    ∀ (k x : Nat), Terminates g file k x → ¬ Relation.TransGen (Edge g) x x := by
  intro k
  induction k using Nat.strong_induction_on with
  | _ k ih =>
    intro x h hcyc
    cases k with
    | zero => exact Terminates.zero_false g file x h
    | succ k =>
      obtain ⟨c, hc, hcx⟩ := Relation.TransGen.head'_iff.1 hcyc
      obtain ⟨j, hj, hjt⟩ := Terminates.reach g file k c x (Terminates.child g file k x c h hc) hcx
      exact ih j (Nat.lt_succ_of_le hj) x hjt hcyc

theorem nameAnnotation_eq_find (anns : List Annotation) :
    nameAnnotation anns =
      match anns.find? (fun a => decide (a.id = AnnotationId.Name ∧ a.value.Text ≠ "")) with
      | some a => a.value.Text
      | none => "" := by
  induction anns with
  | nil => rfl
  | cons a rest ih =>
    simp only [ nameAnnotation, List.find?]
    by_cases h1 : a.id = AnnotationId.Name
    · by_cases h2 : a.value.Text = ""
      · simp [h1, h2, ih]
      · simp [h1, h2]
    · simp [h1, ih]

theorem nameAnnotation_ne_of_find (anns : List Annotation) (a : Annotation)
    (h : anns.find? (fun a => decide (a.id = AnnotationId.Name ∧ a.value.Text ≠ "")) = some a) :
    a.value.Text ≠ "" := by
  have := List.find?_some h
  simp at this
  exact this.2

/-- The source's `if na := nameAnnotation(..); na != "" { name = na }` computes the
effective name. -/
theorem effectiveName_eq (anns : List Annotation) (nm : String) :
    (if nameAnnotation anns ≠ "" then nameAnnotation anns else nm) = effectiveName anns nm := by
  rw [nameAnnotation_eq_find]
  unfold effectiveName
  cases h : anns.find? (fun a => decide (a.id = AnnotationId.Name ∧ a.value.Text ≠ "")) with
  | none => simp
  | some a => simp [nameAnnotation_ne_of_find anns a h]

theorem resolveOwn_name_self (n : Node) (file x : Nat) (b nm : String) (s : Vars) :
    (resolveOwn n file x b nm s x).name = targetName b (effectiveName n.annotations nm) := by
  unfold resolveOwn targetName
  rw [effectiveName_eq]
  by_cases hf : file = x
  · subst hf; split <;> simp [Function.update]
  · split <;> simp [Function.update, hf, Ne.symm hf]

theorem resolveOwn_name_other (n : Node) (file z y : Nat) (b nm : String) (s : Vars)
    (h : y ≠ z) : (resolveOwn n file z b nm s y).name = (s y).name := by
  unfold resolveOwn
  by_cases hf : y = file
  · subst hf; split <;> simp [Function.update, h]
  · split <;> simp [Function.update, h, hf]

theorem resolveOwn_pkg_self (n : Node) (file x : Nat) (b nm : String) (s : Vars) :
    (resolveOwn n file x b nm s x).pkg = (s file).pkg ∧
    (resolveOwn n file x b nm s x).imp = (s file).imp := by
  unfold resolveOwn
  by_cases hf : file = x
  · subst hf; split <;> simp [Function.update]
  · split <;> simp [Function.update, hf, Ne.symm hf]

theorem resolveOwn_pkg_file (n : Node) (file z : Nat) (b nm : String) (s : Vars) :
    (resolveOwn n file z b nm s file).pkg = (s file).pkg ∧
    (resolveOwn n file z b nm s file).imp = (s file).imp := by
  unfold resolveOwn
  by_cases hf : file = z
  · subst hf; split <;> simp [Function.update]
  · split <;> simp [Function.update, hf, Ne.symm hf]

theorem resolveOwn_pkg_other (n : Node) (file z y : Nat) (b nm : String) (s : Vars)
    (h : y ≠ z) : (resolveOwn n file z b nm s y).pkg = (s y).pkg ∧
      (resolveOwn n file z b nm s y).imp = (s y).imp := by
  unfold resolveOwn
  by_cases hf : y = file
  · subst hf; split <;> simp [Function.update, h]
  · split <;> simp [Function.update, h, hf]

theorem walkEntries_append (rec : Nat → String → String → Vars → Except Err Vars) (x : Nat) :
    ∀ (l1 l2 : List (Nat × String)) (st : Vars),
      walkEntries rec x (l1 ++ l2) st =
        match walkEntries rec x l1 st with
        | .ok s1 => walkEntries rec x l2 s1
        | .error e => .error e := by
  intro l1
  induction l1 with
  | nil => intro l2 st; rfl
  | cons e rest ih =>
    intro l2 st
    simp only [List.cons_append, walkEntries]
    cases rec e.1 (st x).name e.2 st with
    | error err => rfl
    | ok s1 => exact ih l2 s1

theorem resolveNested_eq_walk (g : Registry)
    (rec : Nat → String → String → Vars → Except Err Vars) (x : Nat) :
    ∀ (l : List NestedNode) (st : Vars),
      resolveNested g rec x l st =
        walkEntries rec x
          ((l.filter (fun nn => (g.get nn.id).isSome)).map (fun nn => (nn.id, nn.name))) st := by
  intro l
  induction l with
  | nil => intro st; rfl
  | cons a rest ih =>
    intro st
    simp only [resolveNested, List.filter]
    cases hg : g.get a.id with
    | none => simpa [hg] using ih st
    | some n =>
      simp only [Option.isSome_some, List.map_cons, walkEntries]
      cases rec a.id (st x).name a.name st with
      | error e => rfl
      | ok s1 => exact ih s1

theorem resolveGroups_eq_walk (g : Registry)
    (rec : Nat → String → String → Vars → Except Err Vars) (x : Nat) :
    ∀ (l : List Field) (st st' : Vars), resolveGroups g rec x l st = .ok st' →
      walkEntries rec x
        ((l.filter (fun f => decide (f.which = FIELD_GROUP))).map
          (fun f => (f.group.typeId, effectiveName f.annotations f.name))) st = .ok st' := by
  intro l
  induction l with
  | nil => intro st st' h; simpa [resolveGroups, walkEntries] using h
  | cons a rest ih =>
    intro st st' h
    simp only [resolveGroups] at h
    by_cases ha : a.which = FIELD_GROUP
    · rw [if_pos ha] at h
      simp only [List.filter, ha, decide_True, List.map_cons, walkEntries]
      cases hfn : findNode g a.group.typeId with
      | error e => rw [hfn] at h; cases h
      | ok n =>
        rw [hfn] at h
        simp only [effectiveName_eq] at h
        cases hr : rec a.group.typeId (st x).name (effectiveName a.annotations a.name) st with
        | error e => rw [hr] at h; cases h
        | ok s1 =>
          rw [hr] at h
          exact ih s1 st' h
    · rw [if_neg ha] at h
      simp only [List.filter, ha, decide_False]
      exact ih st st' h

/-- A successful `resolveName` is its own assignments followed by the walk over the
node's entries. -/
theorem resolveName_succ_walk (g : Registry) (file k x : Nat) (b nm : String) (st st' : Vars)
    (n : Node) (hg : g.get x = some n) (h : resolveName g file (k + 1) x b nm st = .ok st') :
    walkEntries (resolveName g file k) x (entries g n) (resolveOwn n file x b nm st) = .ok st' := by
  simp only [resolveName, hg] at h
  unfold entries
  rw [walkEntries_append, ← resolveNested_eq_walk]
  cases h1 : resolveNested g (resolveName g file k) x n.nestedNodes
      (resolveOwn n file x b nm st) with
  | error e => rw [h1] at h; cases h
  | ok s1 =>
    rw [h1] at h
    simp only at h ⊢
    by_cases hs : n.which = NODE_STRUCT
    · rw [if_pos hs] at h ⊢
      exact resolveGroups_eq_walk g _ x _ _ _ h
    · rw [if_neg hs] at h ⊢
      simpa [walkEntries] using h

theorem edge_of_mem_entries (g : Registry) (x : Nat) (n : Node) (hg : g.get x = some n)
    (e : Nat × String) (he : e ∈ entries g n) : Edge g x e.1 := by
  refine ⟨n, hg, ?_⟩
  unfold entries at he
  rcases List.mem_append.1 he with h | h
  · obtain ⟨nn, hnn, rfl⟩ := List.mem_map.1 h
    have := List.mem_filter.1 hnn
    exact Or.inl ⟨nn, this.1, rfl, this.2⟩
  · by_cases hs : n.which = NODE_STRUCT
    · rw [if_pos hs] at h
      obtain ⟨f, hf, rfl⟩ := List.mem_map.1 h
      have := List.mem_filter.1 hf
      exact Or.inr ⟨hs, f, this.1, by simpa using this.2, rfl⟩
    · rw [if_neg hs] at h; cases h

theorem edge_iff_mem_childIds (g : Registry) (p c : Nat) : Edge g p c ↔ c ∈ childIds g p := by
  unfold childIds
  constructor
  · rintro ⟨n, hg, hcase⟩
    rw [hg]
    simp only [entries, List.map_append, List.mem_append, List.mem_map]
    rcases hcase with ⟨nn, hnn, rfl, hsome⟩ | ⟨hs, f, hf, hw, rfl⟩
    · exact Or.inl ⟨(nn.id, nn.name), ⟨nn, List.mem_filter.2 ⟨hnn, hsome⟩, rfl⟩, rfl⟩
    · refine Or.inr ⟨(f.group.typeId, effectiveName f.annotations f.name), ?_, rfl⟩
      rw [if_pos hs]
      exact List.mem_map.2 ⟨f, List.mem_filter.2 ⟨hf, by simpa using hw⟩, rfl⟩
  · intro h
    cases hg : g.get p with
    | none => rw [hg] at h; cases h
    | some n =>
      rw [hg] at h
      obtain ⟨e, he, rfl⟩ := List.mem_map.1 h
      exact edge_of_mem_entries g p n hg e he

theorem walkEntries_preserves (Q : Vars → Prop)
    (rec : Nat → String → String → Vars → Except Err Vars) (x : Nat) :
    ∀ (l : List (Nat × String)) (st st' : Vars),
      (∀ e ∈ l, ∀ b nm s s', Q s → rec e.1 b nm s = .ok s' → Q s') →
      Q st → walkEntries rec x l st = .ok st' → Q st' := by
  intro l
  induction l with
  | nil => intro st st' _ hq h; simp only [walkEntries, Except.ok.injEq] at h; exact h ▸ hq
  | cons e rest ih =>
    intro st st' hrec hq h
    simp only [walkEntries] at h
    cases hr : rec e.1 (st x).name e.2 st with
    | error err => rw [hr] at h; cases h
    | ok s1 =>
      rw [hr] at h
      exact ih s1 st' (fun e' hm => hrec e' (List.mem_cons_of_mem _ hm))
        (hrec e (List.mem_cons_self _ _) _ _ _ _ hq hr) h

/-- What the walk below the root keeps: a property that every own assignment at a node
other than the root keeps survives the recursion of a returning `resolveName`. -/
theorem resolveName_below_preserves (g : Registry) (file : Nat) (Q : Vars → Prop)
    (k x : Nat) (b nm : String) (st st' : Vars) (n : Node) (hg : g.get x = some n)
    (hown : ∀ z n' b' nm' s, z ≠ x → Q s → Q (resolveOwn n' file z b' nm' s))
    (h : resolveName g file (k + 1) x b nm st = .ok st')
    (hq : Q (resolveOwn n file x b nm st)) : Q st' := by
  have hac := Terminates.acyclic g file (k + 1) x (resolveName_terminates g file _ x b nm st st' h)
  refine walkEntries_preserves Q _ x (entries g n) _ st' ?_ hq
    (resolveName_succ_walk g file k x b nm st st' n hg h)
  intro e he b' nm' s s' hs hr
  refine resolveName_preserves g file Q k e.1 b' nm' s s' ?_ hs hr
  intro z n' b2 nm2 s2 hz _ hq2
  refine hown z n' b2 nm2 s2 ?_ hq2
  rintro rfl
  exact hac (Relation.TransGen.head' (edge_of_mem_entries g _ n hg e he) hz)

/-- With a rank that drops along every edge and all edge targets registered, fuel above
the rank of the root is enough for the walk to return. -/
theorem resolveName_returns (g : Registry) (file : Nat) (rank : Nat → Nat)
    (hrank : ∀ n ∈ g, ∀ c ∈ childIds g n.id, rank c < rank n.id ∧ (g.get c).isSome = true) :
    ∀ (k x : Nat), rank x < k → (g.get x).isSome = true → Terminates g file k x := by
  have hedge : ∀ p c, Edge g p c → rank c < rank p ∧ (g.get c).isSome = true := by
    intro p c hpc
    obtain ⟨n, hn, _⟩ := id hpc
    have hmem : n ∈ g := List.mem_of_find?_eq_some hn
    have hid : n.id = p := by
      have := List.find?_some hn
      simpa using this
    have := hrank n hmem c (by rw [hid]; exact (edge_iff_mem_childIds g p c).1 hpc)
    rwa [hid] at this
  intro k
  induction k with
  | zero => intro x hx; cases hx
  | succ k ih =>
    intro x hx hsome b nm st
    obtain ⟨n, hn⟩ := Option.isSome_iff_exists.1 hsome
    simp only [resolveName, hn]
    have hc : ∀ c, Edge g x c → Terminates g file k c := fun c hxc =>
      ih c (by have := (hedge x c hxc).1; omega) (hedge x c hxc).2
    obtain ⟨r1, hr1⟩ := resolveNested_ok_of g (resolveName g file k) x n.nestedNodes
      (resolveOwn n file x b nm st)
      (fun nn hnn hs => hc nn.id ⟨n, hn, Or.inl ⟨nn, hnn, rfl, hs⟩⟩)
    rw [hr1]
    simp only
    by_cases hs : n.which = NODE_STRUCT
    · rw [if_pos hs]
      exact resolveGroups_ok_of g (resolveName g file k) x n.struct.fields r1
        (fun f hf hw =>
          have he : Edge g x f.group.typeId := ⟨n, hn, Or.inr ⟨hs, f, hf, hw, rfl⟩⟩
          ⟨(hedge x _ he).2, hc _ he⟩)
    · rw [if_neg hs]
      exact ⟨r1, rfl⟩

/-- What `resolveName` leaves at its own node and at the file when it returns. -/
theorem resolveName_own_result (g : Registry) (file nid : Nat) (base name : String)
    (st st' : Vars) (n : Node) (hn : g.get nid = some n) (fuel : Nat)
    (h : resolveName g file fuel nid base name st = .ok st') :
    (st' nid).name = targetName base (effectiveName n.annotations name) ∧
    (st' nid).pkg = (st file).pkg ∧ (st' nid).imp = (st file).imp ∧
    (st' file).pkg = (st file).pkg ∧ (st' file).imp = (st file).imp := by
  cases fuel with
  | zero => simp [resolveName] at h
  | succ k =>
    refine resolveName_below_preserves g file
      (fun s => (s nid).name = targetName base (effectiveName n.annotations name) ∧
        (s nid).pkg = (st file).pkg ∧ (s nid).imp = (st file).imp ∧
        (s file).pkg = (st file).pkg ∧ (s file).imp = (st file).imp)
      k nid base name st st' n hn ?_ h ?_
    · rintro z n' b' nm' s hz ⟨h1, h2, h3, h4, h5⟩
      have ho := resolveOwn_pkg_other n' file z nid b' nm' s (Ne.symm hz)
      have hf := resolveOwn_pkg_file n' file z b' nm' s
      exact ⟨by rw [resolveOwn_name_other n' file z nid b' nm' s (Ne.symm hz)]; exact h1,
        ho.1.trans h2, ho.2.trans h3, hf.1.trans h4, hf.2.trans h5⟩
    · exact ⟨resolveOwn_name_self n file nid base name st,
        (resolveOwn_pkg_self n file nid base name st).1,
        (resolveOwn_pkg_self n file nid base name st).2,
        (resolveOwn_pkg_file n file nid base name st).1,
        (resolveOwn_pkg_file n file nid base name st).2⟩

/-- **C1.** After `resolveName(base, name, file)` returns, the node's name is
`base + Title(eff)` for a non-empty `base` and `Title(eff)` otherwise, where `eff` is the
text of the node's first name-override annotation with a non-empty text and `name` when
there is none; its `pkg` and `imp` are the owning file's (which the call leaves as they
were).  The call does return whenever a rank drops along every edge of the walk and
every edge target is registered, with fuel above the rank of the node. -/
theorem resolveName_assigns (g : Registry) (file nid : Nat) (base name : String) (st : Vars)
    (n : Node) (hn : g.get nid = some n) :
    (∀ fuel st', resolveName g file fuel nid base name st = .ok st' →
      (st' nid).name =
        (if base ≠ "" then base ++ title (effectiveName n.annotations name)
         else title (effectiveName n.annotations name)) ∧
      (st' nid).pkg = (st file).pkg ∧ (st' nid).imp = (st file).imp ∧
      (st' file).pkg = (st file).pkg ∧ (st' file).imp = (st file).imp) ∧
    (∀ rank : Nat → Nat,
      (∀ m ∈ g, ∀ c ∈ childIds g m.id, rank c < rank m.id ∧ (g.get c).isSome = true) →
      ∃ st', resolveName g file (rank nid + 1) nid base name st = .ok st') := by
  refine ⟨?_, ?_⟩
  · intro fuel st' h
    exact resolveName_own_result g file nid base name st st' n hn fuel h
  · intro rank hrank
    exact resolveName_returns g file rank hrank (rank nid + 1) nid (Nat.lt_succ_self _)
      (by simp [hn]) base name st

/-- Witness of C1 on the example registry: the struct registered as 2, resolved from the
file 1 under the declared name `point`, carries the name override `pt`. -/
theorem resolveName_assigns_witness :
    ∃ st', resolveName exampleRegistry 1 9 2 "" "point" exampleVars = .ok st' ∧
      (st' 2).name = "Pt" ∧ (st' 2).pkg = "p" ∧ (st' 2).imp = "pkg/a" := by
  have hn : exampleRegistry.get 2 = some examplePoint := rfl
  obtain ⟨st', h⟩ := (resolveName_assigns exampleRegistry 1 2 "" "point" exampleVars
    examplePoint hn).2 (fun i => 10 - i) (by decide)
  have hr := (resolveName_assigns exampleRegistry 1 2 "" "point" exampleVars
    examplePoint hn).1 9 st' h
  have e1 : (if ("" : String) ≠ "" then "" ++ title (effectiveName examplePoint.annotations "point")
      else title (effectiveName examplePoint.annotations "point")) = "Pt" := by decide
  have e2 : (exampleVars 1).pkg = "p" := rfl
  have e3 : (exampleVars 1).imp = "pkg/a" := rfl
  exact ⟨st', h, hr.1.trans e1, hr.2.1.trans e2, hr.2.2.1.trans e3⟩

theorem targetName_eq_append (b e : String) : targetName b e = b ++ title e := by
  unfold targetName
  by_cases h : b = ""
  · subst h; simp
  · simp [h]

theorem resolveName_ok_get (g : Registry) (file k x : Nat) (b nm : String) (st st' : Vars)
    (h : resolveName g file k x b nm st = .ok st') : ∃ t, g.get x = some t := by
  cases k with
  | zero => simp [resolveName] at h
  | succ k =>
    cases hg : g.get x with
    | none => simp [resolveName, hg] at h
    | some t => exact ⟨t, rfl⟩

theorem get_mem_id (g : Registry) (p : Nat) (n : Node) (h : g.get p = some n) :
    n ∈ g ∧ n.id = p := by
  refine ⟨List.mem_of_find?_eq_some h, ?_⟩
  have := List.find?_some h
  simpa using this

/-- In a registry whose entry targets are pairwise distinct, a node has one parent. -/
theorem edge_unique_parent (g : Registry) (htree : (allEntryTargets g).Nodup) (p q c : Nat)
    (hp : Edge g p c) (hq : Edge g q c) : p = q := by
  obtain ⟨np, hnp, _⟩ := id hp
  obtain ⟨nq, hnq, _⟩ := id hq
  obtain ⟨hpm, hpid⟩ := get_mem_id g p np hnp
  obtain ⟨hqm, hqid⟩ := get_mem_id g q nq hnq
  by_contra hne
  have hnn : np ≠ nq := by
    rintro rfl
    exact hne (hpid.symm.trans hqid)
  have hpw := (List.nodup_flatMap.1 htree).2
  have hd : Function.onFun List.Disjoint (fun n => childIds g n.id) np nq :=
    List.Pairwise.forall (fun a b hab => List.Disjoint.symm hab) hpw hpm hqm hnn
  have h1 : c ∈ childIds g np.id := by rw [hpid]; exact (edge_iff_mem_childIds g p c).1 hp
  have h2 : c ∈ childIds g nq.id := by rw [hqid]; exact (edge_iff_mem_childIds g q c).1 hq
  exact hd h1 h2

theorem entries_nodup (g : Registry) (htree : (allEntryTargets g).Nodup) (p : Nat) (n : Node)
    (hn : g.get p = some n) : ((entries g n).map Prod.fst).Nodup := by
  obtain ⟨hm, hid⟩ := get_mem_id g p n hn
  have := (List.nodup_flatMap.1 htree).1 n hm
  simpa [childIds, hid, hn] using this

/-- Below a root whose walk returns, in a registry with one parent per node, no entry of
the root is reachable from another entry of the root. -/
theorem not_reach_sibling (g : Registry) (htree : (allEntryTargets g).Nodup) (p : Nat)
    (hac : ¬ Relation.TransGen (Edge g) p p) (c c' : Nat) (hc : Edge g p c)
    (hc' : Edge g p c') (hne : c ≠ c') : ¬ Relation.ReflTransGen (Edge g) c' c := by
  intro hr
  rcases Relation.ReflTransGen.cases_tail hr with heq | ⟨q, hq, hqc⟩
  · exact hne heq
  · have : p = q := edge_unique_parent g htree p q c hc hqc
    subst this
    exact hac (Relation.TransGen.head' hc' hq)

theorem walkEntries_post (Inv : Vars → Prop) (R : Nat × String → Vars → Prop)
    (rec : Nat → String → String → Vars → Except Err Vars) (x : Nat) :
    ∀ (l : List (Nat × String)) (st st' : Vars), (l.map Prod.fst).Nodup →
      (∀ e ∈ l, ∀ s s', Inv s → rec e.1 (s x).name e.2 s = .ok s' → Inv s' ∧ R e s') →
      (∀ e ∈ l, ∀ e' ∈ l, e.1 ≠ e'.1 → ∀ b nm s s', R e s → rec e'.1 b nm s = .ok s' → R e s') →
      Inv st → walkEntries rec x l st = .ok st' → Inv st' ∧ ∀ e ∈ l, R e st' := by
  intro l
  induction l with
  | nil =>
    intro st st' _ _ _ hi h
    simp only [walkEntries, Except.ok.injEq] at h
    exact ⟨h ▸ hi, fun e he => by cases he⟩
  | cons a rest ih =>
    intro st st' hnd hcall hframe hi h
    simp only [walkEntries] at h
    rw [List.map_cons, List.nodup_cons] at hnd
    cases hr : rec a.1 (st x).name a.2 st with
    | error err => rw [hr] at h; cases h
    | ok s1 =>
      rw [hr] at h
      obtain ⟨hi1, hra⟩ := hcall a (List.mem_cons_self _ _) st s1 hi hr
      obtain ⟨hi', hrest⟩ := ih s1 st' hnd.2
        (fun e he => hcall e (List.mem_cons_of_mem _ he))
        (fun e he e' he' => hframe e (List.mem_cons_of_mem _ he) e' (List.mem_cons_of_mem _ he'))
        hi1 h
      refine ⟨hi', ?_⟩
      intro e he
      rcases List.mem_cons.1 he with rfl | hm
      · refine walkEntries_preserves (R e) rec x rest s1 st' ?_ hra h
        intro e' he' b nm s s' hs hcall'
        refine hframe e (List.mem_cons_self _ _) e' (List.mem_cons_of_mem _ he') ?_ b nm s s' hs hcall'
        intro heq
        exact hnd.1 (heq ▸ List.mem_map_of_mem Prod.fst he')
      · exact hrest e hm

/-- In a registry with one parent per node, a returning `resolveName` leaves at the target
of every entry of its node the name built from the node's own final name. -/
theorem resolveName_entries_named (g : Registry) (file fuel p : Nat) (base name : String)
    (st st' : Vars) (n : Node) (hn : g.get p = some n) (htree : (allEntryTargets g).Nodup)
    (h : resolveName g file fuel p base name st = .ok st') :
    ∀ e ∈ entries g n, ∃ t, g.get e.1 = some t ∧
      (st' e.1).name = (st' p).name ++ title (effectiveName t.annotations e.2) := by
  cases fuel with
  | zero => simp [resolveName] at h
  | succ k =>
    have hac := Terminates.acyclic g file (k + 1) p
      (resolveName_terminates g file _ p base name st st' h)
    have hwalk := resolveName_succ_walk g file k p base name st st' n hn h
    have hP := (resolveName_own_result g file p base name st st' n hn (k + 1) h).1
    have key := walkEntries_post
      (fun s => (s p).name = targetName base (effectiveName n.annotations name))
      (fun e s => ∃ t, g.get e.1 = some t ∧ (s e.1).name =
        targetName base (effectiveName n.annotations name) ++ title (effectiveName t.annotations e.2))
      (resolveName g file k) p (entries g n) (resolveOwn n file p base name st) st'
      (entries_nodup g htree p n hn) ?_ ?_ (resolveOwn_name_self n file p base name st) hwalk
    · intro e he
      rw [hP]
      exact key.2 e he
    · intro e he s s' hi hcall
      have hedge := edge_of_mem_entries g p n hn e he
      refine ⟨?_, ?_⟩
      · refine resolveName_preserves g file
          (fun s => (s p).name = targetName base (effectiveName n.annotations name))
          k e.1 _ _ s s' ?_ hi hcall
        intro z n' b' nm' s2 hz _ hq
        have hzp : p ≠ z := by
          rintro rfl
          exact hac (Relation.TransGen.head' hedge hz)
        rw [resolveOwn_name_other n' file z p b' nm' s2 hzp]
        exact hq
      · obtain ⟨t, ht⟩ := resolveName_ok_get g file k e.1 _ _ s s' hcall
        refine ⟨t, ht, ?_⟩
        have := (resolveName_own_result g file e.1 _ _ s s' t ht k hcall).1
        rw [this, hi, targetName_eq_append]
    · intro e he e' he' hne b nm s s' hR hcall
      have hedge := edge_of_mem_entries g p n hn e he
      have hedge' := edge_of_mem_entries g p n hn e' he'
      have hnr := not_reach_sibling g htree p hac e.1 e'.1 hedge hedge' hne
      refine resolveName_preserves g file
        (fun s => ∃ t, g.get e.1 = some t ∧ (s e.1).name =
          targetName base (effectiveName n.annotations name) ++
            title (effectiveName t.annotations e.2))
        k e'.1 b nm s s' ?_ hR hcall
      rintro z n' b' nm' s2 hz _ ⟨t, ht, hq⟩
      have hze : e.1 ≠ z := by
        rintro rfl
        exact hnr hz
      exact ⟨t, ht, by rw [resolveOwn_name_other n' file z e.1 b' nm' s2 hze]; exact hq⟩

/-- **C2 (as stated), refuted.** In the example registry every node is the target of at
most one entry, the struct 2 is resolved to `Pt`, and its Group field `v`, renamed
`w` by a name override, targets the group node 5; that node carries a name override of
its own (`zz`) and gets the name `PtZz`, not `Pt` + `Title("w")`. -/
theorem resolveName_group_name_counterexample :
    (allEntryTargets exampleRegistry).Nodup ∧
    (resolveName exampleRegistry 1 9 2 "" "point" exampleVars).toOption.map
        (fun s => ((s 2).name, (s 5).name)) = some ("Pt", "PtZz") ∧
    "PtZz" ≠ "Pt" ++ title (effectiveName exampleFieldV.annotations exampleFieldV.name) := by
  refine ⟨by decide, by decide, by decide⟩

/-- **C2 (amended).** In a registry where every node is the target of at most one
nested-node entry or Group field, after `resolveName` returns for a node `p` with final
name `P`: every registered nested node `c` of `p` has the name `P + Title(eff c)`, `eff c`
being `c`'s name override when it has a non-empty one and its nested-node name otherwise;
and the target `t` of every Group field `f` of a struct `p` has the name `P + Title(e)`,
where `e` is `t`'s own name override when it has a non-empty one, else `f`'s name
override when non-empty, else `f`'s field name.  The call returns under the rank
condition of C1. -/
theorem resolveName_names_children (g : Registry) (file p : Nat) (base name : String)
    (st : Vars) (n : Node) (hn : g.get p = some n) (htree : (allEntryTargets g).Nodup) :
    (∀ fuel st', resolveName g file fuel p base name st = .ok st' →
      (∀ nn ∈ n.nestedNodes, ∀ c, g.get nn.id = some c →
        (st' nn.id).name = (st' p).name ++ title (effectiveName c.annotations nn.name)) ∧
      (n.which = NODE_STRUCT → ∀ f ∈ n.struct.fields, f.which = FIELD_GROUP →
        ∃ t, g.get f.group.typeId = some t ∧
          (st' f.group.typeId).name = (st' p).name ++
            title (effectiveName t.annotations (effectiveName f.annotations f.name)))) ∧
    (∀ rank : Nat → Nat,
      (∀ m ∈ g, ∀ c ∈ childIds g m.id, rank c < rank m.id ∧ (g.get c).isSome = true) →
      ∃ st', resolveName g file (rank p + 1) p base name st = .ok st') := by
  refine ⟨?_, ?_⟩
  · intro fuel st' h
    have key := resolveName_entries_named g file fuel p base name st st' n hn htree h
    refine ⟨?_, ?_⟩
    · intro nn hnn c hc
      have hmem : (nn.id, nn.name) ∈ entries g n := by
        unfold entries
        exact List.mem_append_left _
          (List.mem_map.2 ⟨nn, List.mem_filter.2 ⟨hnn, by simp [hc]⟩, rfl⟩)
      obtain ⟨t, ht, hname⟩ := key _ hmem
      have htc : t = c := Option.some.inj (ht.symm.trans hc)
      subst htc
      exact hname
    · intro hs f hf hw
      have hmem : (f.group.typeId, effectiveName f.annotations f.name) ∈ entries g n := by
        unfold entries
        rw [if_pos hs]
        exact List.mem_append_right _
          (List.mem_map.2 ⟨f, List.mem_filter.2 ⟨hf, by simp [hw]⟩, rfl⟩)
      exact key _ hmem
  · intro rank hrank
    exact resolveName_returns g file rank hrank (rank p + 1) p (Nat.lt_succ_self _)
      (by simp [hn]) base name st

/-- Witness of C2 (amended) on the example registry: resolving the struct 2 names its
nested enum 3 and its group nodes 4 and 5 after it. -/
theorem resolveName_names_children_witness :
    ∃ st', resolveName exampleRegistry 1 9 2 "" "point" exampleVars = .ok st' ∧
      (st' 3).name = (st' 2).name ++ "Kind" ∧ (st' 4).name = (st' 2).name ++ "U" ∧
      (st' 5).name = (st' 2).name ++ "Zz" := by
  have hn : exampleRegistry.get 2 = some examplePoint := rfl
  have hT := resolveName_names_children exampleRegistry 1 2 "" "point" exampleVars
    examplePoint hn (by decide)
  obtain ⟨st', h⟩ := hT.2 (fun i => 10 - i) (by decide)
  obtain ⟨hnest, hgrp⟩ := hT.1 9 st' h
  have h3 := hnest ⟨3, "kind"⟩ (by decide) exampleKind rfl
  obtain ⟨t4, ht4, h4⟩ := hgrp rfl exampleFieldU (by decide) rfl
  obtain ⟨t5, ht5, h5⟩ := hgrp rfl exampleFieldV (by decide) rfl
  have e4 : t4 = exampleGroupU := Option.some.inj (ht4.symm.trans rfl)
  have e5 : t5 = exampleGroupV := Option.some.inj (ht5.symm.trans rfl)
  subst e4 e5
  exact ⟨st', h, h3, h4, h5⟩

theorem mem_markImported (k x : String) (m : List String) :
    x ∈ markImported k m ↔ x = k ∨ x ∈ m := by
  unfold markImported
  by_cases h : k ∈ m
  · rw [if_pos h]
    constructor
    · exact Or.inr
    · rintro (rfl | hx)
      · exact h
      · exact hx
  · rw [if_neg h]
    simp [or_comm]

/-- **C3.** For a referenced node `n` with a non-empty package and a referencing node
`from`: when both have the same import path, `remoteName` is exactly `n.name` and the set
of imports is unchanged; when the import paths differ and `n`'s is non-empty, it is
`n.pkg + "." + n.name` and the set of imports afterwards holds exactly `n.imp` and what
it held before. -/
theorem remoteName_qualifies (n from_ : node) (g_imported : List String)
    (hpkg : n.pkg ≠ "") :
    (n.imp = from_.imp → remoteName n from_ g_imported = .ok (n.name, g_imported)) ∧
    (n.imp ≠ from_.imp → n.imp ≠ "" →
      ∃ imported, remoteName n from_ g_imported = .ok (n.pkg ++ "." ++ n.name, imported) ∧
        ∀ x, x ∈ imported ↔ x = n.imp ∨ x ∈ g_imported) := by
  refine ⟨?_, ?_⟩
  · intro h
    simp [remoteName, remoteScope, hpkg, h]
  · intro h1 h2
    refine ⟨markImported n.imp g_imported, ?_, fun x => mem_markImported n.imp x g_imported⟩
    simp [remoteName, remoteScope, hpkg, h1, h2]

/-- Witness of C3: a node of package `geo`, import `pkg/b`, referenced from the example
struct (import `pkg/a`) and from itself. -/
theorem remoteName_qualifies_witness :
    remoteName exampleRemote exampleRemote ["io"] = .ok ("Shape", ["io"]) ∧
    ∃ imported, remoteName exampleRemote (exampleResolved 2) ["io"] =
        .ok ("geo.Shape", imported) ∧ ∀ x, x ∈ imported ↔ x = "pkg/b" ∨ x ∈ ["io"] := by
  have h := remoteName_qualifies exampleRemote (exampleResolved 2) ["io"] (by decide)
  exact ⟨(remoteName_qualifies exampleRemote exampleRemote ["io"] (by decide)).1 rfl,
    h.2 (by decide) (by decide)⟩

theorem assertDefault_ok (d : Value) (tag : Value_Which) (msg : String)
    (h : d.Which = VALUE_VOID ∨ d.Which = tag) : assertDefault d tag msg = .ok () := by
  simp [assertDefault, h]

theorem assertDefault_error (d : Value) (tag : Value_Which) (msg : String)
    (h : ¬ (d.Which = VALUE_VOID ∨ d.Which = tag)) :
    assertDefault d tag msg = .error (Err.panic msg) := by
  simp [assertDefault, h]

theorem findNode_of_get (g : Registry) (id : Nat) (ni : Node) (h : g.get id = some ni) :
    findNode g id = .ok ni := by
  simp [findNode, h]

/-- **C4.** For a slot of type bool, int8, ..., float64 or text, `TypeName` is the fixed
Go type name (`string` for text) and leaves the import set alone whenever the default
value's tag is void or the tag of the type, and it panics for every other tag; for an
enum or struct type whose node is registered it is `remoteName` of the referenced node
under the same condition, and it panics for every other tag. -/
theorem TypeName_scalars (g : Registry) (st : Vars) (s : FieldSlot) (n : node)
    (customtype : String) (g_imported : List String) :
    (∀ t str tag, (t, str, tag) ∈
        [(SchemaType.bool, "bool", VALUE_BOOL), (SchemaType.int8, "int8", VALUE_INT8),
         (SchemaType.uint8, "uint8", VALUE_UINT8), (SchemaType.int16, "int16", VALUE_INT16),
         (SchemaType.uint16, "uint16", VALUE_UINT16), (SchemaType.int32, "int32", VALUE_INT32),
         (SchemaType.uint32, "uint32", VALUE_UINT32), (SchemaType.int64, "int64", VALUE_INT64),
         (SchemaType.uint64, "uint64", VALUE_UINT64),
         (SchemaType.float32, "float32", VALUE_FLOAT32),
         (SchemaType.float64, "float64", VALUE_FLOAT64),
         (SchemaType.text, "string", VALUE_TEXT)] →
      s.type = t →
      (s.defaultValue.Which = VALUE_VOID ∨ s.defaultValue.Which = tag →
        TypeName g st s n customtype g_imported = .ok (str, g_imported)) ∧
      (¬ (s.defaultValue.Which = VALUE_VOID ∨ s.defaultValue.Which = tag) →
        ∃ msg, TypeName g st s n customtype g_imported = .error (Err.panic msg))) ∧
    (∀ typeId ni, s.type = SchemaType.enum typeId → g.get typeId = some ni →
      (s.defaultValue.Which = VALUE_VOID ∨ s.defaultValue.Which = VALUE_ENUM →
        TypeName g st s n customtype g_imported = remoteName (st typeId) n g_imported) ∧
      (¬ (s.defaultValue.Which = VALUE_VOID ∨ s.defaultValue.Which = VALUE_ENUM) →
        ∃ msg, TypeName g st s n customtype g_imported = .error (Err.panic msg))) ∧
    (∀ typeId ni, s.type = SchemaType.struct typeId → g.get typeId = some ni →
      (s.defaultValue.Which = VALUE_VOID ∨ s.defaultValue.Which = VALUE_STRUCT →
        TypeName g st s n customtype g_imported = remoteName (st typeId) n g_imported) ∧
      (¬ (s.defaultValue.Which = VALUE_VOID ∨ s.defaultValue.Which = VALUE_STRUCT) →
        ∃ msg, TypeName g st s n customtype g_imported = .error (Err.panic msg))) := by
  refine ⟨?_, ?_, ?_⟩
  · intro t str tag hmem ht
    simp only [List.mem_cons, Prod.mk.injEq, List.mem_singleton, List.not_mem_nil,
      or_false] at hmem
    rcases hmem with h | h | h | h | h | h | h | h | h | h | h | h <;>
    · obtain ⟨rfl, rfl, rfl⟩ := h
      refine ⟨fun hd => ?_, fun hd => ?_⟩
      · simp only [TypeName, ht, assertDefault_ok _ _ _ hd]; rfl
      · simp only [TypeName, ht, assertDefault_error _ _ _ hd]; exact ⟨_, rfl⟩
  · intro typeId ni ht hg
    refine ⟨fun hd => ?_, fun hd => ?_⟩
    · simp only [TypeName, ht, findNode_of_get g typeId ni hg, assertDefault_ok _ _ _ hd]; rfl
    · simp only [TypeName, ht, findNode_of_get g typeId ni hg, assertDefault_error _ _ _ hd]; exact ⟨_, rfl⟩
  · intro typeId ni ht hg
    refine ⟨fun hd => ?_, fun hd => ?_⟩
    · simp only [TypeName, ht, findNode_of_get g typeId ni hg, assertDefault_ok _ _ _ hd]; rfl
    · simp only [TypeName, ht, findNode_of_get g typeId ni hg, assertDefault_error _ _ _ hd]; exact ⟨_, rfl⟩

/-- Witness of C4: an int32 slot with an int32 default, an int32 slot with a text
default, and an enum slot referring to the example enum from another file. -/
theorem TypeName_scalars_witness :
    TypeName exampleRegistry exampleResolved
        { type := SchemaType.int32, defaultValue := Value.int32 7 } exampleRemote "" [] =
      .ok ("int32", []) ∧
    (∃ msg, TypeName exampleRegistry exampleResolved
        { type := SchemaType.int32, defaultValue := Value.text "7" } exampleRemote "" [] =
      .error (Err.panic msg)) ∧
    TypeName exampleRegistry exampleResolved { type := SchemaType.enum 3 } exampleRemote "" [] =
      .ok ("p.PtKind", ["pkg/a"]) := by
  refine ⟨?_, ?_, ?_⟩
  · exact ((TypeName_scalars exampleRegistry exampleResolved
      { type := SchemaType.int32, defaultValue := Value.int32 7 } exampleRemote "" []).1
      SchemaType.int32 "int32" VALUE_INT32 (by decide) rfl).1 (by decide)
  · exact ((TypeName_scalars exampleRegistry exampleResolved
      { type := SchemaType.int32, defaultValue := Value.text "7" } exampleRemote "" []).1
      SchemaType.int32 "int32" VALUE_INT32 (by decide) rfl).2 (by decide)
  · exact (((TypeName_scalars exampleRegistry exampleResolved { type := SchemaType.enum 3 }
      exampleRemote "" []).2.1 3 exampleKind rfl rfl).1 (by decide)).trans (by decide)

/-- **C5 (code).** What `TypeName` returns for list slots, next to what it returns for a
slot of the element type: a list of int32 is `[]uint32` (element: `int32`), a list of data
is `[]byte` (element: `[]byte`), a list of enum is the enum's remote name with no `[]`, and
a list of struct is `[]` + the struct's unqualified name (element: the remote name). -/
theorem TypeName_list_elements (g : Registry) (st : Vars) (n : node) (customtype : String)
    (g_imported : List String) :
    TypeName g st { type := SchemaType.list SchemaType.int32 } n customtype g_imported =
      .ok ("[]uint32", g_imported) ∧
    TypeName g st { type := SchemaType.int32 } n customtype g_imported =
      .ok ("int32", g_imported) ∧
    TypeName g st { type := SchemaType.list SchemaType.data } n customtype g_imported =
      .ok ("[]byte", g_imported) ∧
    TypeName g st { type := SchemaType.data } n customtype g_imported =
      .ok ("[]byte", g_imported) ∧
    TypeName exampleRegistry exampleResolved { type := SchemaType.list (SchemaType.enum 3) }
      exampleRemote customtype [] = .ok ("p.PtKind", ["pkg/a"]) ∧
    TypeName exampleRegistry exampleResolved { type := SchemaType.enum 3 }
      exampleRemote customtype [] = .ok ("p.PtKind", ["pkg/a"]) ∧
    TypeName exampleRegistry exampleResolved { type := SchemaType.list (SchemaType.struct 2) }
      exampleRemote customtype [] = .ok ("[]Pt", []) ∧
    TypeName exampleRegistry exampleResolved { type := SchemaType.struct 2 }
      exampleRemote customtype [] = .ok ("p.Pt", ["pkg/a"]) := by
  refine ⟨rfl, rfl, rfl, rfl, ?_, ?_, ?_, ?_⟩ <;> rfl

/-- **C6 (as stated), refuted.** `TypeName` panics on an interface slot; on a data slot
whose default holds the bytes 1, 2 it returns the literal text and a newline when a
custom type is given, and panics when none is. -/
theorem TypeName_data_interface_counterexample :
    TypeName exampleRegistry exampleResolved { type := SchemaType.interface 0 }
      (exampleResolved 2) "" [] = .error (Err.panic "Unsupported type. Type_Which=17") ∧
    TypeName exampleRegistry exampleResolved
      { type := SchemaType.data, defaultValue := Value.data [1, 2] }
      (exampleResolved 2) "time.Time" [] = .ok ("[]byte\x7b1, 2\x7d\n", []) ∧
    TypeName exampleRegistry exampleResolved
      { type := SchemaType.data, defaultValue := Value.data [1, 2] }
      (exampleResolved 2) "" [] = .error (Err.panic "Unsupported type. Type_Which=13") := by
  refine ⟨by decide, by decide, by decide⟩

/-- **C6 (amended).** `TypeName` maps a data slot to `[]byte` when the default value is
void or data-tagged with no bytes, whatever the custom type, and an anyPointer slot to
`interface{}` when the default value is void or anyPointer-tagged, leaving the import set
alone; on an interface slot it panics. -/
theorem TypeName_data_anyPointer (g : Registry) (st : Vars) (s : FieldSlot) (n : node)
    (customtype : String) (g_imported : List String) :
    (s.type = SchemaType.data →
      s.defaultValue.Which = VALUE_VOID ∨
        (s.defaultValue.Which = VALUE_DATA ∧ s.defaultValue.Data = []) →
      TypeName g st s n customtype g_imported = .ok ("[]byte", g_imported)) ∧
    (s.type = SchemaType.anyPointer →
      s.defaultValue.Which = VALUE_VOID ∨ s.defaultValue.Which = VALUE_ANYPOINTER →
      TypeName g st s n customtype g_imported = .ok ("interface\x7b\x7d", g_imported)) ∧
    (∀ typeId, s.type = SchemaType.interface typeId →
      TypeName g st s n customtype g_imported =
        .error (Err.panic "Unsupported type. Type_Which=17")) := by
  refine ⟨?_, ?_, ?_⟩
  · intro ht hd
    have hok : s.defaultValue.Which = VALUE_VOID ∨ s.defaultValue.Which = VALUE_DATA :=
      hd.imp id And.left
    have hnot : ¬ (s.defaultValue.Which = VALUE_DATA ∧ s.defaultValue.Data.length > 0) := by
      rintro ⟨h1, h2⟩
      rcases hd with h | ⟨_, h⟩
      · rw [h] at h1; cases h1
      · rw [h] at h2; cases h2
    simp only [TypeName, ht, assertDefault_ok _ _ _ hok]
    simp only [bind, Except.bind, if_neg hnot]
    rfl
  · intro ht hd
    simp only [TypeName, ht, assertDefault_ok _ _ _ hd]
    rfl
  · intro typeId ht
    simp only [TypeName, ht, unsupportedType, SchemaType.Which, Type_Which.toNat]
    decide

/-- Witness of C6 (amended): a data slot with an empty data default and a custom type,
and an anyPointer slot with a void default. -/
theorem TypeName_data_anyPointer_witness :
    TypeName exampleRegistry exampleResolved
      { type := SchemaType.data, defaultValue := Value.data [] } exampleRemote "time.Time" [] =
      .ok ("[]byte", []) ∧
    TypeName exampleRegistry exampleResolved { type := SchemaType.anyPointer }
      exampleRemote "" [] = .ok ("interface\x7b\x7d", []) ∧
    TypeName exampleRegistry exampleResolved { type := SchemaType.interface 0 }
      exampleRemote "" [] = .error (Err.panic "Unsupported type. Type_Which=17") := by
  refine ⟨?_, ?_, ?_⟩
  · exact (TypeName_data_anyPointer exampleRegistry exampleResolved
      { type := SchemaType.data, defaultValue := Value.data [] } exampleRemote "time.Time" []).1
      rfl (Or.inr ⟨rfl, rfl⟩)
  · exact (TypeName_data_anyPointer exampleRegistry exampleResolved { type := SchemaType.anyPointer }
      exampleRemote "" []).2.1 rfl (Or.inl rfl)
  · exact (TypeName_data_anyPointer exampleRegistry exampleResolved { type := SchemaType.interface 0 }
      exampleRemote "" []).2.2 0 rfl

theorem fillByIndex_spec {α : Type} :
    ∀ (entries : List (Nat × α)) (arr : List α),
      (∀ e ∈ entries, e.1 < arr.length) → (entries.map Prod.fst).Nodup →
      ∃ res, fillByIndex arr entries = .ok res ∧ res.length = arr.length ∧
        (∀ e ∈ entries, res[e.1]? = some e.2) ∧
        (∀ i, i ∉ entries.map Prod.fst → res[i]? = arr[i]?) := by
  intro entries
  induction entries with
  | nil => intro arr _ _; exact ⟨arr, rfl, rfl, (fun e he => nomatch he), fun i _ => rfl⟩
  | cons a rest ih =>
    intro arr hlt hnd
    rw [List.map_cons, List.nodup_cons] at hnd
    have ha : a.1 < arr.length := hlt a (List.mem_cons_self _ _)
    obtain ⟨res, hres, hlen, hin, hout⟩ := ih (arr.set a.1 a.2)
      (fun e he => by rw [List.length_set]; exact hlt e (List.mem_cons_of_mem _ he)) hnd.2
    refine ⟨res, ?_, ?_, ?_, ?_⟩
    · simp only [fillByIndex, if_pos ha]; exact hres
    · rw [hlen, List.length_set]
    · intro e he
      rcases List.mem_cons.1 he with rfl | hm
      · rw [hout e.1 hnd.1, List.getElem?_set_self ha]
      · exact hin e hm
    · intro i hi
      rw [List.map_cons, List.mem_cons, not_or] at hi
      rw [hout i hi.2, List.getElem?_set_ne (Ne.symm hi.1)]

theorem filterMap_getElem?_range {α : Type} (l : List α) :
    (List.range l.length).filterMap (fun i => l[i]?) = l := by
  induction l using List.reverseRecOn with
  | nil => rfl
  | append_singleton l a ih =>
    rw [List.length_append, List.length_singleton, List.range_succ, List.filterMap_append]
    have h1 : (List.range l.length).filterMap (fun i => (l ++ [a])[i]?) =
        (List.range l.length).filterMap (fun i => l[i]?) := by
      apply List.filterMap_congr
      intro i hi
      exact List.getElem?_append_left (List.mem_range.1 hi)
    rw [h1, ih]
    simp

/-- Filling a made array of length `n` from entries whose indices are a permutation of
`0..n-1` succeeds; the result holds every entry's value at the entry's index and is a
permutation of the values. -/
theorem fillByIndex_perm {α : Type} (entries : List (Nat × α)) (arr : List α)
    (hperm : (entries.map Prod.fst).Perm (List.range arr.length)) :
    ∃ res, fillByIndex arr entries = .ok res ∧ res.length = arr.length ∧
      (∀ e ∈ entries, res[e.1]? = some e.2) ∧ res.Perm (entries.map Prod.snd) := by
  have hlt : ∀ e ∈ entries, e.1 < arr.length := fun e he =>
    List.mem_range.1 (hperm.mem_iff.1 (List.mem_map_of_mem Prod.fst he))
  have hnd : (entries.map Prod.fst).Nodup := hperm.nodup_iff.2 (List.nodup_range _)
  obtain ⟨res, hres, hlen, hin, _⟩ := fillByIndex_spec entries arr hlt hnd
  refine ⟨res, hres, hlen, hin, ?_⟩
  have h1 := hperm.filterMap (fun i => res[i]?)
  rw [← hlen, filterMap_getElem?_range] at h1
  have h2 : (entries.map Prod.fst).filterMap (fun i => res[i]?) = entries.map Prod.snd := by
    rw [List.filterMap_map]
    have : ∀ e ∈ entries, ((fun i => res[i]?) ∘ Prod.fst) e = some (Prod.snd e) := hin
    rw [List.filterMap_congr this]
    exact List.filterMap_eq_map _ ▸ rfl
  rw [h2] at h1
  exact h1.symm

/-- For a field list whose code-order indices are a permutation of `0..n-1`,
`codeOrderFields` returns a permutation of the fields with the field of code order `i` at
position `i`. -/
theorem codeOrderFields_perm (fields : List Field)
    (hperm : (fields.map (fun f => f.codeOrder)).Perm (List.range fields.length)) :
    ∃ mbrs, codeOrderFields fields = .ok mbrs ∧ mbrs.length = fields.length ∧
      mbrs.Perm fields ∧ (∀ f ∈ fields, mbrs[f.codeOrder]? = some f) ∧
      (∀ (i : Nat) (f : Field), mbrs[i]? = some f → f.codeOrder = i) := by
  have hp : ((fields.map (fun f => (f.codeOrder, f))).map Prod.fst).Perm
      (List.range (List.replicate fields.length Field.zero).length) := by
    simpa [List.map_map, Function.comp_def] using hperm
  obtain ⟨mbrs, hres, hlen, hin, hpm⟩ := fillByIndex_perm _ _ hp
  have hpm2 : mbrs.Perm fields := by
    simpa [List.map_map, Function.comp_def] using hpm
  have hin2 : ∀ f ∈ fields, mbrs[f.codeOrder]? = some f := fun f hf =>
    hin (f.codeOrder, f) (List.mem_map_of_mem _ hf)
  refine ⟨mbrs, hres, by simpa using hlen, hpm2, hin2, ?_⟩
  intro i f hif
  have hfm : f ∈ fields := hpm2.mem_iff.1 (List.getElem?_mem hif)
  have hi : i < fields.length := by
    have := (List.getElem?_eq_some.1 hif).1
    simpa [hlen] using this
  obtain ⟨f2, hf2, hf2i⟩ := List.mem_map.1 (hperm.mem_iff.2 (List.mem_range.2 hi))
  have h2 := hin2 f2 hf2
  have hf2c : f2.codeOrder = i := hf2i
  rw [hf2c, hif] at h2
  rw [Option.some.inj h2]
  exact hf2c

theorem GroupWalk.perm {g : Registry} {rank : Nat → Nat} (h : GroupWalk g rank) (x : Nat)
    (n : Node) (hn : g.get x = some n) :
    (n.struct.fields.map (fun f => f.codeOrder)).Perm (List.range n.struct.fields.length) :=
  (h n (get_mem_id g x n hn).1).1

theorem GroupWalk.group {g : Registry} {rank : Nat → Nat} (h : GroupWalk g rank) (x : Nat)
    (n : Node) (hn : g.get x = some n) (f : Field) (hf : f ∈ n.struct.fields)
    (hw : f.which = FIELD_GROUP) :
    rank f.group.typeId < rank x ∧
      ∃ gn, g.get f.group.typeId = some gn ∧ gn.which = NODE_STRUCT := by
  obtain ⟨hm, hid⟩ := get_mem_id g x n hn
  have hc : f.group.typeId ∈ groupIds n :=
    List.mem_map.2 ⟨f, List.mem_filter.2 ⟨hf, by simp [hw]⟩, rfl⟩
  obtain ⟨hr, hg⟩ := (h n hm).2 _ hc
  rw [hid] at hr
  refine ⟨hr, ?_⟩
  cases hgn : g.get f.group.typeId with
  | none => rw [hgn] at hg; cases hg
  | some gn =>
    rw [hgn] at hg
    exact ⟨gn, rfl, by simpa using hg⟩

theorem SchemaType.json_fst (t : SchemaType) :
    ∀ imp : List String, (t.json imp).1 = (t.json []).1 := by
  induction t with
  | list typ ih =>
    intro imp
    simp only [SchemaType.json]
    split
    · rfl
    · rw [ih imp]
  | _ => intro imp; rfl

theorem remoteName_error (n from_ : node) (imp : List String) (e : Err)
    (h : remoteName n from_ imp = .error e) : ∃ msg, e = Err.panic msg := by
  unfold remoteName remoteScope at h
  split at h
  · cases h
  · next e' heq =>
    cases h
    split at heq
    · cases heq; exact ⟨_, rfl⟩
    · split at heq
      · cases heq
      · split at heq
        · cases heq; exact ⟨_, rfl⟩
        · cases heq

theorem assertDefault_bind_error {β : Type} (d : Value) (tag : Value_Which) (msg : String)
    (k : Unit → Except Err β) (e : Err)
    (hk : ∀ e', k () = .error e' → ∃ m, e' = Err.panic m)
    (h : (assertDefault d tag msg >>= k) = .error e) : ∃ m, e = Err.panic m := by
  unfold assertDefault at h
  split at h
  · exact hk e h
  · cases h; exact ⟨_, rfl⟩

theorem findNode_bind_error {β : Type} (g : Registry) (id : Nat)
    (k : Node → Except Err β) (e : Err)
    (hk : ∀ n e', k n = .error e' → ∃ m, e' = Err.panic m)
    (h : (findNode g id >>= k) = .error e) : ∃ m, e = Err.panic m := by
  unfold findNode at h
  split at h
  · next n _ => exact hk n e h
  · cases h; exact ⟨_, rfl⟩

/-- A failing `TypeName` is a panic: it has no recursion to run out of fuel. -/
theorem TypeName_error (g : Registry) (st : Vars) (s : FieldSlot) (n : node) (ct : String)
    (imp : List String) (e : Err) (h : TypeName g st s n ct imp = .error e) :
    ∃ msg, e = Err.panic msg := by
  have hpure : ∀ (x : String × List String) (e' : Err),
      (pure x : Except Err (String × List String)) = .error e' → ∃ m, e' = Err.panic m :=
    fun x e' h' => by cases h'
  unfold TypeName at h
  simp only at h
  split at h
  any_goals exact assertDefault_bind_error _ _ _ _ e (fun e' => hpure _ e') h
  · refine assertDefault_bind_error _ _ _ _ e (fun e' h' => ?_) h
    split at h'
    · split at h'
      · cases h'
      · cases h'; exact ⟨_, rfl⟩
    · cases h'
  · refine findNode_bind_error g _ _ e (fun _ e' h' => ?_) h
    exact assertDefault_bind_error _ _ _ _ e' (fun e2 h2 => remoteName_error _ _ _ e2 h2) h'
  · refine findNode_bind_error g _ _ e (fun _ e' h' => ?_) h
    exact assertDefault_bind_error _ _ _ _ e' (fun e2 h2 => remoteName_error _ _ _ e2 h2) h'
  · refine assertDefault_bind_error _ _ _ _ e (fun e' h' => ?_) h
    split at h'
    any_goals exact hpure _ e' h'
    · exact findNode_bind_error g _ _ e' (fun _ e2 h2 => remoteName_error _ _ _ e2 h2) h'
    · exact findNode_bind_error g _ _ e' (fun _ e2 h2 => hpure _ e2 h2) h'
  · cases h; exact ⟨_, rfl⟩
  · cases h; exact ⟨_, rfl⟩

theorem processAnnotations_error (codecs : List AnnotationId) (t : Type_Which)
    (ans : List Annotation) (e : Err) (h : processAnnotations codecs t ans = .error e) :
    ∃ msg, e = Err.panic msg := by
  unfold processAnnotations at h
  split at h
  · cases h; exact ⟨_, rfl⟩
  · split at h
    · cases h; exact ⟨_, rfl⟩
    · split at h
      · cases h; exact ⟨_, rfl⟩
      · simp only at h
        split at h <;> cases h

theorem defineField_error (g : Registry) (st : Vars) (nid : Nat) (f : Field)
    (imp : List String) (e : Err) (h : defineField g st nid f imp = .error e) :
    ∃ msg, e = Err.panic msg := by
  unfold defineField at h
  simp only at h
  split at h
  · cases h
  · split at h
    · cases h
    · split at h
      · cases h
      · split at h
        · next e' he' => cases h; exact TypeName_error _ _ _ _ _ _ _ he'
        · split at h
          · next e' he' =>
            cases h
            split at he'
            · exact processAnnotations_error _ _ _ _ he'
            · cases he'
          · cases h

theorem Field_Which_slot_of_ne (w : Field_Which) (h : ¬ w = FIELD_GROUP) : w = FIELD_SLOT := by
  cases w
  · rfl
  · exact absurd rfl h

theorem remoteName_fst (n from_ : node) (imp : List String) :
    Except.map Prod.fst (remoteName n from_ imp) = Except.map Prod.fst (remoteName n from_ []) := by
  unfold remoteName remoteScope
  split_ifs <;> rfl

theorem assertDefault_bind_fst (d : Value) (tag : Value_Which) (msg : String)
    (k k' : Unit → Except Err (String × List String))
    (h : Except.map Prod.fst (k ()) = Except.map Prod.fst (k' ())) :
    Except.map Prod.fst (assertDefault d tag msg >>= k) =
      Except.map Prod.fst (assertDefault d tag msg >>= k') := by
  unfold assertDefault
  split_ifs
  · exact h
  · rfl

theorem findNode_bind_fst (g : Registry) (id : Nat)
    (k k' : Node → Except Err (String × List String))
    (h : ∀ n, Except.map Prod.fst (k n) = Except.map Prod.fst (k' n)) :
    Except.map Prod.fst (findNode g id >>= k) = Except.map Prod.fst (findNode g id >>= k') := by
  unfold findNode
  split
  · exact h _
  · rfl

/-- The type string of `TypeName`, and whether it fails, do not depend on the import
set. -/
theorem TypeName_fst (g : Registry) (st : Vars) (s : FieldSlot) (n : node) (ct : String)
    (imp : List String) :
    Except.map Prod.fst (TypeName g st s n ct imp) =
      Except.map Prod.fst (TypeName g st s n ct []) := by
  unfold TypeName
  simp only
  split
  any_goals (apply assertDefault_bind_fst; rfl)
  · refine assertDefault_bind_fst _ _ _ _ _ ?_
    split
    · split <;> rfl
    · rfl
  · exact findNode_bind_fst g _ _ _ (fun _ => assertDefault_bind_fst _ _ _ _ _ (remoteName_fst _ _ _))
  · exact findNode_bind_fst g _ _ _ (fun _ => assertDefault_bind_fst _ _ _ _ _ (remoteName_fst _ _ _))
  · refine assertDefault_bind_fst _ _ _ _ _ ?_
    split
    any_goals rfl
    · exact findNode_bind_fst g _ _ _ (fun _ => remoteName_fst _ _ _)
    · apply findNode_bind_fst; intro _; rfl
  · rfl
  · rfl

theorem fieldAnnotations_eq : ∀ (anns : List Annotation) (gb ct : String) (imp : List String),
    (fieldAnnotations anns (gb, ct, imp)).1 = gb ++ docText anns ∧
    (fieldAnnotations anns (gb, ct, imp)).2.1 = customTypeOf anns ct := by
  intro anns
  induction anns with
  | nil => intro gb ct imp; simp [fieldAnnotations, docText, customTypeOf]
  | cons a rest ih =>
    intro gb ct imp
    simp only [fieldAnnotations, docText, customTypeOf]
    by_cases hc : a.id = AnnotationId.Customtype
    · have hd : ¬ a.id = AnnotationId.Doc := by rw [hc]; decide
      simp only [if_pos hc, if_neg hd, String.empty_append]
      cases beforeLastDot a.value.Text with
      | none => exact ih _ _ _
      | some pre => exact ih _ _ _
    · simp only [if_neg hc]
      by_cases hd : a.id = AnnotationId.Doc
      · simp only [if_pos hd]
        have := ih (gb ++ "// " ++ a.value.Text ++ "\n") ct imp
        simpa only [String.append_assoc] using this
      · simp only [if_neg hd, String.empty_append]
        exact ih _ _ _

/-- What `defineField` writes for a slot, whatever the import set, is the member
`slotMember` describes, and it fails when `slotMember` does. -/
theorem defineField_fst (g : Registry) (st : Vars) (nid : Nat) (f : Field)
    (imp : List String) :
    Except.map Prod.fst (defineField g st nid f imp) = slotMember g st nid f := by
  unfold defineField slotMember
  simp only
  by_cases hi : f.slot.type.Which = TYPE_INTERFACE
  · simp only [if_pos hi]; rfl
  · simp only [if_neg hi]
    by_cases hv : f.slot.type.Which = TYPE_VOID
    · by_cases hd : f.discriminantValue = 0xFFFF
      · simp [hv, hd, Except.map]
      · simp [hv, hd, Except.map]
    · have hfa := fieldAnnotations_eq f.annotations "" "" imp
      rw [if_neg (fun hc : _ ∧ _ => hv hc.2), if_neg (fun hc : _ ∧ _ => hv hc.2), if_neg hv]
      have hsplit : fieldAnnotations f.annotations ("", "", imp) =
          ((fieldAnnotations f.annotations ("", "", imp)).1,
           (fieldAnnotations f.annotations ("", "", imp)).2.1,
           (fieldAnnotations f.annotations ("", "", imp)).2.2) := rfl
      rw [hsplit, hfa.1, hfa.2]
      simp only [String.empty_append]
      have hT := TypeName_fst g st f.slot (st nid) (customTypeOf f.annotations "")
        (fieldAnnotations f.annotations ("", "", imp)).2.2
      cases h1 : TypeName g st f.slot (st nid) (customTypeOf f.annotations "")
          (fieldAnnotations f.annotations ("", "", imp)).2.2 with
      | error e =>
        rw [h1] at hT
        cases h2 : TypeName g st f.slot (st nid) (customTypeOf f.annotations "") [] with
        | error e2 =>
          rw [h2] at hT
          simp only [Except.map, Except.error.injEq] at hT
          simp [Except.map, hT]
        | ok r2 => rw [h2] at hT; simp [Except.map] at hT
      | ok r =>
        obtain ⟨ty, imp2⟩ := r
        rw [h1] at hT
        cases h2 : TypeName g st f.slot (st nid) (customTypeOf f.annotations "") [] with
        | error e2 => rw [h2] at hT; simp [Except.map] at hT
        | ok r2 =>
          obtain ⟨ty2, imp3⟩ := r2
          rw [h2] at hT
          simp only [Except.map, Except.ok.injEq] at hT
          subst hT
          simp only
          cases (if f.annotations.length ≠ 0 then
              processAnnotations (st nid).codecs f.slot.type.Which f.annotations
            else Except.ok "") with
          | error e => rfl
          | ok tags => simp only [Except.map, effectiveName_eq]

theorem defineField_memberOutput (g : Registry) (st : Vars)
    (rec : Nat → List String → Except Err (String × List String)) (nid : Nat) (f : Field)
    (imp imp' : List String) (o : String) (hw : ¬ f.which = FIELD_GROUP)
    (h : defineField g st nid f imp = .ok (o, imp')) : memberOutput g st rec nid f o := by
  unfold memberOutput
  rw [if_neg hw, ← defineField_fst g st nid f imp, h]
  rfl

theorem defineField_returns (g : Registry) (st : Vars) (nid : Nat) (f : Field)
    (imp : List String) (h : (slotMember g st nid f).toOption.isSome = true) :
    ∃ r, defineField g st nid f imp = .ok r := by
  have hfst := defineField_fst g st nid f imp
  cases hd : defineField g st nid f imp with
  | ok r => exact ⟨r, rfl⟩
  | error e =>
    rw [hd] at hfst
    rw [← hfst] at h
    simp [Except.map, Except.toOption] at h

theorem defineStructFieldsLoop_outputs (g : Registry) (st : Vars)
    (rec : Nat → List String → Except Err (String × List String)) (nid : Nat) :
    ∀ (l : List Field) (w : String) (imp : List String) (out : String) (imp' : List String),
      defineStructFieldsLoop g st rec nid l w imp = .ok (out, imp') →
      ∃ outs, out = w ++ concatStrings outs ∧
        List.Forall₂ (memberOutput g st rec nid) l outs := by
  intro l
  induction l with
  | nil =>
    intro w imp out imp' h
    simp only [defineStructFieldsLoop, Except.ok.injEq, Prod.mk.injEq] at h
    exact ⟨[], by simp [concatStrings, h.1], List.Forall₂.nil⟩
  | cons f rest ih =>
    intro w imp out imp' h
    simp only [defineStructFieldsLoop] at h
    split at h
    · next hw =>
      split at h
      · cases h
      · next o imp1 ho =>
        obtain ⟨outs, hout, hall⟩ := ih _ _ _ _ h
        refine ⟨o :: outs, ?_, List.Forall₂.cons ?_ hall⟩
        · rw [hout, concatStrings, String.append_assoc]
        · exact defineField_memberOutput g st rec nid f imp imp1 o (by rw [hw]; decide) ho
    · next hw =>
      split at h
      · cases h
      · split at h
        · cases h
        · next inner imp1 hin =>
          obtain ⟨outs, hout, hall⟩ := ih _ _ _ _ h
          refine ⟨(title (effectiveName f.annotations f.name) ++ " struct \x7b\n" ++ inner ++
            "\x7d\n") :: outs, ?_, List.Forall₂.cons ?_ hall⟩
          · rw [hout, concatStrings, effectiveName_eq]
            simp only [String.append_assoc]
          · unfold memberOutput
            rw [if_pos hw]
            exact ⟨inner, imp, imp1, hin, rfl⟩

theorem defineStructFieldsLoop_returns (g : Registry) (st : Vars)
    (rec : Nat → List String → Except Err (String × List String)) (nid : Nat) :
    ∀ (l : List Field),
      (∀ f ∈ l, f.which = FIELD_SLOT → (slotMember g st nid f).toOption.isSome = true) →
      (∀ f ∈ l, f.which = FIELD_GROUP →
        (∃ gn, g.get f.group.typeId = some gn) ∧ ∀ imp, ∃ r, rec f.group.typeId imp = .ok r) →
      ∀ (w : String) (imp : List String),
        ∃ r, defineStructFieldsLoop g st rec nid l w imp = .ok r := by
  intro l
  induction l with
  | nil => intro _ _ w imp; exact ⟨_, rfl⟩
  | cons f rest ih =>
    intro hs hg w imp
    have ihr := ih (fun f' hf' => hs f' (List.mem_cons_of_mem _ hf'))
      (fun f' hf' => hg f' (List.mem_cons_of_mem _ hf'))
    cases hw : f.which with
    | FIELD_SLOT =>
      obtain ⟨r, hr⟩ := defineField_returns g st nid f imp (hs f (List.mem_cons_self _ _) hw)
      obtain ⟨o, imp1⟩ := r
      simp only [defineStructFieldsLoop, hw, hr]
      exact ihr _ _
    | FIELD_GROUP =>
      obtain ⟨⟨gn, hgn⟩, hrec⟩ := hg f (List.mem_cons_self _ _) hw
      obtain ⟨r, hr⟩ := hrec imp
      obtain ⟨o, imp1⟩ := r
      simp only [defineStructFieldsLoop, hw, findNode, hgn, hr]
      exact ihr _ _

/-- In a registry whose walks through Group fields come to an end and whose slot fields
all have a member, `defineStructFields` returns for a registered struct node with fuel
above its rank. -/
theorem defineStructFields_returns (g : Registry) (st : Vars) (rank : Nat → Nat)
    (hwalk : GroupWalk g rank)
    (hslots : ∀ m ∈ g, ∀ f ∈ m.struct.fields, f.which = FIELD_SLOT →
      (slotMember g st m.id f).toOption.isSome = true) :
    ∀ (fuel x : Nat) (n : Node), rank x < fuel → g.get x = some n → n.which = NODE_STRUCT →
      ∀ imp : List String, ∃ r, defineStructFields g st fuel x imp = .ok r := by
  intro fuel
  induction fuel with
  | zero => intro x n hx; exact absurd hx (Nat.not_lt_zero _)
  | succ k ih =>
    intro x n hx hn hs imp
    obtain ⟨mbrs, hm, _, hpm, _, _⟩ := codeOrderFields_perm n.struct.fields (hwalk.perm x n hn)
    obtain ⟨hmem, hid⟩ := get_mem_id g x n hn
    obtain ⟨r, hr⟩ := defineStructFieldsLoop_returns g st (defineStructFields g st k) x mbrs
      (fun f hf hw => by
        have := hslots n hmem f (hpm.mem_iff.1 hf) hw
        rwa [hid] at this)
      (fun f hf hw => by
        obtain ⟨hr, gn, hgn, hgs⟩ := hwalk.group x n hn f (hpm.mem_iff.1 hf) hw
        exact ⟨⟨gn, hgn⟩, ih f.group.typeId gn (by omega) hgn hgs⟩) "" imp
    have hunf : defineStructFields g st (k + 1) x imp =
        defineStructFieldsLoop g st (defineStructFields g st k) x mbrs "" imp := by
      simp [defineStructFields, hn, hs, hm]
    exact ⟨r, hunf.trans hr⟩

theorem defineStructFieldsLoop_slots_error (g : Registry) (st : Vars)
    (rec : Nat → List String → Except Err (String × List String)) (nid : Nat) :
    ∀ (l : List Field) (w : String) (imp : List String) (e : Err),
      (∀ f ∈ l, f.which = FIELD_SLOT) →
      defineStructFieldsLoop g st rec nid l w imp = .error e → ∃ msg, e = Err.panic msg := by
  intro l
  induction l with
  | nil => intro w imp e _ h; simp [defineStructFieldsLoop] at h
  | cons f rest ih =>
    intro w imp e hs h
    simp only [defineStructFieldsLoop] at h
    have hf := hs f (List.mem_cons_self _ _)
    split at h
    · split at h
      · next e' he' => cases h; exact defineField_error _ _ _ _ _ _ he'
      · exact ih _ _ _ (fun f' hf' => hs f' (List.mem_cons_of_mem _ hf')) h
    · next hw => rw [hf] at hw; cases hw

/-- **C7 (as stated), refuted.** The struct with the slots `cap` (an interface) and `n`
(int32) gets the single member `N int32`: nothing is written for the interface slot,
which is not of void type, and `TypeName` has no type string for it. -/
theorem defineStructFields_interface_counterexample :
    defineStructFields pointRegistry pointVars 1 8 [] = .ok ("N int32\n", []) ∧
    TypeName pointRegistry pointVars { type := SchemaType.interface 0 } (pointVars 8) "" [] =
      .error (Err.panic "Unsupported type. Type_Which=17") := by
  refine ⟨by decide, by decide⟩

/-- **C7 (amended).** In a registry whose walks through Group fields come to an end (code
orders a permutation of `0..n-1` in every node, every Group target a registered struct of
lower rank) and whose slot fields all have a member (`TypeName` has a type string for the
slot, `processAnnotations` accepts the annotations), `defineStructFields` returns for
every registered struct node, with fuel above its rank, and what it writes is the
concatenation, in code order, of one piece per member: nothing for a slot of interface
type; nothing for a void slot that is not a union member (discriminant 0xFFFF) and only
the placeholder comment for a void slot that is one; for any other slot the doc comment
lines of the field, `Title(effective field name) <TypeName of the slot>`, the tags of the
field when it is annotated, and a newline; for a group the line
`Title(effective field name) struct {`, what `defineStructFields` writes for the group
node, and the closing brace.  `Point{x: int32, y: int32}` gives `X int32` followed by
`Y int32`. -/
theorem defineStructFields_members (g : Registry) (st : Vars) (rank : Nat → Nat)
    (hwalk : GroupWalk g rank)
    (hslots : ∀ m ∈ g, ∀ f ∈ m.struct.fields, f.which = FIELD_SLOT →
      (slotMember g st m.id f).toOption.isSome = true)
    (nid : Nat) (n : Node) (hn : g.get nid = some n) (hs : n.which = NODE_STRUCT)
    (fuel : Nat) (hfuel : rank nid ≤ fuel) (imp : List String) :
    (∃ mbrs out imp1 outs, codeOrderFields n.struct.fields = .ok mbrs ∧
      mbrs.Perm n.struct.fields ∧
      (∀ (i : Nat) (f : Field), mbrs[i]? = some f → f.codeOrder = i) ∧
      defineStructFields g st (fuel + 1) nid imp = .ok (out, imp1) ∧
      out = concatStrings outs ∧
      List.Forall₂ (memberOutput g st (defineStructFields g st fuel) nid) mbrs outs) ∧
    defineStructFields pointRegistry pointVars 1 7 [] = .ok ("X int32\nY int32\n", []) := by
  refine ⟨?_, by decide⟩
  obtain ⟨mbrs, hm, _, hpm, _, hidx⟩ := codeOrderFields_perm n.struct.fields (hwalk.perm nid n hn)
  obtain ⟨r, hrun⟩ := defineStructFields_returns g st rank hwalk hslots (fuel + 1) nid n
    (by omega) hn hs imp
  obtain ⟨out, imp1⟩ := r
  have hunf : defineStructFields g st (fuel + 1) nid imp =
      defineStructFieldsLoop g st (defineStructFields g st fuel) nid mbrs "" imp := by
    simp [defineStructFields, hn, hs, hm]
  obtain ⟨outs, hout, hall⟩ := defineStructFieldsLoop_outputs g st _ nid mbrs "" imp out imp1
    (hunf.symm.trans hrun)
  exact ⟨mbrs, out, imp1, outs, hm, hpm, hidx, hrun, by simpa using hout, hall⟩

set_option maxRecDepth 40000 in
/-- Witness of C7 (amended) on `Event`, with the documented and annotated field `when`
and the group `pos`: the call returns through the group, and writes the doc line, the
member line with its json tag, and the struct block of the group. -/
theorem defineStructFields_members_witness :
    ∃ out imp1 outs, defineStructFields eventRegistry eventVars 2 17 [] = .ok (out, imp1) ∧
      out = concatStrings outs ∧ outs.length = 2 ∧
      out = "// first\nWhen int32`json:\"when\"`\nPos struct \x7b\nX int32\n\x7d\n" := by
  have hwalk : GroupWalk eventRegistry eventRank := by
    unfold GroupWalk
    decide
  obtain ⟨⟨mbrs, out, imp1, outs, hm, hpm, _, hrun, hout, hall⟩, _⟩ :=
    defineStructFields_members eventRegistry eventVars eventRank hwalk (by decide) 17
      eventStruct rfl rfl 1 (by decide) []
  have hl : outs.length = 2 := by
    rw [← hall.length_eq, hpm.length_eq]
    rfl
  have hval : defineStructFields eventRegistry eventVars 2 17 [] =
      .ok ("// first\nWhen int32`json:\"when\"`\nPos struct \x7b\nX int32\n\x7d\n", []) := by
    decide
  rw [hval] at hrun
  have hinj := Except.ok.inj hrun
  simp only [Prod.mk.injEq] at hinj
  exact ⟨out, imp1, outs, by rw [hval, hinj.1, hinj.2], hout, hl, hinj.1.symm⟩

theorem whichConstLines_eq (name : String) :
    ∀ (l : List Field) (w : String), whichConstLines name l w =
      w ++ concatStrings ((l.filter isUnionMember).map (whichConstant name)) := by
  intro l
  induction l with
  | nil => intro w; simp [whichConstLines, concatStrings]
  | cons f rest ih =>
    intro w
    simp only [whichConstLines]
    by_cases hd : f.discriminantValue = 0xFFFF
    · rw [if_pos hd, ih]
      have : isUnionMember f = false := by simp [isUnionMember, hd]
      simp [List.filter, this]
    · rw [if_neg hd, ih]
      have : isUnionMember f = true := by simp [isUnionMember, hd]
      simp [List.filter, this, concatStrings, whichConstant, String.append_assoc]

theorem defineStructEnumsGroups_acc (g : Registry) (rec : Nat → Except Err String) :
    ∀ (l : List Field) (w : String), defineStructEnumsGroups g rec l w =
      match defineStructEnumsGroups g rec l "" with
      | .ok r => .ok (w ++ r)
      | .error e => .error e := by
  intro l
  induction l with
  | nil => intro w; simp [defineStructEnumsGroups]
  | cons f rest ih =>
    intro w
    simp only [defineStructEnumsGroups]
    by_cases hw : f.which = FIELD_GROUP
    · simp only [if_pos hw]
      cases findNode g f.group.typeId with
      | error e => rfl
      | ok _ =>
        cases rec f.group.typeId with
        | error e => rfl
        | ok out =>
          simp only
          rw [ih (w ++ out), ih ("" ++ out)]
          cases defineStructEnumsGroups g rec rest "" with
          | error e => rfl
          | ok r => simp [String.append_assoc]
    · simp only [if_neg hw]
      exact ih w

theorem defineStructEnumsGroups_slots (g : Registry) (rec : Nat → Except Err String) :
    ∀ (l : List Field) (w : String), (∀ f ∈ l, f.which = FIELD_SLOT) →
      defineStructEnumsGroups g rec l w = .ok w := by
  intro l
  induction l with
  | nil => intro w _; rfl
  | cons f rest ih =>
    intro w hs
    have hf : ¬ f.which = FIELD_GROUP := by rw [hs f (List.mem_cons_self _ _)]; decide
    simp only [defineStructEnumsGroups, if_neg hf]
    exact ih w (fun f' hf' => hs f' (List.mem_cons_of_mem _ hf'))

theorem defineStructEnumsGroups_outputs (g : Registry) (rec : Nat → Except Err String) :
    ∀ (l : List Field) (w : String),
      (∀ f ∈ l, f.which = FIELD_GROUP →
        (∃ gn, g.get f.group.typeId = some gn) ∧ ∃ o, rec f.group.typeId = .ok o) →
      ∃ outs, List.Forall₂ (fun (f : Field) o => rec f.group.typeId = .ok o)
          (l.filter (fun f => decide (f.which = FIELD_GROUP))) outs ∧
        defineStructEnumsGroups g rec l w = .ok (w ++ concatStrings outs) := by
  intro l
  induction l with
  | nil => intro w _; exact ⟨[], List.Forall₂.nil, by simp [defineStructEnumsGroups, concatStrings]⟩
  | cons f rest ih =>
    intro w h
    have hrest := fun f' hf' => h f' (List.mem_cons_of_mem _ hf')
    by_cases hw : f.which = FIELD_GROUP
    · obtain ⟨⟨gn, hgn⟩, o, ho⟩ := h f (List.mem_cons_self _ _) hw
      obtain ⟨outs, hall, hrun⟩ := ih (w ++ o) hrest
      refine ⟨o :: outs, ?_, ?_⟩
      · rw [List.filter_cons_of_pos (by simp [hw])]
        exact List.Forall₂.cons ho hall
      · simp only [defineStructEnumsGroups, if_pos hw, findNode, hgn, ho, hrun, concatStrings,
          String.append_assoc]
    · obtain ⟨outs, hall, hrun⟩ := ih w hrest
      refine ⟨outs, ?_, ?_⟩
      · rw [List.filter_cons_of_neg (by simp [hw])]
        exact hall
      · simp only [defineStructEnumsGroups, if_neg hw, hrun]

theorem defineStructEnumsWhich_eq (name : String) (n : Node) (mbrs : List Field)
    (hm : codeOrderFields n.struct.fields = .ok mbrs) :
    defineStructEnumsWhich name n =
      .ok (if 0 < n.struct.discriminantCount then
        "type " ++ name ++ "_Which uint16\n" ++ "const (\n" ++
          concatStrings ((mbrs.filter isUnionMember).map (whichConstant name)) ++ ")\n"
        else "") := by
  unfold defineStructEnumsWhich
  by_cases hc : 0 < n.struct.discriminantCount
  · simp only [gt_iff_lt, hc, if_true, hm, whichConstLines_eq]
  · simp only [gt_iff_lt, hc, if_false]

/-- In a registry whose walks through Group fields come to an end, `defineStructEnums`
returns for a registered struct node with fuel above its rank. -/
theorem defineStructEnums_returns (g : Registry) (st : Vars) (rank : Nat → Nat)
    (hwalk : GroupWalk g rank) :
    ∀ (fuel x : Nat) (n : Node), rank x < fuel → g.get x = some n → n.which = NODE_STRUCT →
      ∃ out, defineStructEnums g st fuel x = .ok out := by
  intro fuel
  induction fuel with
  | zero => intro x n hx; exact absurd hx (Nat.not_lt_zero _)
  | succ k ih =>
    intro x n hx hn hs
    obtain ⟨mbrs, hm, _, hpm, _, _⟩ := codeOrderFields_perm n.struct.fields (hwalk.perm x n hn)
    obtain ⟨outs, _, hrun⟩ := defineStructEnumsGroups_outputs g (defineStructEnums g st k) mbrs
      (if 0 < n.struct.discriminantCount then
        "type " ++ (st x).name ++ "_Which uint16\n" ++ "const (\n" ++
          concatStrings ((mbrs.filter isUnionMember).map (whichConstant (st x).name)) ++ ")\n"
        else "")
      (fun f hf hw => by
        obtain ⟨hr, gn, hgn, hgs⟩ := hwalk.group x n hn f (hpm.mem_iff.1 hf) hw
        exact ⟨⟨gn, hgn⟩, ih f.group.typeId gn (by omega) hgn hgs⟩)
    have hunf : defineStructEnums g st (k + 1) x =
        defineStructEnumsGroups g (defineStructEnums g st k) mbrs
          (if 0 < n.struct.discriminantCount then
            "type " ++ (st x).name ++ "_Which uint16\n" ++ "const (\n" ++
              concatStrings ((mbrs.filter isUnionMember).map (whichConstant (st x).name)) ++ ")\n"
            else "") := by
      simp only [defineStructEnums, hn, hs, ne_eq, not_true_eq_false, if_false,
        defineStructEnumsWhich_eq (st x).name n mbrs hm, hm]
    exact ⟨_, hunf.trans hrun⟩

/-- **C8.** In a registry whose walks through Group fields come to an end (code orders a
permutation of `0..n-1` in every node, every Group target a registered struct of lower
rank), `defineStructEnums` returns for every registered struct node whose discriminant
count `N` is its number of union-member fields (discriminant other than 0xFFFF).  When
`N > 0` it writes `type <name>_Which uint16` and a `const` block of exactly `N`
constants, one per union-member field in code order, each
`UPPER(name)_UPPER(field name) <name>_Which = <discriminant>`; when `N = 0` it writes no
which type for the struct (such as `Point`).  After that comes, for each Group field in
code order, what `defineStructEnums` writes for the group node. -/
theorem defineStructEnums_which (g : Registry) (st : Vars) (rank : Nat → Nat)
    (hwalk : GroupWalk g rank) (nid : Nat) (n : Node)
    (hn : g.get nid = some n) (hs : n.which = NODE_STRUCT)
    (hcount : n.struct.discriminantCount = (n.struct.fields.filter isUnionMember).length)
    (fuel : Nat) (hfuel : rank nid ≤ fuel) :
    (∃ mbrs outs, codeOrderFields n.struct.fields = .ok mbrs ∧
      (mbrs.filter isUnionMember).Perm (n.struct.fields.filter isUnionMember) ∧
      (∀ (i : Nat) (f : Field), mbrs[i]? = some f → f.codeOrder = i) ∧
      ((mbrs.filter isUnionMember).map (whichConstant (st nid).name)).length =
        n.struct.discriminantCount ∧
      List.Forall₂ (fun (f : Field) o => defineStructEnums g st fuel f.group.typeId = .ok o)
        (mbrs.filter (fun f => decide (f.which = FIELD_GROUP))) outs ∧
      defineStructEnums g st (fuel + 1) nid =
        .ok ((if 0 < n.struct.discriminantCount then
          "type " ++ (st nid).name ++ "_Which uint16\n" ++ "const (\n" ++
            concatStrings ((mbrs.filter isUnionMember).map (whichConstant (st nid).name)) ++
            ")\n"
          else "") ++ concatStrings outs)) ∧
    defineStructEnums pointRegistry pointVars 1 7 = .ok "" := by
  refine ⟨?_, by decide⟩
  obtain ⟨mbrs, hm, _, hpm, _, hidx⟩ := codeOrderFields_perm n.struct.fields (hwalk.perm nid n hn)
  have hpf := hpm.filter isUnionMember
  obtain ⟨outs, hall, hrun⟩ := defineStructEnumsGroups_outputs g (defineStructEnums g st fuel)
    mbrs
    (if 0 < n.struct.discriminantCount then
      "type " ++ (st nid).name ++ "_Which uint16\n" ++ "const (\n" ++
        concatStrings ((mbrs.filter isUnionMember).map (whichConstant (st nid).name)) ++ ")\n"
      else "")
    (fun f hf hw => by
      obtain ⟨hr, gn, hgn, hgs⟩ := hwalk.group nid n hn f (hpm.mem_iff.1 hf) hw
      exact ⟨⟨gn, hgn⟩, defineStructEnums_returns g st rank hwalk fuel f.group.typeId gn
        (by omega) hgn hgs⟩)
  refine ⟨mbrs, outs, hm, hpf, hidx, ?_, hall, ?_⟩
  · rw [List.length_map, hpf.length_eq, hcount]
  · simp only [defineStructEnums, hn, hs, ne_eq, not_true_eq_false, if_false,
      defineStructEnumsWhich_eq (st nid).name n mbrs hm, hm, hrun]

set_option maxRecDepth 20000 in
/-- Witness of C8 on `Outer`, a struct without a union whose group `inner` holds the
2-member union `{p: void, q: uint8}`: the call returns through the group, writes no which
type for `Outer` and the which type of the group with its two constants; and on the spec's
`Shape`, with two constants valued 0 and 1. -/
theorem defineStructEnums_which_witness :
    (∃ outs, defineStructEnums outerRegistry outerVars 2 14 = .ok ("" ++ concatStrings outs) ∧
      outs = ["type OuterInner_Which uint16\nconst (\nOUTERINNER_P OuterInner_Which = 0\nOUTERINNER_Q OuterInner_Which = 1\n)\n"]) ∧
    defineStructEnums unionRegistry unionVars 2 10 =
      .ok "type Shape_Which uint16\nconst (\nSHAPE_A Shape_Which = 0\nSHAPE_B Shape_Which = 1\n)\n" := by
  have hwalk : GroupWalk outerRegistry outerRank := by
    unfold GroupWalk
    decide
  obtain ⟨⟨mbrs, outs, hm, _, _, _, hall, hrun⟩, _⟩ :=
    defineStructEnums_which outerRegistry outerVars outerRank hwalk 14 outerStruct rfl rfl
      (by decide) 1 (by decide)
  have hmb : codeOrderFields outerStruct.struct.fields =
      .ok [{ name := "id", codeOrder := 0, slot := { type := SchemaType.uint8 } },
           { name := "inner", codeOrder := 1, which := FIELD_GROUP, group := ⟨15⟩ }] := by
    decide
  rw [hmb] at hm
  have hmbrs := Except.ok.inj hm
  subst hmbrs
  have hinner : defineStructEnums outerRegistry outerVars 1 15 =
      .ok "type OuterInner_Which uint16\nconst (\nOUTERINNER_P OuterInner_Which = 0\nOUTERINNER_Q OuterInner_Which = 1\n)\n" := by
    decide
  refine ⟨⟨outs, hrun, ?_⟩, by decide⟩
  cases hall with
  | cons h1 hrest =>
    cases hrest
    have h1' : defineStructEnums outerRegistry outerVars 1 15 = .ok _ := h1
    rw [hinner] at h1'
    rw [← Except.ok.inj h1']

theorem fillByIndex_mem {α : Type} :
    ∀ (entries : List (Nat × α)) (arr res : List α), fillByIndex arr entries = .ok res →
      ∀ x ∈ res, x ∈ arr ∨ x ∈ entries.map Prod.snd := by
  intro entries
  induction entries with
  | nil =>
    intro arr res h x hx
    simp only [fillByIndex, Except.ok.injEq] at h
    exact Or.inl (h ▸ hx)
  | cons a rest ih =>
    intro arr res h x hx
    simp only [fillByIndex] at h
    split at h
    · rcases ih _ _ h x hx with hs | hr
      · rcases List.mem_or_eq_of_mem_set hs with h1 | h1
        · exact Or.inl h1
        · exact Or.inr (by simp [h1])
      · exact Or.inr (by simp only [List.map_cons, List.mem_cons]; exact Or.inr hr)
    · cases h

theorem enumEntries_parent (nid : Nat) :
    ∀ (es : List Enumerant) (start : Nat), ∀ x ∈ (enumEntries nid start es).map Prod.snd,
      x.parent = some nid := by
  intro es
  induction es with
  | nil => intro start x hx; simp [enumEntries] at hx
  | cons e rest ih =>
    intro start x hx
    simp only [enumEntries, List.map_cons, List.mem_cons] at hx
    rcases hx with rfl | hx
    · rfl
    · exact ih (start + 1) x hx

theorem enumEntries_fst (nid : Nat) :
    ∀ (es : List Enumerant) (start : Nat),
      (enumEntries nid start es).map Prod.fst = es.map (fun e => e.codeOrder) := by
  intro es
  induction es with
  | nil => intro start; rfl
  | cons e rest ih => intro start; simp only [enumEntries, List.map_cons, ih]

theorem enumEntries_mem (nid : Nat) :
    ∀ (es : List Enumerant) (start i : Nat) (e : Enumerant), es[i]? = some e →
      (e.codeOrder, enumvalOf nid (start + i) e) ∈ enumEntries nid start es := by
  intro es
  induction es with
  | nil => intro start i e h; simp at h
  | cons a rest ih =>
    intro start i e h
    cases i with
    | zero =>
      simp only [List.getElem?_cons_zero, Option.some.injEq] at h
      subst h
      simp only [enumEntries, effectiveName_eq, Nat.add_zero, enumvalOf]
      exact List.mem_cons_self _ _
    | succ j =>
      simp only [List.getElem?_cons_succ] at h
      have := ih (start + 1) j e h
      simp only [enumEntries]
      rw [show start + (j + 1) = start + 1 + j by omega]
      exact List.mem_cons_of_mem _ this

theorem fullName_of_parent (st : Vars) (nid : Nat) (e : enumval) (h : e.parent = some nid) :
    e.fullName st = .ok (constName (st nid).name e) := by
  simp [enumval.fullName, h, constName]

theorem enumConstLines_eq (st : Vars) (nid : Nat) (name : String) :
    ∀ (ev : List enumval) (w : String), (∀ e ∈ ev, e.parent = some nid) →
      enumConstLines st name ev w =
        .ok (w ++ concatStrings (ev.map (fun e =>
          constName (st nid).name e ++ " " ++ name ++ " = " ++ fmtNat e.val ++ "\n"))) := by
  intro ev
  induction ev with
  | nil => intro w _; simp [enumConstLines, concatStrings]
  | cons e rest ih =>
    intro w hp
    simp only [enumConstLines, fullName_of_parent st nid e (hp e (List.mem_cons_self _ _))]
    rw [ih _ (fun e' he' => hp e' (List.mem_cons_of_mem _ he'))]
    simp [concatStrings, String.append_assoc]

theorem enumConstLines_parent (st : Vars) (name : String) :
    ∀ (ev : List enumval) (w out : String), enumConstLines st name ev w = .ok out →
      ∀ e ∈ ev, e.parent ≠ none := by
  intro ev
  induction ev with
  | nil => intro w out _ e he; cases he
  | cons a rest ih =>
    intro w out h e he
    simp only [enumConstLines] at h
    split at h
    · cases h
    · next fn hfn =>
      rcases List.mem_cons.1 he with rfl | hm
      · intro hnone
        simp [enumval.fullName, hnone] at hfn
      · exact ih _ _ h e hm

theorem enumStringLines_eq (st : Vars) (nid : Nat) :
    ∀ (ev : List enumval) (w : String), (∀ e ∈ ev, e.parent = some nid) →
      enumStringLines st ev w =
        .ok (w ++ concatStrings ((enumTable (st nid).name ev).map
          (fun p => "case " ++ p.1 ++ ": return \"" ++ p.2 ++ "\"\n"))) := by
  intro ev
  induction ev with
  | nil => intro w _; simp [enumStringLines, enumTable, concatStrings]
  | cons e rest ih =>
    intro w hp
    have hrest := fun e' he' => hp e' (List.mem_cons_of_mem _ he')
    simp only [enumStringLines]
    by_cases ht : e.tag = ""
    · rw [if_neg (by simp [ht]), ih _ hrest]
      simp [enumTable, List.filter, ht]
    · rw [if_pos ht, fullName_of_parent st nid e (hp e (List.mem_cons_self _ _))]
      simp only
      rw [ih _ hrest]
      simp [enumTable, List.filter, ht, concatStrings, String.append_assoc]

theorem enumFromStringLines_eq (st : Vars) (nid : Nat) :
    ∀ (ev : List enumval) (w : String), (∀ e ∈ ev, e.parent = some nid) →
      enumFromStringLines st ev w =
        .ok (w ++ concatStrings ((enumTable (st nid).name ev).map
          (fun p => "case \"" ++ p.2 ++ "\": return " ++ p.1 ++ "\n"))) := by
  intro ev
  induction ev with
  | nil => intro w _; simp [enumFromStringLines, enumTable, concatStrings]
  | cons e rest ih =>
    intro w hp
    have hrest := fun e' he' => hp e' (List.mem_cons_of_mem _ he')
    simp only [enumFromStringLines]
    by_cases ht : e.tag = ""
    · rw [if_neg (by simp [ht]), ih _ hrest]
      simp [enumTable, List.filter, ht]
    · rw [if_pos ht, fullName_of_parent st nid e (hp e (List.mem_cons_self _ _))]
      simp only
      rw [ih _ hrest]
      simp [enumTable, List.filter, ht, concatStrings, String.append_assoc]

/-- The text `defineEnum` writes for an enum with at least one enumerant whose array `ev`
has no zero entry: the doc lines, the type, the constant block and the two functions. -/
theorem defineEnum_of_vals (g : Registry) (st : Vars) (nid : Nat) (n : Node)
    (ev : List enumval) (hn : g.get nid = some n) (hne : 0 < n.enum.enumerants.length)
    (hev : enumVals nid n.enum.enumerants = .ok ev) (hp : ∀ e ∈ ev, e.parent = some nid) :
    defineEnum g st nid =
      .ok (docLines n.annotations "" ++ ("type " ++ (st nid).name ++ " uint16\n") ++ "const (\n" ++
        concatStrings (ev.map (constLine (st nid).name)) ++ ")\n" ++
        stringFuncsText (st nid).name (enumTable (st nid).name ev)) := by
  unfold defineEnum
  simp only [hn, gt_iff_lt, hne, if_true, hev, enumConstLines_eq st nid _ ev _ hp,
    enumStringLines_eq st nid ev _ hp, enumFromStringLines_eq st nid ev _ hp]
  have hc : constLine (st nid).name = fun e =>
      constName (st nid).name e ++ " " ++ (st nid).name ++ " = " ++ fmtNat e.val ++ "\n" := rfl
  rw [hc]
  simp only [stringFuncsText, String.append_assoc]

theorem enumVals_parent_of_ok (g : Registry) (st : Vars) (nid : Nat) (n : Node) (out : String)
    (hn : g.get nid = some n) (hne : 0 < n.enum.enumerants.length)
    (h : defineEnum g st nid = .ok out) :
    ∃ ev, enumVals nid n.enum.enumerants = .ok ev ∧ ∀ e ∈ ev, e.parent = some nid := by
  unfold defineEnum at h
  simp only [hn, gt_iff_lt, hne, if_true] at h
  split at h
  · cases h
  · next ev hev =>
    refine ⟨ev, hev, ?_⟩
    split at h
    · cases h
    · next w1 hw1 =>
      intro e he
      have hnone := enumConstLines_parent st _ ev _ _ hw1 e he
      rcases fillByIndex_mem _ _ _ hev e he with hz | hent
      · rw [List.eq_of_mem_replicate hz] at hnone
        exact absurd rfl hnone
      · exact enumEntries_parent nid _ 0 e hent

/-- For an enum whose code orders are a permutation of `0..n-1`, the array `ev` holds at
position `k` the entry of the enumerant with code order `k`. -/
theorem enumVals_perm (nid : Nat) (es : List Enumerant)
    (hperm : (es.map (fun e => e.codeOrder)).Perm (List.range es.length)) :
    ∃ ev, enumVals nid es = .ok ev ∧ ev.length = es.length ∧
      (∀ e ∈ ev, e.parent = some nid) ∧
      (∀ (i : Nat) (e : Enumerant), es[i]? = some e →
        ev[e.codeOrder]? = some (enumvalOf nid i e)) := by
  have hp : ((enumEntries nid 0 es).map Prod.fst).Perm
      (List.range (List.replicate es.length ({} : enumval)).length) := by
    rw [enumEntries_fst, List.length_replicate]
    exact hperm
  obtain ⟨ev, hres, hlen, hin, hpm⟩ := fillByIndex_perm _ _ hp
  refine ⟨ev, hres, by simpa using hlen, ?_, ?_⟩
  · intro e he
    exact enumEntries_parent nid es 0 e (hpm.mem_iff.1 he)
  · intro i e hie
    have := hin _ (enumEntries_mem nid es 0 i e hie)
    simpa using this

/-- In a table of cases whose tags are pairwise distinct, looking up the tag of a
constant and then the constant of that tag gives the constant back. -/
theorem lookup_roundtrip (table : List (String × String))
    (hnd : (table.map Prod.snd).Nodup) (p : String × String) (hp : p ∈ table) :
    lookupFromString table (lookupString table p.1) = p.1 := by
  unfold lookupString
  cases hq : table.find? (fun q => q.1 == p.1) with
  | none =>
    have := List.find?_eq_none.1 hq p hp
    simp at this
  | some q =>
    have hqm : q ∈ table := List.mem_of_find?_eq_some hq
    have hq1 : q.1 = p.1 := by simpa using List.find?_some hq
    simp only
    unfold lookupFromString
    cases hr : table.find? (fun r => r.2 == q.2) with
    | none =>
      have := List.find?_eq_none.1 hr q hqm
      simp at this
    | some r =>
      have hrm : r ∈ table := List.mem_of_find?_eq_some hr
      have hr2 : r.2 = q.2 := by simpa using List.find?_some hr
      have hrq : r = q := List.inj_on_of_nodup_map hnd hrm hqm hr2
      simp only
      rw [hrq, hq1]

/-- **C9.** For an enum with `n ≥ 1` enumerants whose code orders are a permutation of
`0..n-1`, `defineEnum` returns; between the type line and the two functions it writes a
`const` block of exactly `n` lines, in code order: the line at position `k` belongs to the
enumerant `e` with code order `k` and reads
`UPPER(enumName)_UPPER(effective name of e) <enumName> = <i>`, `i` being the index of `e`
in the declared enumerant list. -/
theorem defineEnum_constants (g : Registry) (st : Vars) (nid : Nat) (n : Node)
    (hn : g.get nid = some n) (hlen : 1 ≤ n.enum.enumerants.length)
    (hperm : (n.enum.enumerants.map (fun e => e.codeOrder)).Perm
      (List.range n.enum.enumerants.length)) :
    ∃ lines table,
      defineEnum g st nid =
        .ok (docLines n.annotations "" ++ ("type " ++ (st nid).name ++ " uint16\n") ++
          "const (\n" ++ concatStrings lines ++ ")\n" ++ stringFuncsText (st nid).name table) ∧
      lines.length = n.enum.enumerants.length ∧
      ∀ (i : Nat) (e : Enumerant), n.enum.enumerants[i]? = some e →
        lines[e.codeOrder]? =
          some (ToUpper (st nid).name ++ "_" ++ ToUpper (effectiveName e.annotations e.name) ++
            " " ++ (st nid).name ++ " = " ++ fmtNat i ++ "\n") := by
  obtain ⟨ev, hev, hl, hp, hidx⟩ := enumVals_perm nid n.enum.enumerants hperm
  refine ⟨ev.map (constLine (st nid).name), enumTable (st nid).name ev,
    defineEnum_of_vals g st nid n ev hn hlen hev hp, by simp [hl], ?_⟩
  intro i e hie
  rw [List.getElem?_map, hidx i e hie]
  rfl

/-- Witness of C9 on the enum `Color` (declared green, red, blue with code orders 1, 0,
2): three lines, `red` first with its list index 1 as value. -/
theorem defineEnum_constants_witness :
    ∃ lines table,
      defineEnum enumRegistry enumVars 20 =
        .ok ("type Color uint16\n" ++ "const (\n" ++ concatStrings lines ++ ")\n" ++
          stringFuncsText "Color" table) ∧
      lines.length = 3 ∧ lines[0]? = some "COLOR_RED Color = 1\n" ∧
      lines[1]? = some "COLOR_GREEN Color = 0\n" := by
  obtain ⟨lines, table, h1, h2, h3⟩ :=
    defineEnum_constants enumRegistry enumVars 20 colorEnum rfl (by decide) (by decide)
  exact ⟨lines, table, h1, h2,
    h3 1 colorRed rfl, h3 0 colorGreen rfl⟩

set_option maxRecDepth 20000 in
/-- **C10 (as stated), refuted.** The enum `Dup` has two enumerants that both carry the
tag `x`; `defineEnum` writes `case DUP_A: return "x"`, `case DUP_B: return "x"` and
`case "x": return DUP_A`, `case "x": return DUP_B`, so that `FromString(String(DUP_B))`,
read with the first matching case, is `DUP_A`. -/
theorem fromString_toString_counterexample :
    defineEnum enumRegistry enumVars 21 =
      .ok ("type Dup uint16\n" ++ "const (\n" ++ "DUP_A Dup = 0\n" ++ "DUP_B Dup = 1\n" ++ ")\n" ++
        stringFuncsText "Dup" [("DUP_A", "x"), ("DUP_B", "x")]) ∧
    (enumVals 21 dupEnum.enum.enumerants).toOption.map
      (fun ev => (enumTable "Dup" ev,
        lookupFromString (enumTable "Dup" ev) (lookupString (enumTable "Dup" ev) "DUP_B"))) =
      some ([("DUP_A", "x"), ("DUP_B", "x")], "DUP_A") := by
  refine ⟨by decide, by decide⟩

/-- **C10 (amended).** When `defineEnum` returns for an enum with at least one
enumerant, the text it wrote is the constant block followed by the `String` and
`FromString` functions of the table of (constant, tag) cases of its entries with a
non-empty tag; and if the tags of that table are pairwise distinct, then for every entry
`e` with a non-empty tag `FromString(String(e's constant))`, each switch read as a
first-matching-case lookup, is `e`'s constant. -/
theorem fromString_toString (g : Registry) (st : Vars) (nid : Nat) (n : Node) (out : String)
    (hn : g.get nid = some n) (hne : 0 < n.enum.enumerants.length)
    (h : defineEnum g st nid = .ok out) :
    ∃ ev, enumVals nid n.enum.enumerants = .ok ev ∧
      out = docLines n.annotations "" ++ ("type " ++ (st nid).name ++ " uint16\n") ++ "const (\n" ++
        concatStrings (ev.map (constLine (st nid).name)) ++ ")\n" ++
        stringFuncsText (st nid).name (enumTable (st nid).name ev) ∧
      (((enumTable (st nid).name ev).map Prod.snd).Nodup →
        ∀ e ∈ ev, e.tag ≠ "" →
          lookupFromString (enumTable (st nid).name ev)
            (lookupString (enumTable (st nid).name ev) (constName (st nid).name e)) =
          constName (st nid).name e) := by
  obtain ⟨ev, hev, hp⟩ := enumVals_parent_of_ok g st nid n out hn hne h
  refine ⟨ev, hev, ?_, ?_⟩
  · have := defineEnum_of_vals g st nid n ev hn hne hev hp
    rw [h] at this
    exact Except.ok.inj this
  · intro hnd e he ht
    have hmem : (constName (st nid).name e, e.tag) ∈ enumTable (st nid).name ev := by
      unfold enumTable
      exact List.mem_map.2 ⟨e, List.mem_filter.2 ⟨he, by simpa using ht⟩, rfl⟩
    exact lookup_roundtrip _ hnd _ hmem

set_option maxRecDepth 20000 in
/-- Witness of C10 (amended) on the enum `Color`, whose tags `r` and `green` differ: the
round trip of `COLOR_RED`. -/
theorem fromString_toString_witness :
    ∃ ev, enumVals 20 colorEnum.enum.enumerants = .ok ev ∧
      lookupString (enumTable "Color" ev) "COLOR_RED" = "r" ∧
      lookupFromString (enumTable "Color" ev) (lookupString (enumTable "Color" ev) "COLOR_RED") =
        "COLOR_RED" := by
  have hout : defineEnum enumRegistry enumVars 20 =
      .ok ("type Color uint16\n" ++ "const (\n" ++
        concatStrings ["COLOR_RED Color = 1\n", "COLOR_GREEN Color = 0\n", "COLOR_BLUE Color = 2\n"] ++
        ")\n" ++ stringFuncsText "Color" [("COLOR_RED", "r"), ("COLOR_GREEN", "green")]) := by
    decide
  obtain ⟨ev, hev, _, hround⟩ :=
    fromString_toString enumRegistry enumVars 20 colorEnum _ rfl (by decide) hout
  have hval : enumVals 20 colorEnum.enum.enumerants =
      .ok [enumvalOf 20 1 colorRed, enumvalOf 20 0 colorGreen, enumvalOf 20 2 colorBlue] := by
    decide
  have hevEq := Except.ok.inj (hev.symm.trans hval)
  subst hevEq
  exact ⟨_, hev, by decide, hround (by decide) _ (List.mem_cons_self _ _) (by decide)⟩

theorem hasAnnotation_iff (ans : List Annotation) (id : AnnotationId) :
    hasAnnotation ans id = true ↔ ∃ a ∈ ans, a.id = id := by
  simp [ hasAnnotation]

theorem processAnnotations_error_iff (codecs : List AnnotationId) (t : Type_Which)
    (ans : List Annotation) :
    (∃ e, processAnnotations codecs t ans = .error e) ↔
      ( hasAnnotation ans AnnotationId.Required = true ∧
        hasAnnotation ans AnnotationId.Ignored = true) ∨
      ( hasAnnotation ans AnnotationId.Required = true ∧
        hasAnnotation ans AnnotationId.Optional = true) ∨
      ( hasAnnotation ans AnnotationId.Optional = true ∧
        hasAnnotation ans AnnotationId.Ignored = true) := by
  unfold processAnnotations
  cases hR : hasAnnotation ans AnnotationId.Required <;>
  cases hI : hasAnnotation ans AnnotationId.Ignored <;>
  cases hO : hasAnnotation ans AnnotationId.Optional <;>
  simp <;> split <;> simp

theorem processAnnotations_nil (codecs : List AnnotationId) (t : Type_Which) :
    processAnnotations codecs t [] = .ok "" := by
  simp [processAnnotations, hasAnnotation]

/-- A field whose annotations make `processAnnotations` fail gets no output from
`defineField`, when its type is neither interface nor void. -/
theorem defineField_error_of_tags (g : Registry) (st : Vars) (nid : Nat) (f : Field)
    (imp : List String) (e : Err)
    (h : processAnnotations (st nid).codecs f.slot.type.Which f.annotations = .error e)
    (hi : f.slot.type.Which ≠ TYPE_INTERFACE) (hv : f.slot.type.Which ≠ TYPE_VOID) :
    ∃ e', defineField g st nid f imp = .error e' := by
  have hlen : f.annotations.length ≠ 0 := by
    intro h0
    have hnil : f.annotations = [] := List.length_eq_zero.1 h0
    rw [hnil, processAnnotations_nil] at h
    cases h
  unfold defineField
  simp only [if_neg hi, if_neg (fun hc : _ ∧ _ => hv hc.2), if_pos hlen, h]
  split
  · exact ⟨_, rfl⟩
  · exact ⟨_, rfl⟩

theorem processAnnotationsOn_eq (codecs : List AnnotationId) (t : Type_Which)
    (ans : List Annotation) (w : String) :
    processAnnotationsOn codecs t ans w =
      match processAnnotations codecs t ans with
      | .ok tags => (w ++ tags, .ok ())
      | .error e => (w, .error e) := by
  unfold processAnnotationsOn processAnnotations
  split
  · rfl
  · split
    · rfl
    · split
      · rfl
      · simp only
        split
        · rfl
        · simp

/-- The writer-following `defineField` agrees with `defineField`: a returning call has
added its output to the writer, and a panicking call has left the writer as it was. -/
theorem defineFieldOn_eq (g : Registry) (st : Vars) (nid : Nat) (f : Field)
    (imp : List String) (w : String) :
    defineFieldOn g st nid f imp w =
      match defineField g st nid f imp with
      | .ok (o, imp1) => (w ++ o, .ok imp1)
      | .error e => (w, .error e) := by
  unfold defineFieldOn defineField
  simp only
  split
  · simp
  · split
    · rfl
    · split
      · simp
      · split
        · rfl
        · next ty imp2 hty =>
          by_cases hl : f.annotations.length ≠ 0
          · simp only [if_pos hl, processAnnotationsOn_eq]
            cases processAnnotations (st nid).codecs f.slot.type.Which f.annotations with
            | error e => rfl
            | ok tags => simp only [String.append_assoc]
          · simp only [if_neg hl, String.append_assoc, String.append_empty]

/-- **C16.** `processAnnotations` fails exactly when the annotation list holds at least
two of the three presence annotations Required, Optional, Ignored.  When it fails for the
annotations of a field (of a type other than interface and void, the types for which
`defineField` calls it), `defineField` fails too, and the writer holds at the panic what it
held when `defineField` was called: a failing `defineField` has written nothing.  In the
struct with the field `x` ahead of the text field annotated both Required and Ignored,
the writer holds the member line of `x` and nothing of the text field when the call
panics with the message of the first check. -/
theorem processAnnotations_conflict (codecs : List AnnotationId) (t : Type_Which)
    (ans : List Annotation) :
    ((∃ e, processAnnotations codecs t ans = .error e) ↔
      ((∃ a ∈ ans, a.id = AnnotationId.Required) ∧ (∃ a ∈ ans, a.id = AnnotationId.Ignored)) ∨
      ((∃ a ∈ ans, a.id = AnnotationId.Required) ∧ (∃ a ∈ ans, a.id = AnnotationId.Optional)) ∨
      ((∃ a ∈ ans, a.id = AnnotationId.Optional) ∧ (∃ a ∈ ans, a.id = AnnotationId.Ignored))) ∧
    (∀ (g : Registry) (st : Vars) (nid : Nat) (f : Field) (imp : List String) (e : Err),
      processAnnotations (st nid).codecs f.slot.type.Which f.annotations = .error e →
      f.slot.type.Which ≠ TYPE_INTERFACE → f.slot.type.Which ≠ TYPE_VOID →
      ∃ e', defineField g st nid f imp = .error e') ∧
    (∀ (g : Registry) (st : Vars) (nid : Nat) (f : Field) (imp : List String) (w : String)
      (e : Err), (defineFieldOn g st nid f imp w).2 = .error e →
      (defineFieldOn g st nid f imp w).1 = w) ∧
    (∀ (g : Registry) (st : Vars) (nid : Nat) (f : Field) (imp : List String) (w : String)
      (e : Err),
      processAnnotations (st nid).codecs f.slot.type.Which f.annotations = .error e →
      f.slot.type.Which ≠ TYPE_INTERFACE → f.slot.type.Which ≠ TYPE_VOID →
      ∃ e', defineFieldOn g st nid f imp w = (w, .error e')) ∧
    defineField pointRegistry pointVars 7 conflictField [] =
      .error (Err.panic "Field annnotations 'required' and 'ignored' are incompatible.") ∧
    defineStructFieldsOn [conflictStruct] pointVars 1 16 [] "type T struct \x7b\n" =
      ("type T struct \x7b\n" ++ "X int32\n",
        .error (Err.panic "Field annnotations 'required' and 'ignored' are incompatible.")) := by
  refine ⟨?_, ?_, ?_, ?_, by decide, by decide⟩
  · rw [processAnnotations_error_iff]
    simp only [hasAnnotation_iff]
  · intro g st nid f imp e h hi hv
    exact defineField_error_of_tags g st nid f imp e h hi hv
  · intro g st nid f imp w e h
    rw [defineFieldOn_eq] at h ⊢
    cases hd : defineField g st nid f imp with
    | error e' => rfl
    | ok r => rw [hd] at h; cases h
  · intro g st nid f imp w e h hi hv
    obtain ⟨e', he'⟩ := defineField_error_of_tags g st nid f imp e h hi hv
    exact ⟨e', by rw [defineFieldOn_eq, he']⟩

/-- Witness of C16: the annotations of the conflicting text field make
`processAnnotations` fail, and with it `defineField`, which leaves the writer as it
was. -/
theorem processAnnotations_conflict_witness :
    (∃ e, processAnnotations [] TYPE_TEXT conflictField.annotations = .error e) ∧
    (∃ e', defineField pointRegistry pointVars 7 conflictField [] = .error e') ∧
    ∃ e', defineFieldOn pointRegistry pointVars 7 conflictField [] "type T struct \x7b\n" =
      ("type T struct \x7b\n", .error e') := by
  have h := processAnnotations_conflict [] TYPE_TEXT conflictField.annotations
  have h1 : ∃ e, processAnnotations [] TYPE_TEXT conflictField.annotations = .error e :=
    h.1.2 (Or.inl ⟨⟨_, List.mem_cons_self _ _, rfl⟩,
      ⟨_, List.mem_cons_of_mem _ (List.mem_cons_self _ _), rfl⟩⟩)
  obtain ⟨e, he⟩ := h1
  exact ⟨⟨e, he⟩, h.2.1 pointRegistry pointVars 7 conflictField [] e he (by decide) (by decide),
    h.2.2.2.1 pointRegistry pointVars 7 conflictField [] _ e he (by decide) (by decide)⟩

theorem codecTags_or_checkTags (codecs : List AnnotationId) (t : Type_Which) (a : Annotation) :
    codecTags codecs a = [] ∨ checkTags t a = [] := by
  obtain ⟨id, v⟩ := a
  cases id
  case Required => right; cases t <;> rfl
  case Optional => right; cases t <;> rfl
  case Ignored => right; cases t <;> rfl
  all_goals left; rfl

theorem codecTags_congr (codecs codecs' : List AnnotationId)
    (h : ∀ c, c ∈ codecs ↔ c ∈ codecs') (a : Annotation) :
    codecTags codecs a = codecTags codecs' a := by
  unfold codecTags
  simp only [h]

theorem processAnnotations_ok (codecs : List AnnotationId) (t : Type_Which)
    (ans : List Annotation) (h : ¬ ∃ e, processAnnotations codecs t ans = .error e) :
    processAnnotations codecs t ans =
      .ok (if (collectTags codecs t ans).length ≠ 0 then
        "`" ++ joinStrings " " (collectTags codecs t ans) ++ "`" else "") := by
  rw [processAnnotations_error_iff] at h
  unfold processAnnotations collectTags
  cases hR : hasAnnotation ans AnnotationId.Required <;>
  cases hI : hasAnnotation ans AnnotationId.Ignored <;>
  cases hO : hasAnnotation ans AnnotationId.Optional <;>
  simp [hR, hI, hO] at h ⊢ <;> split <;> simp_all

/-- **C19 (as stated), refuted.** On an int32 field of a node with the JSON codec, the
annotation list holding a maximum and then Required gives the tag string
`max:"5" json:"x"`: the validation tag stands before the codec tag. -/
theorem processAnnotations_order_counterexample :
    processAnnotations [AnnotationId.Json] TYPE_INT32 maxThenRequired =
      .ok "`max:\"5\" json:\"x\"`" := by
  decide

/-- **C19 (amended).** When it does not fail, `processAnnotations` writes nothing if no
annotation yields a tag, and else the tags joined by blanks between two backquotes, the
tags standing in the order of the annotation list: for each annotation its codec tags
(json before msg), then its validation tags, of which one annotation has at most one
kind.  So every codec tag stands before every validation tag when the list is a run of
annotations without validation tags followed by a run without codec tags.  The string
depends on the codec set through membership only, and on nothing but the annotation
list, the field type and the codec set. -/
theorem processAnnotations_tag_order (codecs : List AnnotationId) (t : Type_Which)
    (ans : List Annotation) :
    ((¬ ∃ e, processAnnotations codecs t ans = .error e) →
      processAnnotations codecs t ans =
        .ok (if (collectTags codecs t ans).length ≠ 0 then
          "`" ++ joinStrings " " (collectTags codecs t ans) ++ "`" else "")) ∧
    (∀ a, codecTags codecs a = [] ∨ checkTags t a = []) ∧
    (∀ l1 l2, ans = l1 ++ l2 → (∀ a ∈ l1, checkTags t a = []) →
      (∀ a ∈ l2, codecTags codecs a = []) →
      collectTags codecs t ans = l1.flatMap (codecTags codecs) ++ l2.flatMap (checkTags t)) ∧
    (∀ codecs', (∀ c, c ∈ codecs ↔ c ∈ codecs') →
      processAnnotations codecs t ans = processAnnotations codecs' t ans) := by
  refine ⟨processAnnotations_ok codecs t ans, codecTags_or_checkTags codecs t, ?_, ?_⟩
  · intro l1 l2 hans h1 h2
    subst hans
    unfold collectTags
    rw [List.flatMap_append]
    congr 1
    · apply List.flatMap_congr
      intro a ha
      rw [h1 a ha, List.append_nil]
    · apply List.flatMap_congr
      intro a ha
      rw [h2 a ha, List.nil_append]
  · intro codecs' hc
    unfold processAnnotations
    have : (fun a => codecTags codecs a ++ checkTags t a) =
        (fun a => codecTags codecs' a ++ checkTags t a) := by
      funext a
      rw [codecTags_congr codecs codecs' hc a]
    rw [this]

/-- Witness of C19 (amended): with Required before the maximum the codec tag comes
first. -/
theorem processAnnotations_tag_order_witness :
    processAnnotations [AnnotationId.Json] TYPE_INT32 requiredThenMax =
      .ok "`json:\"x\" max:\"5\"`" ∧
    collectTags [AnnotationId.Json] TYPE_INT32 requiredThenMax = ["json:\"x\"", "max:\"5\""] := by
  have h := processAnnotations_tag_order [AnnotationId.Json] TYPE_INT32 requiredThenMax
  have h3 := h.2.2.1 [⟨AnnotationId.Required, Value.text "x"⟩] [⟨AnnotationId.Max, Value.int64 5⟩]
    rfl (by decide) (by decide)
  have hno : ¬ ∃ e, processAnnotations [AnnotationId.Json] TYPE_INT32 requiredThenMax = .error e := by
    rw [processAnnotations_error_iff]
    decide
  exact ⟨(h.1 hno).trans (by decide), h3.trans (by decide)⟩

theorem resolveNested_filter (g : Registry)
    (rec : Nat → String → String → Vars → Except Err Vars) (x : Nat) :
    ∀ (l : List NestedNode) (st : Vars),
      resolveNested g rec x l st =
        resolveNested g rec x (l.filter (fun nn => (g.get nn.id).isSome)) st := by
  intro l
  induction l with
  | nil => intro st; rfl
  | cons a rest ih =>
    intro st
    cases hg : g.get a.id with
    | none =>
      simp only [resolveNested, hg, List.filter, Option.isSome_none]
      exact ih st
    | some n =>
      simp only [resolveNested, hg, List.filter, Option.isSome_some]
      cases rec a.id (st x).name a.name st with
      | error e => rfl
      | ok s1 => exact ih s1

theorem resolveFileNested_filter (g : Registry) (file fuel : Nat) :
    ∀ (l : List NestedNode) (st : Vars),
      resolveFileNested g file fuel l st =
        resolveFileNested g file fuel (l.filter (fun nn => (g.get nn.id).isSome)) st := by
  intro l
  induction l with
  | nil => intro st; rfl
  | cons a rest ih =>
    intro st
    cases hg : g.get a.id with
    | none =>
      simp only [resolveFileNested, hg, List.filter, Option.isSome_none]
      exact ih st
    | some n =>
      simp only [resolveFileNested, hg, List.filter, Option.isSome_some]
      cases resolveName g file fuel a.id "" a.name st with
      | error e => rfl
      | ok s1 => exact ih s1

theorem resolveName_group_registered (g : Registry) (file fuel nid : Nat) (b nm : String)
    (st st' : Vars) (n : Node) (hn : g.get nid = some n) (hs : n.which = NODE_STRUCT)
    (h : resolveName g file fuel nid b nm st = .ok st') :
    ∀ f ∈ n.struct.fields, f.which = FIELD_GROUP → (g.get f.group.typeId).isSome = true := by
  cases fuel with
  | zero => simp [resolveName] at h
  | succ k =>
    simp only [resolveName, hn] at h
    split at h
    · cases h
    · rw [if_pos hs] at h
      intro f hf hw
      exact (resolveGroups_ok_child g _ nid _ _ _ h f hf hw).1

/-- **C15 (as stated), refuted.** The nested-node list of the example file names the ID 9,
which is absent from the registry; the per-file resolution loop returns all the same,
having resolved the struct 2 and put 2 and 3 on the emission list. -/
theorem resolveFileNested_skips_counterexample :
    exampleRegistry.get 9 = none ∧
    (resolveFileNested exampleRegistry 1 9 [⟨2, "point"⟩, ⟨9, "gone"⟩] exampleVars).toOption.map
      (fun s => ((s 1).nodes, (s 2).name)) = some ([2, 3], "Pt") := by
  refine ⟨by decide, by decide⟩

/-- **C15 (amended).** `findNode(id)` returns the registered node when `id` is in the
registry and panics otherwise.  Name resolution skips every nested-node entry, of a file
or of a resolved node, whose ID is absent from the registry: it runs as on the list
without these entries.  It fails on an absent ID only for the target of a Group field,
which it looks up with `findNode`: a `resolveName` that returns has found every Group
target of its struct registered. -/
theorem missing_id_handling (g : Registry) :
    (∀ id n, g.get id = some n → findNode g id = .ok n) ∧
    (∀ id, g.get id = none → findNode g id = .error (Err.panic "could not find node")) ∧
    (∀ file fuel l st, resolveFileNested g file fuel l st =
      resolveFileNested g file fuel (l.filter (fun nn => (g.get nn.id).isSome)) st) ∧
    (∀ rec x l st, resolveNested g rec x l st =
      resolveNested g rec x (l.filter (fun nn => (g.get nn.id).isSome)) st) ∧
    (∀ rec x f rest st, f.which = FIELD_GROUP → g.get f.group.typeId = none →
      resolveGroups g rec x (f :: rest) st = .error (Err.panic "could not find node")) ∧
    (∀ file fuel nid b nm st st' n, g.get nid = some n → n.which = NODE_STRUCT →
      resolveName g file fuel nid b nm st = .ok st' →
      ∀ f ∈ n.struct.fields, f.which = FIELD_GROUP → (g.get f.group.typeId).isSome = true) := by
  refine ⟨fun id n h => findNode_of_get g id n h, ?_, resolveFileNested_filter g,
    resolveNested_filter g, ?_, ?_⟩
  · intro id h
    simp [findNode, h]
  · intro rec x f rest st hw hg
    simp [resolveGroups, hw, findNode, hg]
  · intro file fuel nid b nm st st' n hn hs h
    exact resolveName_group_registered g file fuel nid b nm st st' n hn hs h

/-- Witness of C15 (amended) on the example registry: `findNode` finds 2 and not 9, and
the resolution of the struct 2 has found its two group targets. -/
theorem missing_id_handling_witness :
    findNode exampleRegistry 2 = .ok examplePoint ∧
    findNode exampleRegistry 9 = .error (Err.panic "could not find node") ∧
    (exampleRegistry.get 4).isSome = true ∧ (exampleRegistry.get 5).isSome = true := by
  have h := missing_id_handling exampleRegistry
  have hok : ∃ st', resolveName exampleRegistry 1 9 2 "" "point" exampleVars = .ok st' :=
    resolveName_returns exampleRegistry 1 (fun i => 10 - i) (by decide) 9 2 (by decide)
      (by decide) "" "point" exampleVars
  obtain ⟨st', hst⟩ := hok
  have hg := h.2.2.2.2.2 1 9 2 "" "point" exampleVars st' examplePoint rfl rfl hst
  exact ⟨h.1 2 examplePoint rfl, h.2.1 9 rfl, hg exampleFieldU (by decide) rfl,
    hg exampleFieldV (by decide) rfl⟩

theorem effectiveName_of_override (anns : List Annotation) (r1 r2 : String)
    (h : nameAnnotation anns ≠ "") : effectiveName anns r1 = effectiveName anns r2 := by
  rw [← effectiveName_eq, ← effectiveName_eq, if_pos h, if_pos h]

/-- **C17 (as stated), refuted.** The example enum 3 resolved as (``""``, `kind`) gets the
name `Kind`; resolved again as (`Zed`, `other`) it gets the name `ZedOther`. -/
theorem resolveName_twice_counterexample :
    ((resolveName exampleRegistry 1 2 3 "" "kind" exampleVars).bind (fun s1 =>
      (resolveName exampleRegistry 1 2 3 "Zed" "other" s1).map (fun s2 =>
        ((s1 3).name, (s2 3).name)))).toOption = some ("Kind", "ZedOther") := by
  decide

/-- **C17 (amended).** `resolveName` does not memoize: after two successive resolutions
`resolveName(b1, r1, file)` and `resolveName(b2, r2, file)` of a node, its name is the one
the second resolution builds, `b2 + Title(eff2)` (`Title(eff2)` for an empty `b2`), with
`eff2` the node's name override when it has a non-empty one and `r2` otherwise.  It is the
name the first resolution assigned when `b1 = b2` and the effective raw names agree, as
they do when `r1 = r2` or when the node carries a non-empty name override. -/
theorem resolveName_twice (g : Registry) (file nid : Nat) (n : Node) (b1 r1 b2 r2 : String)
    (st st1 st2 : Vars) (k1 k2 : Nat) (hn : g.get nid = some n)
    (h1 : resolveName g file k1 nid b1 r1 st = .ok st1)
    (h2 : resolveName g file k2 nid b2 r2 st1 = .ok st2) :
    (st1 nid).name = targetName b1 (effectiveName n.annotations r1) ∧
    (st2 nid).name = targetName b2 (effectiveName n.annotations r2) ∧
    (b1 = b2 → effectiveName n.annotations r1 = effectiveName n.annotations r2 →
      (st2 nid).name = (st1 nid).name) ∧
    ( nameAnnotation n.annotations ≠ "" →
      effectiveName n.annotations r1 = effectiveName n.annotations r2) := by
  have e1 := (resolveName_own_result g file nid b1 r1 st st1 n hn k1 h1).1
  have e2 := (resolveName_own_result g file nid b2 r2 st1 st2 n hn k2 h2).1
  refine ⟨e1, e2, ?_, effectiveName_of_override n.annotations r1 r2⟩
  intro hb he
  rw [e1, e2, hb, he]

/-- Witness of C17 (amended): the example struct 2, which carries the name override `pt`,
resolved twice under the same prefix with different declared names keeps the name `Pt`. -/
theorem resolveName_twice_witness :
    ∃ st1 st2, resolveName exampleRegistry 1 9 2 "" "point" exampleVars = .ok st1 ∧
      resolveName exampleRegistry 1 9 2 "" "other" st1 = .ok st2 ∧
      (st1 2).name = "Pt" ∧ (st2 2).name = (st1 2).name := by
  obtain ⟨st1, h1⟩ := resolveName_returns exampleRegistry 1 (fun i => 10 - i) (by decide) 9 2
    (by decide) (by decide) "" "point" exampleVars
  obtain ⟨st2, h2⟩ := resolveName_returns exampleRegistry 1 (fun i => 10 - i) (by decide) 9 2
    (by decide) (by decide) "" "other" st1
  have h := resolveName_twice exampleRegistry 1 2 examplePoint "" "point" "" "other"
    exampleVars st1 st2 9 9 rfl h1 h2
  exact ⟨st1, st2, h1, h2, h.1.trans (by decide), h.2.2.1 rfl (h.2.2.2 (by decide))⟩

theorem filter_flatMap {α β : Type} (p : β → Bool) (f : α → List β) :
    ∀ (l : List α), (l.flatMap f).filter p = l.flatMap (fun a => (f a).filter p) := by
  intro l
  induction l with
  | nil => rfl
  | cons a rest ih => simp only [List.flatMap_cons, List.filter_append, ih]

theorem resolveOwn_nodes_file (n : Node) (file x : Nat) (b nm : String) (st : Vars) :
    (resolveOwn n file x b nm st file).nodes =
      (st file).nodes ++ (if n.which ≠ NODE_STRUCT ∨ ¬ n.struct.isGroup = true then [x] else []) := by
  unfold resolveOwn
  by_cases hf : file = x
  · subst hf; split <;> simp [Function.update]
  · split <;> simp [Function.update, hf, Ne.symm hf]

theorem walkEntries_nodes (rec : Nat → String → String → Vars → Except Err Vars)
    (file x : Nat) (F : Nat → List Nat) :
    ∀ (l : List (Nat × String)) (st st' : Vars),
      (∀ e ∈ l, ∀ b nm s s', rec e.1 b nm s = .ok s' → (s' file).nodes = (s file).nodes ++ F e.1) →
      walkEntries rec x l st = .ok st' →
      (st' file).nodes = (st file).nodes ++ l.flatMap (fun e => F e.1) := by
  intro l
  induction l with
  | nil =>
    intro st st' _ h
    simp only [walkEntries, Except.ok.injEq] at h
    simp [h]
  | cons e rest ih =>
    intro st st' hrec h
    simp only [walkEntries] at h
    cases hr : rec e.1 (st x).name e.2 st with
    | error err => rw [hr] at h; cases h
    | ok s1 =>
      rw [hr] at h
      rw [ih s1 st' (fun e' he' => hrec e' (List.mem_cons_of_mem _ he')) h,
        hrec e (List.mem_cons_self _ _) _ _ _ _ hr]
      simp [List.append_assoc]

/-- What a returning `resolveName` appends to the file's emission list: its visits that
are not group structs, in visiting order. -/
theorem resolveName_nodes (g : Registry) (file : Nat) :
    ∀ (k x : Nat) (b nm : String) (st st' : Vars),
      resolveName g file k x b nm st = .ok st' →
      (st' file).nodes =
        (st file).nodes ++ (visits g k x).filter (fun y => !isGroupStruct g y) := by
  intro k
  induction k with
  | zero => intro x b nm st st' h; simp [resolveName] at h
  | succ k ih =>
    intro x b nm st st' h
    obtain ⟨n, hn⟩ := resolveName_ok_get g file (k + 1) x b nm st st' h
    have hwalk := resolveName_succ_walk g file k x b nm st st' n hn h
    rw [walkEntries_nodes (resolveName g file k) file x
      (fun c => (visits g k c).filter (fun y => !isGroupStruct g y)) (entries g n) _ st'
      (fun e _ b' nm' s s' hs => ih e.1 b' nm' s s' hs) hwalk]
    rw [resolveOwn_nodes_file, List.append_assoc]
    congr 1
    simp only [visits, hn, List.filter_cons, filter_flatMap]
    have hgx : isGroupStruct g x = (decide (n.which = NODE_STRUCT) && n.struct.isGroup) := by
      simp [isGroupStruct, hn]
    rw [hgx]
    by_cases hs : n.which = NODE_STRUCT <;> cases hgr : n.struct.isGroup <;> simp [hs, hgr]

theorem resolveFileNested_nodes (g : Registry) (file fuel : Nat) :
    ∀ (l : List NestedNode) (st st' : Vars), resolveFileNested g file fuel l st = .ok st' →
      (st' file).nodes =
        (st file).nodes ++ (visitsFile g fuel l).filter (fun y => !isGroupStruct g y) := by
  intro l
  induction l with
  | nil =>
    intro st st' h
    simp only [resolveFileNested, Except.ok.injEq] at h
    simp [h, visitsFile]
  | cons a rest ih =>
    intro st st' h
    simp only [resolveFileNested] at h
    cases hg : g.get a.id with
    | none =>
      rw [hg] at h
      rw [ih st st' h]
      simp [visitsFile, List.filter, hg]
    | some n =>
      rw [hg] at h
      simp only at h
      cases hr : resolveName g file fuel a.id "" a.name st with
      | error e => rw [hr] at h; cases h
      | ok s1 =>
        rw [hr] at h
        rw [ih s1 st' h, resolveName_nodes g file fuel a.id "" a.name st s1 hr]
        simp [visitsFile, List.filter, hg, List.append_assoc]

theorem resolveFileNested_returns (g : Registry) (file fuel : Nat) (rank : Nat → Nat)
    (hrank : ∀ n ∈ g, ∀ c ∈ childIds g n.id, rank c < rank n.id ∧ (g.get c).isSome = true) :
    ∀ (l : List NestedNode) (st : Vars), (∀ nn ∈ l, rank nn.id < fuel) →
      ∃ st', resolveFileNested g file fuel l st = .ok st' := by
  intro l
  induction l with
  | nil => intro st _; exact ⟨st, rfl⟩
  | cons a rest ih =>
    intro st hl
    simp only [resolveFileNested]
    have hrest := fun nn hnn => hl nn (List.mem_cons_of_mem _ hnn)
    cases hg : g.get a.id with
    | none => exact ih st hrest
    | some n =>
      obtain ⟨s1, hs1⟩ := resolveName_returns g file rank hrank fuel a.id
        (hl a (List.mem_cons_self _ _)) (by simp [hg]) "" a.name st
      simp only [hs1]
      exact ih s1 hrest

theorem firstVisitOrder_of_nodup : ∀ (l : List Nat), l.Nodup → firstVisitOrder l = l := by
  intro l
  induction l with
  | nil => intro _; rfl
  | cons x rest ih =>
    intro h
    rw [List.nodup_cons] at h
    simp only [firstVisitOrder, ih h.2]
    congr 1
    rw [List.filter_eq_self]
    intro y hy
    have : y ≠ x := fun e => h.1 (e ▸ hy)
    simp [this]

/-- **C18 (as stated), refuted.** In the registry where struct 41 lists its group 42 both
as a nested node and as a Group field, the enum 43 nested in the group is visited twice
and stands twice in the emission list of the file, while the order of first visits holds
it once. -/
theorem emission_first_visit_counterexample :
    (resolveFileNested twiceRegistry 40 5 [⟨41, "outer"⟩] twiceVars).toOption.map
        (fun s => (s 40).nodes) = some [41, 43, 43] ∧
    (firstVisitOrder (visitsFile twiceRegistry 5 [⟨41, "outer"⟩])).filter
        (fun y => !isGroupStruct twiceRegistry y) = [41, 43] := by
  decide

/-- **C18 (amended).** After a file's nested nodes have been resolved, the file's
emission list is what it held before followed by the sequence of all visits of
`resolveName`, one entry per visit (a node, then each of its registered nested nodes with
that nested node's whole subtree in nested-list order, then its Group-field targets in
field order), with every group struct removed: what was added holds no group struct, and
holds each visited non-group node; it is the order of first visits when no node is visited
twice.  The resolution returns whenever a rank drops along every edge of the walk, every
edge target is registered and the fuel is above the rank of the listed nodes. -/
theorem resolveFileNested_emission (g : Registry) (file fuel : Nat) (l : List NestedNode)
    (st : Vars) :
    (∀ st', resolveFileNested g file fuel l st = .ok st' →
      (st' file).nodes =
        (st file).nodes ++ (visitsFile g fuel l).filter (fun y => !isGroupStruct g y) ∧
      (∀ y ∈ (st' file).nodes, y ∈ (st file).nodes ∨
        (y ∈ visitsFile g fuel l ∧ isGroupStruct g y = false)) ∧
      (∀ y ∈ visitsFile g fuel l, isGroupStruct g y = false → y ∈ (st' file).nodes) ∧
      ((visitsFile g fuel l).Nodup →
        (st' file).nodes = (st file).nodes ++
          (firstVisitOrder (visitsFile g fuel l)).filter (fun y => !isGroupStruct g y))) ∧
    (∀ rank : Nat → Nat,
      (∀ m ∈ g, ∀ c ∈ childIds g m.id, rank c < rank m.id ∧ (g.get c).isSome = true) →
      (∀ nn ∈ l, rank nn.id < fuel) →
      ∃ st', resolveFileNested g file fuel l st = .ok st') := by
  refine ⟨?_, ?_⟩
  · intro st' h
    have e := resolveFileNested_nodes g file fuel l st st' h
    refine ⟨e, ?_, ?_, ?_⟩
    · intro y hy
      rw [e, List.mem_append, List.mem_filter] at hy
      rcases hy with hy | ⟨hy, hg⟩
      · exact Or.inl hy
      · exact Or.inr ⟨hy, by simpa using hg⟩
    · intro y hy hg
      rw [e, List.mem_append, List.mem_filter]
      exact Or.inr ⟨hy, by simp [hg]⟩
    · intro hnd
      rw [firstVisitOrder_of_nodup _ hnd]
      exact e
  · intro rank hrank hl
    exact resolveFileNested_returns g file fuel rank hrank l st hl

/-- Witness of C18 (amended) on the example registry: resolving the nested nodes of file 1
(the struct 2 and the unregistered 9) returns and leaves the emission list `[2, 3]`: the
struct and its enum, without the two group structs 4 and 5. -/
theorem resolveFileNested_emission_witness :
    ∃ st', resolveFileNested exampleRegistry 1 9 [⟨2, "point"⟩, ⟨9, "gone"⟩] exampleVars
        = .ok st' ∧ (st' 1).nodes = [2, 3] := by
  have h := resolveFileNested_emission exampleRegistry 1 9 [⟨2, "point"⟩, ⟨9, "gone"⟩]
    exampleVars
  obtain ⟨st', hs⟩ := h.2 (fun i => 10 - i) (by decide) (by decide)
  exact ⟨st', hs, ((h.1 st' hs).2.2.2 (by decide)).trans (by decide)⟩

/-- **C20, on the failing input.** In the file 30, whose struct 31 has the group 32 as a
Group field, `enableCodec(file, Json)` returns with the codec enabled on the file and on
the struct and not on the group, which name resolution from the same file does reach; the
struct definition then carries the json tag on the field of the struct and none on the
field of the group. -/
theorem enableCodec_skips_groups :
    (enableCodec holderRegistry AnnotationId.Json 3 30 holderVars).toOption.map
        (fun s => ((s 30).codecs, (s 31).codecs, (s 32).codecs)) =
      some ([AnnotationId.Json], [AnnotationId.Json], []) ∧
    visitsFile holderRegistry 3 holderFile.nestedNodes = [31, 32] ∧
    ((enableCodec holderRegistry AnnotationId.Json 3 30 holderVars).bind (fun s =>
        (defineStructFields holderRegistry s 3 31 []).map (fun r => r.1))).toOption =
      some "Id int32`json:\"id\"`\nPos struct \x7b\nX int32\n\x7d\n" ∧
    processAnnotations [AnnotationId.Json] TYPE_INT32 [⟨AnnotationId.Required, Value.text "x"⟩] =
      .ok "`json:\"x\"`" := by
  decide

theorem constLoop_ok (g : Registry) (st : Vars) (lib : Stdlib) (isVar : Bool)
    (opening : String) :
    ∀ (l : List Nat) (any : Bool) (w : String) (imp : List String) (any1 : Bool) (w1 : String)
      (imp1 : List String),
      constLoop g st lib isVar opening l any w imp = .ok (any1, w1, imp1) →
      ∃ outs, List.Forall₂ (constNodeLine g st lib) (l.filter (isConstOf g isVar)) outs ∧
        any1 = (any || !outs.isEmpty) ∧
        w1 = (if any = true ∨ outs = [] then w else w ++ opening) ++ concatStrings outs := by
  intro l
  induction l with
  | nil =>
    intro any w imp any1 w1 imp1 h
    simp only [constLoop, Except.ok.injEq, Prod.mk.injEq] at h
    refine ⟨[], List.Forall₂.nil, ?_, ?_⟩
    · simp [h.1]
    · simp [concatStrings, h.2.1]
  | cons nid rest ih =>
    intro any w imp any1 w1 imp1 h
    simp only [constLoop] at h
    cases hg : g.get nid with
    | none => rw [hg] at h; cases h
    | some n =>
      rw [hg] at h
      simp only at h
      by_cases hc : n.which = NODE_CONST ∧ constIsVar n = isVar
      · rw [if_pos hc] at h
        have hsel : isConstOf g isVar nid = true := by
          simp [isConstOf, hg, hc.1, hc.2]
        cases hv : writeValue g st lib (st nid) n.const.type n.const.value imp with
        | error e => rw [hv] at h; cases h
        | ok r =>
          obtain ⟨out, impv⟩ := r
          rw [hv] at h
          simp only at h
          obtain ⟨outs, ho, ha, hw⟩ := ih _ _ _ _ _ _ h
          refine ⟨((st nid).name ++ " = " ++ out ++ "\n") :: outs, ?_, ?_, ?_⟩
          · rw [List.filter_cons_of_pos hsel]
            exact List.Forall₂.cons ⟨n, out, imp, impv, hg, hv, rfl⟩ ho
          · simp [ha]
          · rw [hw]
            cases any <;> simp [concatStrings, String.append_assoc]
      · rw [if_neg hc] at h
        have hsel : ¬ isConstOf g isVar nid = true := by
          simp only [isConstOf, hg, Bool.and_eq_true, decide_eq_true_eq, beq_iff_eq]
          exact hc
        rw [List.filter_cons_of_neg hsel]
        exact ih _ _ _ _ _ _ h

theorem constLoop_returns (g : Registry) (st : Vars) (lib : Stdlib) (isVar : Bool)
    (opening : String) :
    ∀ (l : List Nat),
      (∀ nid ∈ l, ∃ n, g.get nid = some n ∧ (n.which = NODE_CONST → ∀ imp0, ∃ r,
        writeValue g st lib (st nid) n.const.type n.const.value imp0 = .ok r)) →
      ∀ (any : Bool) (w : String) (imp : List String),
        ∃ r, constLoop g st lib isVar opening l any w imp = .ok r := by
  intro l
  induction l with
  | nil => intro _ any w imp; exact ⟨_, rfl⟩
  | cons nid rest ih =>
    intro h any w imp
    obtain ⟨n, hg, hv⟩ := h nid (List.mem_cons_self _ _)
    have hrest := ih (fun x hx => h x (List.mem_cons_of_mem _ hx))
    simp only [constLoop, hg]
    by_cases hc : n.which = NODE_CONST ∧ constIsVar n = isVar
    · rw [if_pos hc]
      obtain ⟨r, hr⟩ := hv hc.1 imp
      obtain ⟨out, impv⟩ := r
      rw [hr]
      exact hrest _ _ _
    · rw [if_neg hc]
      exact hrest _ _ _

theorem constBlock_eq (opening : String) (outs : List String) :
    (if (false || !outs.isEmpty) = true then
      (if false = true ∨ outs = [] then "" else "" ++ opening) ++ concatStrings outs ++ ")\n"
     else (if false = true ∨ outs = [] then "" else "" ++ opening) ++ concatStrings outs) =
      constBlock opening outs := by
  cases outs with
  | nil => simp [constBlock, concatStrings]
  | cons o rest => simp [constBlock]

/-- **C11.** `constIsVar` is false exactly for the constants of type bool, int8, uint8,
int16, uint16, int32, uint32, int64, uint64, float32, float64, text and enum.  What a
returning `defineConstNodes` writes is one `const ( ... )` block followed by one
`var ( ... )` block: the first holds one line `name = <value>` for each const node of the
input with `constIsVar` false, the second one line for each const node with `constIsVar`
true, both in input order, and a block without lines is not written; every const node of
the input is in exactly one of the two.  `defineConstNodes` returns when every listed
node is registered and `writeValue` returns for every const node. -/
theorem defineConstNodes_blocks (g : Registry) (st : Vars) (lib : Stdlib) (nodes : List Nat)
    (imp : List String) :
    (∀ n : Node, constIsVar n = false ↔
      n.const.type.Which ∈ [TYPE_BOOL, TYPE_INT8, TYPE_UINT8, TYPE_INT16, TYPE_UINT16,
        TYPE_INT32, TYPE_UINT32, TYPE_INT64, TYPE_UINT64, TYPE_FLOAT32, TYPE_FLOAT64, TYPE_TEXT,
        TYPE_ENUM]) ∧
    (∀ out imp1, defineConstNodes g st lib nodes imp = .ok (out, imp1) →
      ∃ cs vs,
        List.Forall₂ (constNodeLine g st lib) (nodes.filter (isConstOf g false)) cs ∧
        List.Forall₂ (constNodeLine g st lib) (nodes.filter (isConstOf g true)) vs ∧
        out = constBlock "const (\n" cs ++ constBlock "var (\n" vs) ∧
    (∀ nid n, g.get nid = some n → n.which = NODE_CONST →
      (isConstOf g false nid = true ↔ ¬ isConstOf g true nid = true) ∧
      (isConstOf g false nid = true ↔ constIsVar n = false)) ∧
    ((∀ nid ∈ nodes, ∃ n, g.get nid = some n ∧ (n.which = NODE_CONST → ∀ imp0, ∃ r,
        writeValue g st lib (st nid) n.const.type n.const.value imp0 = .ok r)) →
      ∃ r, defineConstNodes g st lib nodes imp = .ok r) := by
  refine ⟨?_, ?_, ?_, ?_⟩
  · intro n
    unfold constIsVar
    cases n.const.type.Which <;> simp
  · intro out imp1 h
    unfold defineConstNodes at h
    cases h1 : constLoop g st lib false "const (\n" nodes false "" imp with
    | error e => rw [h1] at h; cases h
    | ok r1 =>
      obtain ⟨a1, w1, i1⟩ := r1
      rw [h1] at h
      simp only at h
      cases h2 : constLoop g st lib true "var (\n" nodes false
          (if a1 = true then w1 ++ ")\n" else w1) i1 with
      | error e => rw [h2] at h; cases h
      | ok r2 =>
        obtain ⟨a2, w2, i2⟩ := r2
        rw [h2] at h
        simp only [Except.ok.injEq, Prod.mk.injEq] at h
        obtain ⟨cs, hcs, ha1, hw1⟩ := constLoop_ok g st lib false _ nodes _ _ _ _ _ _ h1
        obtain ⟨vs, hvs, ha2, hw2⟩ := constLoop_ok g st lib true _ nodes _ _ _ _ _ _ h2
        refine ⟨cs, vs, hcs, hvs, ?_⟩
        rw [← h.1, ha2, hw2, ha1, hw1, constBlock_eq]
        cases vs with
        | nil => simp [constBlock, concatStrings]
        | cons v rest => simp [constBlock, String.append_assoc]
  · intro nid n hg hc
    cases hv : constIsVar n <;> simp [isConstOf, hg, hc, hv]
  · intro h
    obtain ⟨r1, h1⟩ := constLoop_returns g st lib false "const (\n" nodes h false "" imp
    obtain ⟨a1, w1, i1⟩ := r1
    obtain ⟨r2, h2⟩ := constLoop_returns g st lib true "var (\n" nodes h false
      (if a1 = true then w1 ++ ")\n" else w1) i1
    obtain ⟨a2, w2, i2⟩ := r2
    exact ⟨(if a2 = true then w2 ++ ")\n" else w2, i2), by simp only [defineConstNodes, h1, h2]⟩

set_option maxRecDepth 20000 in
/-- Witness of C11: for the nodes `answer` (int32), `blob` (data), the struct `Point` and
`flag` (bool), the two int32 and bool constants stand in the `const` block and the data
constant in the `var` block. -/
theorem defineConstNodes_blocks_witness :
    defineConstNodes constRegistry constVars exampleStdlib [70, 71, 7, 72] [] =
      .ok ("const (\nAnswer = int32(42)\nFlag = true\n)\nvar (\nBlob = []byte\x7b1, 2\x7d\n)\n", []) ∧
    ∃ cs vs, List.Forall₂ (constNodeLine constRegistry constVars exampleStdlib) [70, 72] cs ∧
      List.Forall₂ (constNodeLine constRegistry constVars exampleStdlib) [71] vs ∧
      "const (\nAnswer = int32(42)\nFlag = true\n)\nvar (\nBlob = []byte\x7b1, 2\x7d\n)\n" =
        constBlock "const (\n" cs ++ constBlock "var (\n" vs := by
  have hrun : defineConstNodes constRegistry constVars exampleStdlib [70, 71, 7, 72] [] =
      .ok ("const (\nAnswer = int32(42)\nFlag = true\n)\nvar (\nBlob = []byte\x7b1, 2\x7d\n)\n", []) := by
    decide
  exact ⟨hrun, (defineConstNodes_blocks constRegistry constVars exampleStdlib [70, 71, 7, 72]
    []).2.1 _ _ hrun⟩

/-- **C12, on the failing input.** For the float64 constant 2⁻²⁴ (and the float32 constant
2⁻²⁴), whose value tag matches its type, `writeValue` emits the literal
`float64(0.000000)` (`float32(0.000000)`): the `%f` rendering keeps six decimals, so the
literal denotes zero and not the value of the constant. -/
theorem writeValue_float_literal_loses_value (g : Registry) (st : Vars) (lib : Stdlib)
    (n : node) (imp : List String) :
    writeValue g st lib n SchemaType.float64 (Value.float64 4499096027743125504) imp =
      .ok ("float64(" ++ "0.000000" ++ ")", imp) ∧
    writeValue g st lib n SchemaType.float32 (Value.float32 864026624) imp =
      .ok ("float32(" ++ "0.000000" ++ ")", imp) ∧
    floatVal 11 52 4499096027743125504 = some (1 / 16777216) ∧
    floatVal 8 23 864026624 = some (1 / 16777216) ∧
    decimalVal "0.000000" = some 0 := by
  have h64 : fmtF64 4499096027743125504 = "0.000000" := by decide
  have h32 : fmtF32 864026624 = "0.000000" := by decide
  refine ⟨?_, ?_, ?_, ?_, ?_⟩
  · simp only [writeValue, assertValue, Value.Which, Value.Float64, h64]
    rfl
  · simp only [writeValue, assertValue, Value.Which, Value.Float32, h32]
    rfl
  · simp [floatVal]
    norm_num
  · simp [floatVal]
    norm_num
  · simp [decimalVal]

theorem structFieldLiteral_ok (p : Object) (slot : FieldSlot)
    (h : slot.type.Which ∈ [TYPE_INT8, TYPE_UINT8, TYPE_INT16, TYPE_UINT16, TYPE_INT32,
      TYPE_UINT32, TYPE_FLOAT32, TYPE_INT64, TYPE_UINT64, TYPE_FLOAT64, TYPE_TEXT]) :
    ∃ body, structFieldLiteral p slot = .ok (body ++ ",") := by
  have e1 : ")," = ")" ++ "," := by decide
  have e2 : "\"," = "\"" ++ "," := by decide
  unfold structFieldLiteral
  cases hw : slot.type.Which <;> rw [hw] at h <;> simp at h <;> simp only <;>
    first
    | exact ⟨_, by rw [e1, ← String.append_assoc]⟩
    | exact ⟨_, by rw [e2, ← String.append_assoc]⟩

theorem structFieldLiteral_error (p : Object) (slot : FieldSlot)
    (h : slot.type.Which ∉ [TYPE_INT8, TYPE_UINT8, TYPE_INT16, TYPE_UINT16, TYPE_INT32,
      TYPE_UINT32, TYPE_FLOAT32, TYPE_INT64, TYPE_UINT64, TYPE_FLOAT64, TYPE_TEXT]) :
    structFieldLiteral p slot = .error (Err.panic "Unsupported value type") := by
  unfold structFieldLiteral
  cases hw : slot.type.Which <;> rw [hw] at h <;> simp at h

theorem writeStructFields_ok (p : Object) :
    ∀ (l : List Field) (w : String),
      (∀ f ∈ l, f.slot.type.Which ∈ [TYPE_INT8, TYPE_UINT8, TYPE_INT16, TYPE_UINT16,
        TYPE_INT32, TYPE_UINT32, TYPE_FLOAT32, TYPE_INT64, TYPE_UINT64, TYPE_FLOAT64,
        TYPE_TEXT]) →
      ∃ outs, List.Forall₂ (structEntry p) l outs ∧
        writeStructFields p l w = .ok (w ++ concatStrings outs) := by
  intro l
  induction l with
  | nil => intro w _; exact ⟨[], List.Forall₂.nil, by simp [writeStructFields, concatStrings]⟩
  | cons f rest ih =>
    intro w h
    obtain ⟨body, hb⟩ := structFieldLiteral_ok p f.slot (h f (List.mem_cons_self _ _))
    obtain ⟨outs, ho, hw⟩ := ih (w ++ (title f.name ++ ": ") ++ (body ++ ","))
      (fun f' hf' => h f' (List.mem_cons_of_mem _ hf'))
    refine ⟨(title f.name ++ ": " ++ (body ++ ",")) :: outs,
      List.Forall₂.cons ⟨body, hb, rfl⟩ ho, ?_⟩
    simp only [writeStructFields, hb]
    rw [hw]
    simp only [concatStrings, String.append_assoc]

theorem writeStructFields_error (p : Object) :
    ∀ (l : List Field) (w : String),
      (∃ f ∈ l, f.slot.type.Which ∉ [TYPE_INT8, TYPE_UINT8, TYPE_INT16, TYPE_UINT16,
        TYPE_INT32, TYPE_UINT32, TYPE_FLOAT32, TYPE_INT64, TYPE_UINT64, TYPE_FLOAT64,
        TYPE_TEXT]) →
      writeStructFields p l w = .error (Err.panic "Unsupported value type") := by
  intro l
  induction l with
  | nil => intro w h; obtain ⟨f, hf, _⟩ := h; cases hf
  | cons f rest ih =>
    intro w h
    simp only [writeStructFields]
    cases hl : structFieldLiteral p f.slot with
    | error e =>
      by_cases hk : f.slot.type.Which ∈ [TYPE_INT8, TYPE_UINT8, TYPE_INT16, TYPE_UINT16,
        TYPE_INT32, TYPE_UINT32, TYPE_FLOAT32, TYPE_INT64, TYPE_UINT64, TYPE_FLOAT64, TYPE_TEXT]
      · obtain ⟨body, hb⟩ := structFieldLiteral_ok p f.slot hk
        rw [hb] at hl; cases hl
      · rw [structFieldLiteral_error p f.slot hk] at hl
        cases hl; rfl
    | ok lit =>
      simp only
      apply ih
      obtain ⟨f', hf', hk⟩ := h
      rcases List.mem_cons.1 hf' with e | hm
      · subst e
        rw [structFieldLiteral_error p f'.slot hk] at hl; cases hl
      · exact ⟨f', hm, hk⟩

theorem writeValue_struct_unfold (g : Registry) (st : Vars) (lib : Stdlib) (n : node)
    (typeId : Nat) (sn : Node) (v : Value) (imp : List String) (mbrs : List Field)
    (hn : g.get typeId = some sn) (hm : codeOrderFields sn.struct.fields = .ok mbrs) :
    writeValue g st lib n (SchemaType.struct typeId) v imp =
      match writeStructFields v.Struct mbrs ((st typeId).name ++ "\x7b ") with
      | .ok w => .ok (w ++ "\x7d\n", imp)
      | .error e => .error e := by
  have hf : findNode g typeId = .ok sn := by simp [findNode, hn]
  simp only [writeValue, hf, hm, bind, Except.bind]
  cases writeStructFields v.Struct mbrs ((st typeId).name ++ "\x7b ") <;> rfl

/-- **C13 (code).** For a struct-typed value whose struct type has code orders that are a
permutation of `0..n-1`, `writeValue` walks the fields in code order.  When every field is
a slot of kind int8, uint8, int16, uint16, int32, uint32, float32, int64, uint64, float64
or text it writes the struct name and `{ `, one `Title(fieldName): <literal>,` entry per
field, and `}` with a newline.  When some field has another kind it fails with
`Unsupported value type`; bool is such a kind: the struct with the single bool field `ok`
fails. -/
theorem writeValue_struct_fields (g : Registry) (st : Vars) (lib : Stdlib) (n : node)
    (typeId : Nat) (sn : Node) (v : Value) (imp : List String)
    (hn : g.get typeId = some sn)
    (hperm : (sn.struct.fields.map (fun f => f.codeOrder)).Perm
      (List.range sn.struct.fields.length)) :
    (∃ mbrs, codeOrderFields sn.struct.fields = .ok mbrs ∧ mbrs.Perm sn.struct.fields ∧
      (∀ (i : Nat) (f : Field), mbrs[i]? = some f → f.codeOrder = i) ∧
      ((∀ f ∈ sn.struct.fields, f.slot.type.Which ∈ [TYPE_INT8, TYPE_UINT8, TYPE_INT16,
          TYPE_UINT16, TYPE_INT32, TYPE_UINT32, TYPE_FLOAT32, TYPE_INT64, TYPE_UINT64,
          TYPE_FLOAT64, TYPE_TEXT]) →
        ∃ outs, List.Forall₂ (structEntry v.Struct) mbrs outs ∧
          writeValue g st lib n (SchemaType.struct typeId) v imp =
            .ok ((st typeId).name ++ "\x7b " ++ concatStrings outs ++ "\x7d\n", imp))) ∧
    ((∃ f ∈ sn.struct.fields, f.slot.type.Which ∉ [TYPE_INT8, TYPE_UINT8, TYPE_INT16,
        TYPE_UINT16, TYPE_INT32, TYPE_UINT32, TYPE_FLOAT32, TYPE_INT64, TYPE_UINT64,
        TYPE_FLOAT64, TYPE_TEXT]) →
      writeValue g st lib n (SchemaType.struct typeId) v imp =
        .error (Err.panic "Unsupported value type")) ∧
    ((∃ f ∈ sn.struct.fields, f.slot.type.Which = TYPE_BOOL) →
      writeValue g st lib n (SchemaType.struct typeId) v imp =
        .error (Err.panic "Unsupported value type")) := by
  obtain ⟨mbrs, hm, _, hpm, _, hidx⟩ := codeOrderFields_perm sn.struct.fields hperm
  have hu := writeValue_struct_unfold g st lib n typeId sn v imp mbrs hn hm
  have herr : (∃ f ∈ sn.struct.fields, f.slot.type.Which ∉ [TYPE_INT8, TYPE_UINT8, TYPE_INT16,
      TYPE_UINT16, TYPE_INT32, TYPE_UINT32, TYPE_FLOAT32, TYPE_INT64, TYPE_UINT64,
      TYPE_FLOAT64, TYPE_TEXT]) →
      writeValue g st lib n (SchemaType.struct typeId) v imp =
        .error (Err.panic "Unsupported value type") := by
    intro h
    obtain ⟨f, hf, hk⟩ := h
    rw [hu, writeStructFields_error v.Struct mbrs _ ⟨f, hpm.mem_iff.2 hf, hk⟩]
  refine ⟨⟨mbrs, hm, hpm, hidx, ?_⟩, herr, ?_⟩
  · intro hall
    obtain ⟨outs, ho, hw⟩ := writeStructFields_ok v.Struct mbrs ((st typeId).name ++ "\x7b ")
      (fun f hf => hall f (hpm.mem_iff.1 hf))
    exact ⟨outs, ho, by rw [hu, hw]⟩
  · intro h
    obtain ⟨f, hf, hk⟩ := h
    exact herr ⟨f, hf, by rw [hk]; decide⟩

/-- C13 on the failing input: the struct type `Flag` with the single bool field `ok` and
a struct value whose data section holds the byte 1; `Point` with the two int32 fields is
rendered. -/
theorem writeValue_struct_fields_witness :
    writeValue flagRegistry flagVars exampleStdlib (flagVars 7) (SchemaType.struct 60)
      (Value.struct { data := [1, 0, 0, 0, 0, 0, 0, 0] }) [] =
        .error (Err.panic "Unsupported value type") ∧
    writeValue flagRegistry flagVars exampleStdlib (flagVars 7) (SchemaType.struct 7)
      (Value.struct { data := [5, 0, 0, 0, 0, 0, 0, 0] }) [] =
        .ok ("Point\x7b X: int32(5),Y: int32(0),\x7d\n", []) := by
  refine ⟨(writeValue_struct_fields flagRegistry flagVars exampleStdlib (flagVars 7) 60
    flagStruct (Value.struct { data := [1, 0, 0, 0, 0, 0, 0, 0] }) [] rfl (by decide)).2.2
    ⟨_, List.mem_cons_self _ _, rfl⟩, by decide⟩

theorem assertValue_error (v : Value) (tag : Value_Which) (msg : String)
    (h : v.Which ≠ tag) : assertValue v tag msg = .error (Err.panic msg) := by
  simp [assertValue, h]

theorem assertValue_bind_error {α : Type} (v : Value) (tag : Value_Which) (msg : String)
    (f : Unit → Except Err α) (h : v.Which.toNat ≠ tag.toNat) :
    (assertValue v tag msg >>= f) = .error (Err.panic msg) := by
  have : v.Which ≠ tag := fun e => h (by rw [e])
  rw [assertValue_error v tag msg this]
  rfl

/-- **C14 (as stated), refuted.** For the declared type void and a value tagged int32,
for the declared type interface and a text value, and for the declared type anyPointer
and a bool value, `writeValue` emits a literal. -/
theorem writeValue_mismatch_counterexample :
    writeValue exampleRegistry exampleVars exampleStdlib (exampleVars 2) SchemaType.void
      (Value.int32 5) [] = .ok ("struct\x7b\x7d", []) ∧
    writeValue exampleRegistry exampleVars exampleStdlib (exampleVars 2) (SchemaType.interface 0)
      (Value.text "a") [] = .ok ("struct\x7b\x7d", []) ∧
    writeValue exampleRegistry exampleVars exampleStdlib (exampleVars 2) SchemaType.anyPointer
      (Value.bool true) [] = .ok ("interface\x7b\x7d", []) := by
  refine ⟨rfl, rfl, rfl⟩

/-- **C14 (amended).** For a declared type of kind bool, int8 ... uint64, float32,
float64, text, data, enum or list and a value whose value-kind tag disagrees with it,
`writeValue` fails rather than emitting a literal.  For a declared type of kind void or
interface it emits `struct{}`, and for anyPointer `interface{}`, whatever the value is. -/
theorem writeValue_tag_mismatch (g : Registry) (st : Vars) (lib : Stdlib) (n : node)
    (t : SchemaType) (v : Value) (imp : List String) :
    (t.Which ∈ [TYPE_BOOL, TYPE_INT8, TYPE_UINT8, TYPE_INT16, TYPE_UINT16, TYPE_INT32,
        TYPE_UINT32, TYPE_INT64, TYPE_UINT64, TYPE_FLOAT32, TYPE_FLOAT64, TYPE_TEXT, TYPE_DATA,
        TYPE_ENUM, TYPE_LIST] →
      v.Which.toNat ≠ t.Which.toNat →
      ∃ msg, writeValue g st lib n t v imp = .error (Err.panic msg)) ∧
    (t.Which = TYPE_VOID ∨ t.Which = TYPE_INTERFACE →
      writeValue g st lib n t v imp = .ok ("struct\x7b\x7d", imp)) ∧
    (t.Which = TYPE_ANYPOINTER → writeValue g st lib n t v imp = .ok ("interface\x7b\x7d", imp)) := by
  refine ⟨?_, ?_, ?_⟩
  · intro ht hne
    cases t <;> simp [SchemaType.Which] at ht <;>
      exact ⟨_, assertValue_bind_error v _ _ _ hne⟩
  · intro ht
    cases t <;> simp [SchemaType.Which] at ht <;> rfl
  · intro ht
    cases t <;> simp [SchemaType.Which] at ht
    rfl

/-- Witness of C14 (amended): an int32 constant with a text value fails on the assert of
the int32 case. -/
theorem writeValue_tag_mismatch_witness :
    writeValue exampleRegistry exampleVars exampleStdlib (exampleVars 2) SchemaType.int32
      (Value.text "a") [] = .error (Err.panic "expected int32 value") := by
  obtain ⟨msg, h⟩ := (writeValue_tag_mismatch exampleRegistry exampleVars exampleStdlib
    (exampleVars 2) SchemaType.int32 (Value.text "a") []).1 (by decide) (by decide)
  rw [h]
  have h2 : writeValue exampleRegistry exampleVars exampleStdlib (exampleVars 2)
      SchemaType.int32 (Value.text "a") [] = .error (Err.panic "expected int32 value") := rfl
  rw [h] at h2
  exact h2

theorem jsonStructLoop_pieces (g : Registry) (st : Vars)
    (rec : Nat → List String → Except Err (String × List String)) (nid : Nat) :
    ∀ (l : List Field) (i : Nat) (w : String) (imp : List String) (w1 : String)
      (imp1 : List String), jsonStructLoop g st rec nid i l w imp = .ok (w1, imp1) →
      ∃ outs, w1 = w ++ concatStrings outs ∧
        List.Forall₂ (jsonMember g rec (st nid).name) (l.enumFrom i) outs := by
  intro l
  induction l with
  | nil =>
    intro i w imp w1 imp1 h
    simp only [jsonStructLoop, Except.ok.injEq, Prod.mk.injEq] at h
    exact ⟨[], by simp [concatStrings, h.1], List.Forall₂.nil⟩
  | cons f rest ih =>
    intro i w imp w1 imp1 h
    simp only [jsonStructLoop] at h
    cases hf : Field.json g rec f imp with
    | error e => rw [hf] at h; cases h
    | ok r =>
      obtain ⟨out, impf⟩ := r
      rw [hf] at h
      simp only at h
      obtain ⟨outs, hw, ho⟩ := ih _ _ _ _ _ h
      refine ⟨(memberOpening (st nid).name i f ++ keyWrite f ++ out ++ memberClosing f) :: outs,
        ?_, List.Forall₂.cons ⟨out, imp, impf, hf, rfl⟩ ho⟩
      rw [hw]
      by_cases hd : f.discriminantValue = 0xFFFF
      · by_cases hi : i = 0
        · simp [memberOpening, memberClosing, keyWrite, hd, hi, concatStrings,
            String.append_assoc]
        · simp [memberOpening, memberClosing, keyWrite, hd, hi, concatStrings,
            String.append_assoc]
      · simp [memberOpening, memberClosing, keyWrite, whichGuard, hd, concatStrings,
          String.append_assoc]

theorem jsonStruct_pieces (g : Registry) (st : Vars) (nid : Nat) (n : Node)
    (mbrs : List Field) (hn : g.get nid = some n)
    (hm : codeOrderFields n.struct.fields = .ok mbrs) (fuel : Nat) (imp : List String)
    (out : String) (imp1 : List String)
    (h : jsonStruct g st (fuel + 1) nid imp = .ok (out, imp1)) :
    ∃ outs, out = "err = b.WriteByte('\x7b');" ++ errCheck ++ concatStrings outs ++
        "err = b.WriteByte('\x7d');" ++ errCheck ∧
      List.Forall₂ (jsonMember g (jsonStruct g st fuel) (st nid).name) (mbrs.enumFrom 0) outs := by
  simp only [jsonStruct, hn, hm] at h
  cases hl : jsonStructLoop g st (jsonStruct g st fuel) nid 0 mbrs
      ("err = b.WriteByte('\x7b');" ++ errCheck) imp with
  | error e => rw [hl] at h; cases h
  | ok r =>
    obtain ⟨w, impl⟩ := r
    rw [hl] at h
    simp only [Except.ok.injEq, Prod.mk.injEq] at h
    obtain ⟨outs, hw, ho⟩ := jsonStructLoop_pieces g st _ nid mbrs 0 _ imp w impl hl
    exact ⟨outs, by rw [← h.1, hw], ho⟩

theorem Field_json_slot (g : Registry)
    (rec : Nat → List String → Except Err (String × List String)) (f : Field)
    (imp : List String) (h : f.which = FIELD_SLOT) : ∃ r, Field.json g rec f imp = .ok r := by
  unfold Field.json
  rw [h]
  simp only
  split
  · exact ⟨_, rfl⟩
  · exact ⟨_, rfl⟩

theorem whichGuard_ne_comma (name : String) (f : Field) :
    whichGuard name f ≠ commaWrite ++ errCheck := by
  intro h
  have hd := congrArg String.data h
  simp only [whichGuard, String.data_append] at hd
  have h2 : commaWrite.data = '\n' :: "\t\t\t\terr = b.WriteByte(',');\n\t\t\t".data := by decide
  rw [h2] at hd
  simp only [List.cons_append, List.cons.injEq] at hd
  exact absurd hd.1 (by decide)

theorem memberOpening_comma_iff (name : String) (i : Nat) (f : Field) :
    memberOpening name i f = commaWrite ++ errCheck ↔ (f.discriminantValue = 0xFFFF ∧ i ≠ 0) := by
  unfold memberOpening
  by_cases hd : f.discriminantValue = 0xFFFF
  · by_cases hi : i = 0
    · simp only [hd, hi, ne_eq, not_true_eq_false, if_false, and_false, iff_false]
      decide
    · simp [hd, hi]
  · simp only [ne_eq, hd, not_false_eq_true, if_true, false_and, iff_false]
    exact whichGuard_ne_comma name f

theorem Field_json_value (g : Registry) (st : Vars) (fuel : Nat) (f : Field)
    (imp imp1 : List String) (value : String)
    (h : Field.json g (jsonStruct g st fuel) f imp = .ok (value, imp1)) :
    jsonValue g st fuel f value := by
  unfold jsonValue
  unfold Field.json at h
  cases hw : f.which with
  | FIELD_SLOT =>
    rw [hw] at h
    simp only at h
    rw [if_neg (by decide)]
    by_cases hv : f.slot.type.Which = TYPE_VOID
    · rw [if_pos hv] at h ⊢
      have ht : f.slot.type = SchemaType.void := by
        cases hs : f.slot.type <;> rw [hs] at hv <;> simp [SchemaType.Which] at hv
      rw [ht] at h
      simp only [SchemaType.json, Except.ok.injEq, Prod.mk.injEq] at h
      exact h.1.symm
    · rw [if_neg hv] at h ⊢
      simp only [Except.ok.injEq, Prod.mk.injEq] at h
      rw [← h.1, SchemaType.json_fst f.slot.type imp]
  | FIELD_GROUP =>
    rw [hw] at h
    simp only at h
    rw [if_pos rfl]
    split at h
    · cases h
    · split at h
      · cases h
      · next inner impg hin =>
        simp only [Except.ok.injEq, Prod.mk.injEq] at h
        exact ⟨inner, imp, impg, hin, h.1.symm⟩

theorem jsonStructLoop_returns (g : Registry) (st : Vars)
    (rec : Nat → List String → Except Err (String × List String)) (nid : Nat) :
    ∀ (l : List Field), (∀ f ∈ l, ∀ imp, ∃ r, Field.json g rec f imp = .ok r) →
      ∀ (i : Nat) (w : String) (imp : List String),
        ∃ r, jsonStructLoop g st rec nid i l w imp = .ok r := by
  intro l
  induction l with
  | nil => intro _ i w imp; exact ⟨_, rfl⟩
  | cons f rest ih =>
    intro h i w imp
    obtain ⟨r, hr⟩ := h f (List.mem_cons_self _ _) imp
    obtain ⟨out, impf⟩ := r
    simp only [jsonStructLoop, hr]
    exact ih (fun f' hf' => h f' (List.mem_cons_of_mem _ hf')) _ _ _

/-- In a registry whose walks through Group fields come to an end, `jsonStruct` returns
with fuel above the rank of the node. -/
theorem jsonStruct_returns (g : Registry) (st : Vars) (rank : Nat → Nat)
    (hwalk : GroupWalk g rank) :
    ∀ (fuel x : Nat), rank x < fuel → (g.get x).isSome = true → ∀ imp : List String,
      ∃ r, jsonStruct g st fuel x imp = .ok r := by
  intro fuel
  induction fuel with
  | zero => intro x hx; exact absurd hx (Nat.not_lt_zero _)
  | succ k ih =>
    intro x hx hsome imp
    cases hn : g.get x with
    | none => rw [hn] at hsome; cases hsome
    | some n =>
      obtain ⟨mbrs, hm, _, hpm, _, _⟩ := codeOrderFields_perm n.struct.fields (hwalk.perm x n hn)
      have hfield : ∀ f ∈ mbrs, ∀ imp0, ∃ r, Field.json g (jsonStruct g st k) f imp0 = .ok r := by
        intro f hf imp0
        cases hw : f.which with
        | FIELD_SLOT => exact Field_json_slot g _ f imp0 hw
        | FIELD_GROUP =>
          obtain ⟨hr, gn, hgn, _⟩ := hwalk.group x n hn f (hpm.mem_iff.1 hf) hw
          obtain ⟨r, hrun⟩ := ih f.group.typeId (by omega) (by simp [hgn]) imp0
          obtain ⟨inner, impg⟩ := r
          exact ⟨("\x7b s := s." ++ title f.name ++ "();" ++ inner ++ "\x7d;", impg), by
            simp only [Field.json, hw, findNode, hgn, hrun]⟩
      obtain ⟨r, hr⟩ := jsonStructLoop_returns g st (jsonStruct g st k) x mbrs hfield 0
        ("err = b.WriteByte('\x7b');" ++ errCheck) imp
      obtain ⟨w, impl⟩ := r
      exact ⟨(w ++ "err = b.WriteByte('\x7d');" ++ errCheck, impl), by
        simp only [jsonStruct, hn, hm, hr]⟩

set_option maxRecDepth 40000 in
/-- **C22, on the failing input.** For the struct `Mixed`, with the plain member `id` at
position 0 of the code order and the union members `a`, `b` after it, `jsonStruct` writes
the three pieces with no comma write anywhere: the key and value writes of `id` are
followed at once by the discriminant blocks of `a` and `b`, so the generated serializer
writes `id` and the active union member with nothing between them.  `Type.json` of a list,
the sibling path, does write a separator between the elements. -/
theorem jsonStruct_mixed_no_comma :
    jsonStruct mixedRegistry mixedVars 1 12 [] =
      .ok ("err = b.WriteByte('\x7b');" ++ errCheck ++
        ("_, err = b.WriteString(\"\\\"id\\\":\");" ++ errCheck ++
          ("\x7b s := s.Id(); " ++ ("buf, err = json.Marshal(s);" ++ errCheck ++
            "_, err = b.Write(buf);" ++ errCheck) ++ "\x7d; ")) ++
        ("if s.Which() == MIXED_A \x7b" ++ ("_, err = b.WriteString(\"\\\"a\\\":\");" ++ errCheck) ++
          ("_ = s;" ++ "_, err = b.WriteString(\"null\");" ++ errCheck) ++ "\x7d;") ++
        ("if s.Which() == MIXED_B \x7b" ++ ("_, err = b.WriteString(\"\\\"b\\\":\");" ++ errCheck) ++
          ("\x7b s := s.B(); " ++ ("buf, err = json.Marshal(s);" ++ errCheck ++
            "_, err = b.Write(buf);" ++ errCheck) ++ "\x7d; ") ++ "\x7d;") ++
        "err = b.WriteByte('\x7d');" ++ errCheck, ["encoding/json"]) ∧
    (SchemaType.list SchemaType.uint8).json [] =
      ("\x7b err = b.WriteByte('[');" ++ errCheck ++ "for i, s := range s.ToArray() \x7b" ++
        "if i != 0 \x7b _, err = b.WriteString(\", \"); \x7d;" ++ errCheck ++
        ("buf, err = json.Marshal(s);" ++ errCheck ++ "_, err = b.Write(buf);" ++ errCheck) ++
        "\x7d; err = b.WriteByte(']'); \x7d;" ++ errCheck, ["encoding/json"]) := by
  refine ⟨by decide, by decide⟩

set_option maxRecDepth 40000 in
/-- **C23.** In a registry whose walks through Group fields come to an end (code orders a
permutation of `0..n-1` in every node, every Group target a registered struct of lower
rank), `jsonStruct` returns for every registered struct, with fuel above its rank, and
what it writes is the write of the opening brace, one piece per member in code order, and
the write of the closing brace.  The piece of a union member (discriminant not 0xFFFF) is
`if s.Which() == UPPER(structName)_UPPER(fieldName) {`, its key write, its value write and
`};`; the piece of another member is its key write and its value write, after the comma
write or nothing, with no such block.  The value write of a group is the block around what
`jsonStruct` writes for the group node.  For the struct with the 2-member union
`{a: void, b: uint8}`, the branch of `a` holds its key write and the write of the literal
`null`, and the value write of `b` stands inside the branch of `b`. -/
theorem jsonStruct_union_branches (g : Registry) (st : Vars) (rank : Nat → Nat)
    (hwalk : GroupWalk g rank) (nid : Nat) (n : Node) (hn : g.get nid = some n) (fuel : Nat)
    (hfuel : rank nid ≤ fuel) (imp : List String) :
    (∃ mbrs out imp1 outs, codeOrderFields n.struct.fields = .ok mbrs ∧
      mbrs.Perm n.struct.fields ∧
      (∀ (i : Nat) (f : Field), mbrs[i]? = some f → f.codeOrder = i) ∧
      jsonStruct g st (fuel + 1) nid imp = .ok (out, imp1) ∧
      out = "err = b.WriteByte('\x7b');" ++ errCheck ++ concatStrings outs ++
        "err = b.WriteByte('\x7d');" ++ errCheck ∧
      List.Forall₂ (fun (e : Nat × Field) o =>
        ∃ value, jsonValue g st fuel e.2 value ∧
          (e.2.discriminantValue ≠ 0xFFFF →
            o = "if s.Which() == " ++ (ToUpper (st nid).name ++ "_" ++ ToUpper e.2.name) ++
              " \x7b" ++ keyWrite e.2 ++ value ++ "\x7d;") ∧
          (e.2.discriminantValue = 0xFFFF →
            o = (if e.1 ≠ 0 then commaWrite ++ errCheck else "") ++ keyWrite e.2 ++ value))
        (mbrs.enumFrom 0) outs) ∧
    jsonStruct pairRegistry pairVars 1 13 [] =
      .ok ("err = b.WriteByte('\x7b');" ++ errCheck ++
        ("if s.Which() == PAIR_A \x7b" ++ keyWrite pairA ++
          ("_ = s;" ++ "_, err = b.WriteString(\"null\");" ++ errCheck) ++ "\x7d;") ++
        ("if s.Which() == PAIR_B \x7b" ++ keyWrite pairB ++
          ("\x7b s := s.B(); " ++ ("buf, err = json.Marshal(s);" ++ errCheck ++
            "_, err = b.Write(buf);" ++ errCheck) ++ "\x7d; ") ++ "\x7d;") ++
        "err = b.WriteByte('\x7d');" ++ errCheck, ["encoding/json"]) := by
  refine ⟨?_, by decide⟩
  obtain ⟨mbrs, hm, _, hpm, _, hidx⟩ := codeOrderFields_perm n.struct.fields (hwalk.perm nid n hn)
  obtain ⟨r, hrun⟩ := jsonStruct_returns g st rank hwalk (fuel + 1) nid (by omega)
    (by simp [hn]) imp
  obtain ⟨out, imp1⟩ := r
  obtain ⟨outs, ho, hall⟩ := jsonStruct_pieces g st nid n mbrs hn hm fuel imp out imp1 hrun
  refine ⟨mbrs, out, imp1, outs, hm, hpm, hidx, hrun, ho, hall.imp ?_⟩
  intro e o he
  obtain ⟨value, imp0, imp2, hv, hoe⟩ := he
  refine ⟨value, Field_json_value g st fuel e.2 imp0 imp2 value hv, ?_, ?_⟩
  · intro hd
    rw [hoe]
    simp [memberOpening, memberClosing, whichGuard, hd]
  · intro hd
    rw [hoe]
    simp [memberOpening, memberClosing, hd]

set_option maxRecDepth 40000 in
/-- Witness of C23 on `Shape`, the 2-member union `{a: void, b: uint8}` followed by the
group `g`: `jsonStruct` returns through the group, and writes three pieces, the third
holding what it writes for the group node. -/
theorem jsonStruct_union_branches_witness :
    ∃ out imp1 outs, jsonStruct mixedRegistry mixedVars 2 10 [] = .ok (out, imp1) ∧
      out = "err = b.WriteByte('\x7b');" ++ errCheck ++ concatStrings outs ++
        "err = b.WriteByte('\x7d');" ++ errCheck ∧
      outs.length = 3 ∧
      (jsonStruct mixedRegistry mixedVars 1 11 []).toOption.map (fun r => r.1) =
        some ("err = b.WriteByte('\x7b');" ++ errCheck ++
          ("_, err = b.WriteString(\"\\\"r\\\":\");" ++ errCheck ++
            ("\x7b s := s.R(); " ++ ("buf, err = json.Marshal(s);" ++ errCheck ++
              "_, err = b.Write(buf);" ++ errCheck) ++ "\x7d; ")) ++
          "err = b.WriteByte('\x7d');" ++ errCheck) := by
  have hwalk : GroupWalk mixedRegistry shapeRank := by
    unfold GroupWalk
    decide
  obtain ⟨⟨mbrs, out, imp1, outs, hm, _, _, hrun, ho, hall⟩, _⟩ :=
    jsonStruct_union_branches mixedRegistry mixedVars shapeRank hwalk 10 unionStruct rfl 1
      (by decide) []
  have hl := hall.length_eq
  have hmb : codeOrderFields unionStruct.struct.fields =
      .ok [pairA, pairB, { name := "g", codeOrder := 2, which := FIELD_GROUP, group := ⟨11⟩ }] := by
    decide
  rw [hmb] at hm
  rw [← Except.ok.inj hm] at hl
  exact ⟨out, imp1, outs, hrun, ho, hl.symm, by decide⟩

theorem enumTag_eq_last : ∀ (anns : List Annotation) (t : String),
    enumTag anns t =
      match lastTagMark anns with
      | none => t
      | some a => if a.id = AnnotationId.Tag then a.value.Text else "" := by
  intro anns
  induction anns with
  | nil => intro t; rfl
  | cons an rest ih =>
    intro t
    have hl : lastTagMark (an :: rest) =
        (lastTagMark rest).or
          (if an.id = AnnotationId.Tag ∨ an.id = AnnotationId.Notag then some an else none) := by
      simp only [lastTagMark, List.reverse_cons, List.find?_append, List.find?_cons,
        List.find?_nil]
      by_cases h : an.id = AnnotationId.Tag ∨ an.id = AnnotationId.Notag <;> simp [h]
    rw [hl]
    simp only [enumTag]
    by_cases h1 : an.id = AnnotationId.Tag
    · rw [if_pos h1, ih]
      cases lastTagMark rest with
      | none => simp [h1]
      | some a => simp
    · rw [if_neg h1]
      by_cases h2 : an.id = AnnotationId.Notag
      · rw [if_pos h2, ih]
        cases lastTagMark rest with
        | none => simp [h1, h2]
        | some a => simp
      · rw [if_neg h2, ih]
        cases lastTagMark rest with
        | none => simp [h1, h2]
        | some a => simp

theorem mem_enumTable (name : String) (ev : List enumval) (p : String × String) :
    p ∈ enumTable name ev ↔ ∃ v ∈ ev, v.tag ≠ "" ∧ p = (constName name v, v.tag) := by
  simp only [enumTable, List.mem_map, List.mem_filter, decide_eq_true_eq]
  constructor
  · rintro ⟨v, ⟨hv, ht⟩, rfl⟩
    exact ⟨v, hv, ht, rfl⟩
  · rintro ⟨v, hv, ht, rfl⟩
    exact ⟨v, ⟨hv, ht⟩, rfl⟩

set_option maxRecDepth 40000 in
/-- **C21 (as stated), refuted.** The enumerant `a` carries the no-tag annotation and,
after it, the tag `x`: its String tag is `x` and both switches have a case for it.  The
enumerant `b` has the tag annotation `y` and, after it, the no-tag annotation: its String
tag is empty. -/
theorem defineEnum_notag_counterexample :
    (enumVals 22 tagEnum.enum.enumerants).toOption.map (fun ev => ev.map (fun v => v.tag)) =
      some ["x", ""] ∧
    defineEnum tagRegistry tagVars 22 =
      .ok ("type T uint16\n" ++ "const (\n" ++ "T_A T = 0\n" ++ "T_B T = 1\n" ++ ")\n" ++
        "func (c T) String() string \x7b\n" ++ "switch c \x7b\n" ++
        "case T_A: return \"x\"\n" ++ "default: return \"\"\n" ++ "\x7d\n\x7d\n\n" ++
        "func TFromString(c string) T \x7b\n" ++ "switch c \x7b\n" ++
        "case \"x\": return T_A\n" ++ "default: return 0\n" ++ "\x7d\n\x7d\n") := by
  refine ⟨by decide, by decide⟩

/-- **C21 (amended).** For an enum with `n ≥ 1` enumerants whose code orders are a
permutation of `0..n-1`, `defineEnum` returns, and the String tag it assigns to an
enumerant is decided by the last of its annotations that is a tag or a no-tag annotation:
the text of that annotation when it is a tag annotation, the empty string when it is a
no-tag annotation, and the effective name of the enumerant (name override, else declared
name) when it has neither.  The `String` and `FromString` switches have one case for each
entry whose String tag is not empty, and none for the others. -/
theorem defineEnum_tags (g : Registry) (st : Vars) (nid : Nat) (n : Node)
    (hn : g.get nid = some n) (hlen : 1 ≤ n.enum.enumerants.length)
    (hperm : (n.enum.enumerants.map (fun e => e.codeOrder)).Perm
      (List.range n.enum.enumerants.length)) :
    ∃ ev, enumVals nid n.enum.enumerants = .ok ev ∧
      defineEnum g st nid =
        .ok (docLines n.annotations "" ++ ("type " ++ (st nid).name ++ " uint16\n") ++
          "const (\n" ++ concatStrings (ev.map (constLine (st nid).name)) ++ ")\n" ++
          stringFuncsText (st nid).name (enumTable (st nid).name ev)) ∧
      (∀ (i : Nat) (e : Enumerant), n.enum.enumerants[i]? = some e →
        ∃ v, ev[e.codeOrder]? = some v ∧ v.val = i ∧
          v.name = effectiveName e.annotations e.name ∧
          (lastTagMark e.annotations = none → v.tag = effectiveName e.annotations e.name) ∧
          (∀ a, lastTagMark e.annotations = some a → a.id = AnnotationId.Tag →
            v.tag = a.value.Text) ∧
          (∀ a, lastTagMark e.annotations = some a → a.id = AnnotationId.Notag →
            v.tag = "")) ∧
      (∀ p, p ∈ enumTable (st nid).name ev ↔
        ∃ v ∈ ev, v.tag ≠ "" ∧ p = (constName (st nid).name v, v.tag)) := by
  obtain ⟨ev, hev, _, hp, hidx⟩ := enumVals_perm nid n.enum.enumerants hperm
  refine ⟨ev, hev, defineEnum_of_vals g st nid n ev hn hlen hev hp, ?_,
    mem_enumTable (st nid).name ev⟩
  intro i e hie
  refine ⟨enumvalOf nid i e, hidx i e hie, rfl, rfl, ?_, ?_, ?_⟩
  · intro hnone
    simp only [enumvalOf, enumTag_eq_last, hnone]
  · intro a ha hid
    simp only [enumvalOf, enumTag_eq_last, ha, hid, if_true]
  · intro a ha hid
    have : ¬ a.id = AnnotationId.Tag := by rw [hid]; decide
    simp only [enumvalOf, enumTag_eq_last, ha, this, if_false]

/-- Witness of C21 (amended) on the enum `Color`: `red` (tag annotation `r`, code order 0)
has the String tag `r`, `green` (no annotation, code order 1) its own name, and `blue`
(no-tag annotation, code order 2) the empty string. -/
theorem defineEnum_tags_witness :
    ∃ ev, enumVals 20 colorEnum.enum.enumerants = .ok ev ∧
      ev.map (fun v => v.tag) = ["r", "green", ""] := by
  obtain ⟨ev, hev, _, _, _⟩ :=
    defineEnum_tags enumRegistry enumVars 20 colorEnum rfl (by decide) (by decide)
  refine ⟨ev, hev, ?_⟩
  have h : enumVals 20 colorEnum.enum.enumerants =
      .ok [enumvalOf 20 1 colorRed, enumvalOf 20 0 colorGreen, enumvalOf 20 2 colorBlue] := by
    decide
  rw [h] at hev
  rw [← Except.ok.inj hev]
  decide

set_option maxRecDepth 40000 in
/-- **C24, on the failing input.** For a constant of the enum type `Color` (declared
green, red, blue) with the ordinal 0, `writeValue` emits the identifier `green`, the
declared name of the enumerant (`red` for the ordinal 1, and `p.green` from another
package), while the constant `defineEnum` declares with the value 0 is `COLOR_GREEN` (and
`COLOR_RED` with the value 1). -/
theorem writeValue_enum_identifier (lib : Stdlib) :
    writeValue enumRegistry enumVars lib (enumVars 20) (SchemaType.enum 20) (Value.enum 0) [] =
      .ok ("green", []) ∧
    writeValue enumRegistry enumVars lib (enumVars 20) (SchemaType.enum 20) (Value.enum 1) [] =
      .ok ("red", []) ∧
    writeValue enumRegistry (fun i => { enumVars i with imp := "pkg/p" }) lib exampleRemote
      (SchemaType.enum 20) (Value.enum 0) [] = .ok ("p.green", ["pkg/p"]) ∧
    defineEnum enumRegistry enumVars 20 =
      .ok ("type Color uint16\n" ++ "const (\n" ++ "COLOR_RED Color = 1\n" ++
        "COLOR_GREEN Color = 0\n" ++ "COLOR_BLUE Color = 2\n" ++ ")\n" ++
        stringFuncsText "Color" [("COLOR_RED", "r"), ("COLOR_GREEN", "green")]) := by
  refine ⟨rfl, rfl, rfl, by decide⟩

/-- **C25 (code).** On a numeric field, `processAnnotations` renders a Max annotation
with the bound `v` as the tag `max:"v"` in plain decimal, a Min annotation as
`min:"%!s(int64=v)"` and a Multof annotation as `multof:"%!s(int32=v)"`: the two are
formatted with the verb `%s`, which Go prints in its bad-verb form for an integer. -/
theorem processAnnotations_min_multof (codecs : List AnnotationId) (v : Int) :
    processAnnotations codecs TYPE_INT32 [⟨AnnotationId.Max, Value.int64 v⟩] =
      .ok ("`" ++ ("max:\"" ++ fmtInt v ++ "\"") ++ "`") ∧
    processAnnotations codecs TYPE_INT32 [⟨AnnotationId.Min, Value.int64 v⟩] =
      .ok ("`" ++ ("min:\"%!s(int64=" ++ fmtInt v ++ ")\"") ++ "`") ∧
    processAnnotations codecs TYPE_INT32 [⟨AnnotationId.Multof, Value.int32 v⟩] =
      .ok ("`" ++ ("multof:\"%!s(int32=" ++ fmtInt v ++ ")\"") ++ "`") ∧
    processAnnotations [] TYPE_INT32 [⟨AnnotationId.Min, Value.int64 5⟩] =
      .ok "`min:\"%!s(int64=5)\"`" ∧
    processAnnotations [] TYPE_FLOAT64 [⟨AnnotationId.Multof, Value.int32 3⟩] =
      .ok "`multof:\"%!s(int32=3)\"`" ∧
    processAnnotations [] TYPE_INT32 [⟨AnnotationId.Max, Value.int64 5⟩] = .ok "`max:\"5\"`" := by
  refine ⟨?_, ?_, ?_, by decide, by decide, by decide⟩ <;>
    simp [processAnnotations, hasAnnotation, codecTags, checkTags, joinStrings, Value.Int64,
      Value.Int32]

theorem fillByIndex_out_of_range {α : Type} :
    ∀ (entries : List (Nat × α)) (arr : List α), (∃ e ∈ entries, arr.length ≤ e.1) →
      fillByIndex arr entries = .error (Err.panic "index out of range") := by
  intro entries
  induction entries with
  | nil => intro arr h; obtain ⟨e, he, _⟩ := h; cases he
  | cons a rest ih =>
    intro arr h
    simp only [fillByIndex]
    by_cases ha : a.1 < arr.length
    · rw [if_pos ha]
      apply ih
      obtain ⟨e, he, hle⟩ := h
      rcases List.mem_cons.1 he with rfl | hm
      · exact absurd ha (Nat.not_lt.2 hle)
      · exact ⟨e, hm, by rw [List.length_set]; exact hle⟩
    · rw [if_neg ha]

/-- **C26.** For a struct whose fields' code-order indices are a permutation of `0..n-1`
(`n` the number of fields), every index `codeOrderFields` assigns at is below `n`, and it
returns a list of length `n` that is a permutation of the field list, with the field of
code order `i` at position `i`.  (An index of `n` or more is Go's index-out-of-range
panic.) -/
theorem codeOrderFields_in_bounds (n : Node)
    (hperm : (n.struct.fields.map (fun f => f.codeOrder)).Perm
      (List.range n.struct.fields.length)) :
    (∀ f ∈ n.struct.fields, f.codeOrder < n.struct.fields.length) ∧
    (∃ mbrs, codeOrderFields n.struct.fields = .ok mbrs ∧
      mbrs.length = n.struct.fields.length ∧ mbrs.Perm n.struct.fields ∧
      (∀ f ∈ n.struct.fields, mbrs[f.codeOrder]? = some f) ∧
      (∀ (i : Nat) (f : Field), mbrs[i]? = some f → f.codeOrder = i)) ∧
    (∀ fields : List Field, (∃ f ∈ fields, fields.length ≤ f.codeOrder) →
      codeOrderFields fields = .error (Err.panic "index out of range")) := by
  refine ⟨?_, codeOrderFields_perm n.struct.fields hperm, ?_⟩
  · intro f hf
    have hm : f.codeOrder ∈ n.struct.fields.map (fun f => f.codeOrder) :=
      List.mem_map_of_mem _ hf
    exact List.mem_range.1 (hperm.mem_iff.1 hm)
  · intro fields h
    obtain ⟨f, hf, hle⟩ := h
    unfold codeOrderFields
    apply fillByIndex_out_of_range
    exact ⟨(f.codeOrder, f), List.mem_map_of_mem _ hf, by simpa using hle⟩

/-- Witness of C26 on `Point`, declared `y` (code order 1) then `x` (code order 0): the
result is `x`, `y`. -/
theorem codeOrderFields_in_bounds_witness :
    ∃ mbrs, codeOrderFields pointStruct.struct.fields = .ok mbrs ∧ mbrs.length = 2 ∧
      mbrs.map (fun f => f.name) = ["x", "y"] := by
  obtain ⟨mbrs, hm, hl, _, _, _⟩ := (codeOrderFields_in_bounds pointStruct (by decide)).2.1
  refine ⟨mbrs, hm, hl, ?_⟩
  have h : codeOrderFields pointStruct.struct.fields =
      .ok [{ name := "x", codeOrder := 0, slot := { offset := 0, type := SchemaType.int32 } },
           { name := "y", codeOrder := 1, slot := { offset := 1, type := SchemaType.int32 } }] := by
    decide
  rw [h] at hm
  rw [← Except.ok.inj hm]
  rfl

end Caps
